import Mathlib

/-!
# Image metadata forensics: consistency engine, GPS decoder, signature detector, validation
gate, result cache, identifier generator and service

A shallow embedding of `src/src/metadata.cpp`, `src/src/util.cpp`, `src/src/service.cpp` and
`src/src/storage.cpp`.

Modelling conventions
* `std::string` is a Lean `String`; the regular-expression matchers work on its character list.
* A `json` object whose shape is fixed by the code that builds it is a structure with one
  optional field per key; the `json gps` value built key by key in `parseGpsInfo` is a
  `Json` (null, or an object holding its members).
* `double` is `Dbl`: IEEE binary64 with the default rounding, every result of an operation
  being rounded to the nearest value, ties to even, with overflow to an infinity and gradual
  underflow. A finite value is held as its sign bit and its exact magnitude.
* The file system is a function from paths to the state of the file at that path; the cache
  directory is the list of its entries.
* An exception that leaves a function is the result `none`; `std::stod` throws when its
  result overflows.
* Time points are tick counts of `std::chrono::system_clock`, passed to each call of the cache
  as the clock reading `now`. An `std::unordered_map` is an association list read through
  `List.lookup`.
* The external parser and `std::sort` are parameters; the tasks of a batch read one unchanged
  file system, their scheduling is not represented. Sizes are natural numbers.
* The values drawn from the random distributions of `generateUuid` are parameters.
-/

namespace ImageForensics


/-! ## Values: `double` and `json` -/

/-- Rounding to the nearest integer, ties to even. -/
def roundHalfEven (q : ℚ) : ℤ :=
  let f := ⌊q⌋
  if q - f < 1 / 2 then f
  else if 1 / 2 < q - f then f + 1
  else if f % 2 = 0 then f else f + 1

/-- The magnitude of the binary64 value nearest to the non-negative rational `a`, ties to
even: 53 significant bits, the unit in the last place being `2 ^ (e - 52)` for
`2 ^ e ≤ a < 2 ^ (e + 1)` and `2 ^ (-1074)` in the subnormal range. The result is `none` when
the rounded magnitude is `2 ^ 1024`, beyond the largest finite value: the rounding overflows,
which happens from `a = 2 ^ 1024 - 2 ^ 970` on. -/
def roundMagnitude (a : ℚ) : Option ℚ :=
  let e := max (Int.log 2 a) (-1022)
  let ulp : ℚ := 2 ^ (e - 52)
  let v := (roundHalfEven (a / ulp) : ℚ) * ulp
  if v < 2 ^ 1024 then some v else none

/-- A `double`: a finite value given by its sign bit and its magnitude (so that `fin true 0`
is the negative zero), an infinity, or a NaN with its sign bit. The magnitude of a finite
value that an operation returns is a binary64 magnitude, rounded by `roundMagnitude`. -/
inductive Dbl
  | fin (negative : Bool) (magnitude : ℚ)
  | inf (negative : Bool)
  | nan (negative : Bool)
deriving DecidableEq

namespace Dbl

/-- The `double` returned by an operation whose exact result has the sign `negative` and the
magnitude `a`: the nearest value, an infinity when the rounding overflows. -/
def round (negative : Bool) (a : ℚ) : Dbl :=
  match roundMagnitude a with
  | some v => fin negative v
  | none => inf negative

/-- Unary minus: the sign bit is flipped. -/
def neg : Dbl → Dbl
  | fin s a => fin (!s) a
  | inf s => inf (!s)
  | nan s => nan (!s)

/-- IEEE addition, rounded to nearest. An exact sum zero of two values of opposite sign is
the positive zero. The NaN of an invalid operation has its sign bit set, as on x86-64; a NaN
operand is returned as it is. -/
def add : Dbl → Dbl → Dbl
  | fin s a, fin t b =>
    if s = t then round s (a + b)
    else if b < a then round s (a - b)
    else if a < b then round t (b - a)
    else fin false 0
  | fin _ _, inf t => inf t
  | inf s, fin _ _ => inf s
  | inf s, inf t => if s = t then inf s else nan true
  | nan s, _ => nan s
  | _, nan t => nan t

/-- IEEE division, rounded to nearest: a non-zero value over zero is an infinity, zero over
zero is the NaN of an invalid operation, whose sign bit is set as on x86-64. -/
def div : Dbl → Dbl → Dbl
  | fin s a, fin t b =>
    if b = 0 then (if a = 0 then nan true else inf (xor s t)) else round (xor s t) (a / b)
  | fin s _, inf t => fin (xor s t) 0
  | inf s, fin t _ => inf (xor s t)
  | inf _, inf _ => nan true
  | nan s, _ => nan s
  | _, nan t => nan t

end Dbl

/-- A value stored under a key of the `gps` object: a number or a string. -/
inductive JValue
  | number (d : Dbl)
  | string (s : String)
deriving DecidableEq

/-- The `json gps` value of `parseGpsInfo`: null as default-constructed, an object once a key
has been assigned. The members are observed through `Json.get` only. -/
inductive Json
  | null
  | object (members : List (String × JValue))
deriving DecidableEq

namespace Json

/-- The assignment `j[k] = v`: null becomes an object, an existing member is replaced. -/
def set (j : Json) (k : String) (v : JValue) : Json :=
  match j with
  | null => object [(k, v)]
  | object members => object ((k, v) :: members.filter (fun p => p.1 != k))

/-- The member stored under `k`, if any. -/
def get (j : Json) (k : String) : Option JValue :=
  match j with
  | null => none
  | object members => members.lookup k

/-- The test `j.contains(k)`. -/
def contains (j : Json) (k : String) : Bool := (j.get k).isSome

end Json

/-! ## Consistency engine (`MetadataExtractor::checkMetadataConsistency`) -/

/-- One entry of `tampering_indicators`: a JSON object whose members are all strings. -/
abbrev Indicator := List (String × String)

/-- The `exif` object that `extractMetadata` builds (keys `make` ... `all`). -/
structure Exif where
  make : Option String
  model : Option String
  datetime_original : Option String
  datetime_modified : Option String
  width : Option Nat
  height : Option Nat
  gps : Option Json
  software : Option String
  all : List (String × String)

/-- The `metadata` object that `extractMetadata` returns. -/
structure Metadata where
  filename : String
  filesize : Nat
  exif : Option Exif
  iptc : Option (List (String × String))
  xmp : Option (List (String × String))

/-- The `forensics` object that `checkMetadataConsistency` returns. -/
structure Forensics where
  is_tampered : Bool
  tampering_indicators : List Indicator
  thumbnail_check : Option String
deriving DecidableEq, Repr

/-- The alternatives of the regular expression
`photoshop|gimp|lightroom|affinity|pixelmator`. -/
def editingSoftwareWords : List String :=
  ["photoshop", "gimp", "lightroom", "affinity", "pixelmator"]

/-- Match of a literal at the start of the input under `std::regex_constants::icase`:
both characters are compared after `tolower`. -/
def matchLiteralNocase : List Char → List Char → Bool
  | [], _ => true
  | _ :: _, [] => false
  | p :: ps, c :: cs => (c.toLower == p.toLower) && matchLiteralNocase ps cs

/-- Match of an alternation of literals at the start of the input. -/
def matchAlternativesAt (alts : List (List Char)) (input : List Char) : Bool :=
  alts.any (fun p => matchLiteralNocase p input)

/-- The search `std::regex_search(s, re)` for an alternation of literals: a match may start at
any position of the input. -/
def regexSearchNocase (alts : List (List Char)) : List Char → Bool
  | [] => matchAlternativesAt alts []
  | c :: cs => matchAlternativesAt alts (c :: cs) || regexSearchNocase alts cs

/-- The test `std::regex_search(software, editingSoftwareRegex)`. -/
def editingSoftwareSearch (software : String) : Bool :=
  regexSearchNocase (editingSoftwareWords.map String.data) software.data

/-- The indicator pushed by the time rule. -/
def timeMismatchIndicator (originalTime modifiedTime : String) : Indicator :=
  [("type", "time_mismatch"),
   ("description", "Creation time and modification time do not match"),
   ("original_time", originalTime),
   ("modified_time", modifiedTime)]

/-- The indicator pushed by the software rule. -/
def editingSoftwareIndicator (software : String) : Indicator :=
  [("type", "editing_software"),
   ("description", "Image was processed with editing software"),
   ("software", software)]

/-- First block of `checkMetadataConsistency`: creation time against modification time. -/
def checkTimes (metadata : Metadata) (forensics : Forensics) : Forensics :=
  match metadata.exif with
  | none => forensics
  | some exif =>
    match exif.datetime_original, exif.datetime_modified with
    | some originalTime, some modifiedTime =>
      if originalTime ≠ modifiedTime then
        { forensics with
          is_tampered := true
          tampering_indicators :=
            forensics.tampering_indicators ++ [timeMismatchIndicator originalTime modifiedTime] }
      else forensics
    | _, _ => forensics

/-- Second block of `checkMetadataConsistency`: the software tag. -/
def checkSoftware (metadata : Metadata) (forensics : Forensics) : Forensics :=
  match metadata.exif with
  | none => forensics
  | some exif =>
    match exif.software with
    | some software =>
      if editingSoftwareSearch software then
        { forensics with
          is_tampered := true
          tampering_indicators :=
            forensics.tampering_indicators ++ [editingSoftwareIndicator software] }
      else forensics
    | none => forensics

/-- Third block of `checkMetadataConsistency`: the thumbnail placeholder. -/
def checkThumbnail (metadata : Metadata) (forensics : Forensics) : Forensics :=
  match metadata.exif with
  | none => forensics
  | some exif =>
    if (exif.all.lookup "Exif.Thumbnail.Compression").isSome then
      { forensics with
        thumbnail_check := some "Thumbnail exists, but comparison not implemented" }
    else forensics

/-- The function `MetadataExtractor::checkMetadataConsistency`. -/
def checkMetadataConsistency (metadata : Metadata) : Forensics :=
  let forensics : Forensics :=
    { is_tampered := false, tampering_indicators := [], thumbnail_check := none }
  checkThumbnail metadata (checkSoftware metadata (checkTimes metadata forensics))

/-- The `type` member of an indicator. -/
def indicatorType (ind : Indicator) : Option String := ind.lookup "type"

/-- The indicators of a given type in a verdict. -/
def indicatorsOfType (ty : String) (f : Forensics) : List Indicator :=
  f.tampering_indicators.filter (fun ind => indicatorType ind == some ty)

/-! ## GPS decoder (`MetadataExtractor::parseGpsInfo`) -/

/-- The number a string of decimal digits denotes. -/
def digitsValue (digits : List Char) : Nat :=
  digits.foldl (fun acc c => 10 * acc + (c.toNat - 48)) 0

/-- The call `std::stod(str)` on a string of decimal digits: the `double` nearest to the
number; `none` when that rounding overflows, in which case `std::stod` throws
`std::out_of_range`. -/
def stod (digits : List Char) : Option Dbl :=
  (roundMagnitude (digitsValue digits)).map (Dbl.fin false)

/-- A non-empty run of decimal digits: an unsigned decimal integer, what `\d+` matches. -/
def IsDigits (ds : List Char) : Prop := ds ≠ [] ∧ ∀ c ∈ ds, c.isDigit = true

instance (ds : List Char) : Decidable (IsDigits ds) := by
  unfold IsDigits
  infer_instance

/-- The characters of `"d1/d2 m1/m2 s1/s2"`. -/
def dmsChars (d1 d2 m1 m2 s1 s2 : List Char) : List Char :=
  d1 ++ '/' :: (d2 ++ ' ' :: (m1 ++ '/' :: (m2 ++ ' ' :: (s1 ++ '/' :: s2))))

/-- A group `(\d+)` at the start of the input: the longest run of digits, which must not be
empty, and the input after it. In both patterns below a group is followed by a character that
is not a digit or by the end of the pattern, so a shorter run never leads to a match and the
longest run is the one a backtracking matcher reports. -/
def takeDigits (input : List Char) : Option (List Char × List Char) :=
  match input.span Char.isDigit with
  | ([], _) => none
  | (d :: ds, rest) => some (d :: ds, rest)

/-- A literal character at the start of the input. -/
def expectChar (c : Char) : List Char → Option (List Char)
  | [] => none
  | x :: xs => if x = c then some xs else none

/-- A string that is exactly of the form `"d1/d2 m1/m2 s1/s2"`, every component an unsigned
decimal integer. -/
def IsDmsString (s : String) : Prop :=
  ∃ d1 d2 m1 m2 s1 s2, IsDigits d1 ∧ IsDigits d2 ∧ IsDigits m1 ∧ IsDigits m2 ∧ IsDigits s1 ∧
    IsDigits s2 ∧ s.data = dmsChars d1 d2 m1 m2 s1 s2

/-- A string with a substring of the form `"d1/d2 m1/m2 s1/s2"`. -/
def ContainsDms (s : String) : Prop :=
  ∃ pre post d1 d2 m1 m2 s1 s2, IsDigits d1 ∧ IsDigits d2 ∧ IsDigits m1 ∧ IsDigits m2 ∧
    IsDigits s1 ∧ IsDigits s2 ∧ s.data = pre ++ dmsChars d1 d2 m1 m2 s1 s2 ++ post

/-- The formula of the specification: `d1/d2 + (m1/m2)/60 + (s1/s2)/3600` as an exact
rational. -/
def dmsRational (d1 d2 m1 m2 s1 s2 : Nat) : ℚ :=
  (d1 : ℚ) / d2 + (m1 : ℚ) / m2 / 60 + (s1 : ℚ) / s2 / 3600

/-- The sub-matches 1 to 6 of the pattern `(\d+)/(\d+) (\d+)/(\d+) (\d+)/(\d+)`. -/
structure DmsMatch where
  d1 : List Char
  d2 : List Char
  m1 : List Char
  m2 : List Char
  s1 : List Char
  s2 : List Char
deriving DecidableEq

/-- Match of `(\d+)/(\d+) (\d+)/(\d+) (\d+)/(\d+)` starting at the first character. -/
def matchDmsAt (input : List Char) : Option DmsMatch := do
  let (d1, r) ← takeDigits input
  let r ← expectChar '/' r
  let (d2, r) ← takeDigits r
  let r ← expectChar ' ' r
  let (m1, r) ← takeDigits r
  let r ← expectChar '/' r
  let (m2, r) ← takeDigits r
  let r ← expectChar ' ' r
  let (s1, r) ← takeDigits r
  let r ← expectChar '/' r
  let (s2, _) ← takeDigits r
  pure ⟨d1, d2, m1, m2, s1, s2⟩

/-- The search `std::regex_search(str, matches, dmsRegex)`: the match at the leftmost position
where the pattern matches; the text before and after the match is not constrained. -/
def regexSearchDms : List Char → Option DmsMatch
  | [] => none
  | c :: cs =>
    match matchDmsAt (c :: cs) with
    | some m => some m
    | none => regexSearchDms cs

/-- Match of `(\d+)/(\d+)` starting at the first character: sub-matches 1 and 2. -/
def matchFractionAt (input : List Char) : Option (List Char × List Char) := do
  let (n, r) ← takeDigits input
  let r ← expectChar '/' r
  let (d, _) ← takeDigits r
  pure (n, d)

/-- The search `std::regex_search(altStr, matches, fractionRegex)`. -/
def regexSearchFraction : List Char → Option (List Char × List Char)
  | [] => none
  | c :: cs =>
    match matchFractionAt (c :: cs) with
    | some m => some m
    | none => regexSearchFraction cs

/-- The quotient `std::stod(num) / std::stod(den)` of two sub-matches; `none` when one of
the two calls of `std::stod` throws. -/
def stodQuotient (num den : List Char) : Option Dbl :=
  match stod num, stod den with
  | some x, some y => some (Dbl.div x y)
  | _, _ => none

/-- The value `degrees + minutes / 60.0 + seconds / 3600.0` of a match; `none` when a call of
`std::stod` throws. -/
def dmsValue (m : DmsMatch) : Option Dbl :=
  match stodQuotient m.d1 m.d2, stodQuotient m.m1 m.m2, stodQuotient m.s1 m.s2 with
  | some degrees, some minutes, some seconds =>
    some (Dbl.add (Dbl.add degrees (Dbl.div minutes (Dbl.fin false 60)))
      (Dbl.div seconds (Dbl.fin false 3600)))
  | _, _, _ => none

/-- The output of `stream << std::fixed << std::setprecision(6) << x`: the decimal expansion
of the binary value rounded to six places, ties to even, after the sign. -/
def formatFixed6 : Dbl → String
  | Dbl.fin s a =>
    let n := (roundHalfEven (a * 1000000)).toNat
    let frac := toString (n % 1000000)
    (if s then "-" else "") ++ toString (n / 1000000) ++ "."
      ++ String.mk (List.replicate (6 - frac.length) '0') ++ frac
  | Dbl.inf s => if s then "-inf" else "inf"
  | Dbl.nan s => if s then "-nan" else "nan"

/-- The value that the latitude block or the longitude block of `parseGpsInfo` computes:
`some (some v)` when the value tag and the reference tag are both present and the value has a
match of the pattern, `v` being negated when the reference equals `negRef`; `some none` when
the block assigns nothing; `none` when `std::stod` throws. -/
def coordinateValue (exifData : List (String × String)) (valueTag refTag negRef : String) :
    Option (Option Dbl) :=
  match exifData.lookup valueTag, exifData.lookup refTag with
  | some str, some ref =>
    match regexSearchDms str.data with
    | some m =>
      match dmsValue m with
      | some value => some (some (if ref = negRef then Dbl.neg value else value))
      | none => none
    | none => some none
  | _, _ => some none

/-- The latitude block or the longitude block of `parseGpsInfo`: `key` is assigned the value
computed. The result is `none` when `std::stod` throws: the block has no handler and the
exception leaves `parseGpsInfo`. -/
def parseCoordinate (exifData : List (String × String)) (valueTag refTag negRef key : String)
    (gps : Json) : Option Json :=
  match coordinateValue exifData valueTag refTag negRef with
  | none => none
  | some none => some gps
  | some (some value) => some (gps.set key (JValue.number value))

/-- The value that the altitude block of `parseGpsInfo` computes: `some none` when the block
assigns nothing, `none` when `std::stod` throws. -/
def altitudeValue (exifData : List (String × String)) : Option (Option Dbl) :=
  match exifData.lookup "Exif.GPSInfo.GPSAltitude" with
  | some altStr =>
    match regexSearchFraction altStr.data with
    | some (n, d) =>
      match stodQuotient n d with
      | some altitude =>
        match exifData.lookup "Exif.GPSInfo.GPSAltitudeRef" with
        | some altRef => some (some (if altRef = "1" then Dbl.neg altitude else altitude))
        | none => some (some altitude)
      | none => none
    | none => some none
  | none => some none

/-- The altitude block of `parseGpsInfo`; `none` when `std::stod` throws. -/
def parseAltitude (exifData : List (String × String)) (gps : Json) : Option Json :=
  match altitudeValue exifData with
  | none => none
  | some none => some gps
  | some (some altitude) => some (gps.set "altitude" (JValue.number altitude))

/-- The timestamp block of `parseGpsInfo`. -/
def parseTimestamp (exifData : List (String × String)) (gps : Json) : Json :=
  match exifData.lookup "Exif.GPSInfo.GPSTimeStamp",
        exifData.lookup "Exif.GPSInfo.GPSDateStamp" with
  | some timeStr, some dateStr => gps.set "timestamp" (JValue.string (dateStr ++ " " ++ timeStr))
  | _, _ => gps

/-- The last block of `parseGpsInfo`: the readable location string. -/
def formatLocation (gps : Json) : Json :=
  match gps.get "latitude", gps.get "longitude" with
  | some (JValue.number lat), some (JValue.number lon) =>
    gps.set "location_string" (JValue.string (formatFixed6 lat ++ ", " ++ formatFixed6 lon))
  | _, _ => gps

/-- The function `MetadataExtractor::parseGpsInfo`; `exifData` is the `std::map` of the GPS
tags. The result is `none` when an exception of `std::stod` leaves the function, in which case
no value is returned, whatever the other blocks would have decoded. -/
def parseGpsInfo (exifData : List (String × String)) : Option Json :=
  match parseCoordinate exifData "Exif.GPSInfo.GPSLatitude" "Exif.GPSInfo.GPSLatitudeRef"
      "S" "latitude" Json.null with
  | none => none
  | some gps =>
    match parseCoordinate exifData "Exif.GPSInfo.GPSLongitude"
        "Exif.GPSInfo.GPSLongitudeRef" "W" "longitude" gps with
    | none => none
    | some gps =>
      match parseAltitude exifData gps with
      | none => none
      | some gps => some (formatLocation (parseTimestamp exifData gps))

/-- Modelled from the spec: the encoder of the round-trip property of section 8, absent from
the repository. A non-negative coordinate `v` is written `"d/1 m/1 s/100"` with `d` the whole
degrees, `m` the whole minutes and `s` the remaining seconds in whole hundredths. -/
def encodeDms (v : ℚ) : String :=
  let d := ⌊v⌋.toNat
  let m := ⌊(v - d) * 60⌋.toNat
  let s := ⌊((v - d) * 60 - m) * 60 * 100⌋.toNat
  toString d ++ "/1 " ++ toString m ++ "/1 " ++ toString s ++ "/100"

/-! ## Signature detector (`detectMimeType`) -/

/-- What the file system holds at a path: `size` is the result of
`std::filesystem::file_size` (`none` when the call throws, as for a directory), `content` the
bytes an `std::ifstream` reads (`none` when the stream fails to open). -/
structure FileState where
  size : Option Nat
  content : Option (List Nat)

/-- The file system: `none` at a path where no file exists. -/
abbrev FileSystem := String → Option FileState

/-- The component of a path after the last directory separator
(`std::filesystem::path::filename`). -/
def pathFilename (path : String) : List Char :=
  (path.data.reverse.takeWhile (fun c => c != '/')).reverse

/-- The extension of a path (`std::filesystem::path::extension`): the part of the file name
from its last period on; empty for `.` and `..`, for a name without a period, and for a name
whose only period is its first character. -/
def pathExtension (path : String) : String :=
  let name := pathFilename path
  let tail := (name.reverse.takeWhile (fun c => c != '.')).reverse
  if name = ['.'] ∨ name = ['.', '.'] then ""
  else if tail.length = name.length then ""
  else if tail.length + 1 = name.length then ""
  else String.mk ('.' :: tail)

/-- The extension after `std::transform(..., ::tolower)`. -/
def lowerExtension (path : String) : String :=
  String.mk ((pathExtension path).data.map Char.toLower)

/-- The signature tests of `detectMimeType` on the bytes read into `header`, in the order of
the source; `none` when no signature matches. -/
def detectSignature (header : List Nat) : Option String :=
  let readSize := header.length
  let h := fun (i : Nat) => header.getD i 0
  if readSize ≥ 3 ∧ h 0 = 0xFF ∧ h 1 = 0xD8 ∧ h 2 = 0xFF then some "image/jpeg"
  else if readSize ≥ 8 ∧ h 0 = 0x89 ∧ h 1 = 0x50 ∧ h 2 = 0x4E ∧ h 3 = 0x47 ∧
      h 4 = 0x0D ∧ h 5 = 0x0A ∧ h 6 = 0x1A ∧ h 7 = 0x0A then some "image/png"
  else if readSize ≥ 4 ∧ h 0 = 0x47 ∧ h 1 = 0x49 ∧ h 2 = 0x46 ∧ h 3 = 0x38 then
    some "image/gif"
  else if readSize ≥ 4 ∧
      ((h 0 = 0x49 ∧ h 1 = 0x49 ∧ h 2 = 0x2A ∧ h 3 = 0x00) ∨
       (h 0 = 0x4D ∧ h 1 = 0x4D ∧ h 2 = 0x00 ∧ h 3 = 0x2A)) then some "image/tiff"
  else if readSize ≥ 2 ∧ h 0 = 0x42 ∧ h 1 = 0x4D then some "image/bmp"
  else none

/-- The fallback of `detectMimeType` on the lower-cased extension. -/
def mimeFromExtension (extension : String) : String :=
  if extension = ".jpg" ∨ extension = ".jpeg" then "image/jpeg"
  else if extension = ".png" then "image/png"
  else if extension = ".gif" then "image/gif"
  else if extension = ".tiff" ∨ extension = ".tif" then "image/tiff"
  else if extension = ".bmp" then "image/bmp"
  else "application/octet-stream"

/-- The function `detectMimeType`: at most 12 bytes are read from the file. -/
def detectMimeType (fs : FileSystem) (filePath : String) : String :=
  match (fs filePath).bind (fun st => st.content) with
  | none => "application/octet-stream"
  | some bytes =>
    match detectSignature (bytes.take 12) with
    | some mime => mime
    | none => mimeFromExtension (lowerExtension filePath)

/-! ## Validation gate (`ImageService::validateImage`) -/

/-- The allow-list `SUPPORTED_EXTENSIONS`. -/
def SUPPORTED_EXTENSIONS : List String :=
  [".jpg", ".jpeg", ".png", ".tiff", ".tif", ".bmp", ".gif"]

/-- The function `ImageService::validateImage`; the result is `none` when `file_size` throws,
the exception leaving the function. -/
def validateImage (fs : FileSystem) (imagePath : String) : Option Bool :=
  match fs imagePath with
  | none => some false
  | some st =>
    match st.size with
    | none => none
    | some fileSize =>
      if fileSize = 0 ∨ fileSize > 1024 * 1024 * 50 then some false
      else if lowerExtension imagePath ∉ SUPPORTED_EXTENSIONS then some false
      else if ¬ ("image/".data.isPrefixOf (detectMimeType fs imagePath).data = true) then
        some false
      else
        match st.content with
        | none => some false
        | some _ => some true

/-! ## Signature tests one by one -/

/-- One signature test of `detectMimeType`: the condition on the bytes read and the type it
returns. -/
structure SignatureTest where
  mime : String
  test : List Nat → Bool

/-- The test `// JPEG: FF D8 FF`. -/
def jpegTest : SignatureTest :=
  ⟨"image/jpeg", fun header =>
    let h := fun (i : Nat) => header.getD i 0
    decide (header.length ≥ 3 ∧ h 0 = 0xFF ∧ h 1 = 0xD8 ∧ h 2 = 0xFF)⟩

/-- The test `// PNG: 89 50 4E 47 0D 0A 1A 0A`. -/
def pngTest : SignatureTest :=
  ⟨"image/png", fun header =>
    let h := fun (i : Nat) => header.getD i 0
    decide (header.length ≥ 8 ∧ h 0 = 0x89 ∧ h 1 = 0x50 ∧ h 2 = 0x4E ∧ h 3 = 0x47 ∧
      h 4 = 0x0D ∧ h 5 = 0x0A ∧ h 6 = 0x1A ∧ h 7 = 0x0A)⟩

/-- The test `// GIF: 47 49 46 38`. -/
def gifTest : SignatureTest :=
  ⟨"image/gif", fun header =>
    let h := fun (i : Nat) => header.getD i 0
    decide (header.length ≥ 4 ∧ h 0 = 0x47 ∧ h 1 = 0x49 ∧ h 2 = 0x46 ∧ h 3 = 0x38)⟩

/-- The test `// TIFF: 49 49 2A 00 or 4D 4D 00 2A`. -/
def tiffTest : SignatureTest :=
  ⟨"image/tiff", fun header =>
    let h := fun (i : Nat) => header.getD i 0
    decide (header.length ≥ 4 ∧
      ((h 0 = 0x49 ∧ h 1 = 0x49 ∧ h 2 = 0x2A ∧ h 3 = 0x00) ∨
       (h 0 = 0x4D ∧ h 1 = 0x4D ∧ h 2 = 0x00 ∧ h 3 = 0x2A)))⟩

/-- The test `// BMP: 42 4D`. -/
def bmpTest : SignatureTest :=
  ⟨"image/bmp", fun header =>
    let h := fun (i : Nat) => header.getD i 0
    decide (header.length ≥ 2 ∧ h 0 = 0x42 ∧ h 1 = 0x4D)⟩

/-- The five tests in the order of the source. -/
def signatureTests : List SignatureTest := [jpegTest, pngTest, gifTest, tiffTest, bmpTest]

/-- The five tests evaluated in a given order, the first match winning. -/
def detectSignatureIn (order : List SignatureTest) (header : List Nat) : Option String :=
  (order.find? (fun t => t.test header)).map (fun t => t.mime)

/-! ## Result cache (`FileCache`) -/

/-- The ticks of `std::chrono::system_clock` in one second (its period is the nanosecond). -/
def ticksPerSecond : Int := 1000000000

/-- The age `std::chrono::duration_cast<std::chrono::seconds>(now - timestamp)`: time points
are tick counts, the cast truncates toward zero to whole seconds. -/
def ageSeconds (now timestamp : Int) : Int := (now - timestamp).tdiv ticksPerSecond

/-- The call `m.erase(key)` on an `std::unordered_map` kept as an association list. -/
def mapErase {V : Type} (m : List (String × V)) (key : String) : List (String × V) :=
  m.filter (fun p => p.1 != key)

/-- The assignment `m[key] = value`. -/
def mapAssign {V : Type} (m : List (String × V)) (key : String) (value : V) :
    List (String × V) :=
  (key, value) :: mapErase m key

/-- The state of a `FileCache` with records of type `ρ`: the two limits and the two maps;
`maxCacheAge` counts seconds. -/
structure FileCache (ρ : Type) where
  maxCacheSize : Nat
  maxCacheAge : Int
  metadataCache : List (String × ρ)
  cacheTimestamps : List (String × Int)

namespace FileCache

variable {ρ : Type}

/-- The function `FileCache::cacheMetadata`, called when the clock shows `now`. -/
def cacheMetadata (c : FileCache ρ) (now : Int) (key : String) (metadata : ρ) : FileCache ρ :=
  { c with
    metadataCache := mapAssign c.metadataCache key metadata
    cacheTimestamps := mapAssign c.cacheTimestamps key now }

/-- The function `FileCache::getCachedMetadata`, called when the clock shows `now`: the value
returned and the state left. `cacheTimestamps[key]` inserts the epoch when the key is
missing from that map. -/
def getCachedMetadata (c : FileCache ρ) (now : Int) (key : String) : Option ρ × FileCache ρ :=
  match c.metadataCache.lookup key with
  | none => (none, c)
  | some record =>
    let stamps :=
      match c.cacheTimestamps.lookup key with
      | some _ => c.cacheTimestamps
      | none => (key, 0) :: c.cacheTimestamps
    let timestamp := (stamps.lookup key).getD 0
    if ageSeconds now timestamp > c.maxCacheAge then
      (none, { c with
        metadataCache := mapErase c.metadataCache key
        cacheTimestamps := mapErase stamps key })
    else (some record, { c with cacheTimestamps := stamps })

/-- The first block of `FileCache::cleanupCache`: the expired keys are collected from
`cacheTimestamps`, then erased from both maps. -/
def cleanupMemory (c : FileCache ρ) (now : Int) : FileCache ρ :=
  let keysToRemove :=
    (c.cacheTimestamps.filter (fun p => ageSeconds now p.2 > c.maxCacheAge)).map Prod.fst
  keysToRemove.foldl
    (fun c key =>
      { c with
        metadataCache := mapErase c.metadataCache key
        cacheTimestamps := mapErase c.cacheTimestamps key })
    c

end FileCache

/-- An entry of the cache directory: `regular` is `entry.is_regular_file()`, `mtime`
`entry.last_write_time()`; `removable` is false when `file_size` or `remove` throws on it. -/
structure DirEntry where
  path : String
  regular : Bool
  size : Nat
  mtime : Int
  removable : Bool
deriving DecidableEq, Repr

/-- The deletion loop of `FileCache::cleanupCache` over the sorted vector `files`: the
running total and the directory left. A removal that throws is skipped. -/
def removeOldest (maxCacheSize : Nat) : List DirEntry → Nat → List DirEntry → Nat × List DirEntry
  | [], totalSize, dir => (totalSize, dir)
  | file :: files, totalSize, dir =>
    if totalSize ≤ maxCacheSize then (totalSize, dir)
    else if file.removable then
      removeOldest maxCacheSize files (totalSize - file.size)
        (dir.filter (fun e => e.path != file.path))
    else removeOldest maxCacheSize files totalSize dir

/-- The second block of `FileCache::cleanupCache`. `sort` stands for the call of `std::sort`
with the comparison of the modification times: its result is a permutation of its argument in
ascending order of `mtime`, the order of equal times being unspecified. -/
def cleanupFiles (sort : List DirEntry → List DirEntry) (maxCacheSize : Nat)
    (dir : List DirEntry) : Nat × List DirEntry :=
  let files := dir.filter (fun e => e.regular)
  let totalSize := (files.map (fun e => e.size)).sum
  if totalSize > maxCacheSize then removeOldest maxCacheSize (sort files) totalSize dir
  else (totalSize, dir)

/-- The function `FileCache::cleanupCache`: the cache state and the cache directory left. -/
def FileCache.cleanupCache {ρ : Type} (sort : List DirEntry → List DirEntry) (c : FileCache ρ)
    (now : Int) (dir : List DirEntry) : FileCache ρ × List DirEntry :=
  (c.cleanupMemory now, (cleanupFiles sort c.maxCacheSize dir).2)

/-- What `std::sort` guarantees of its result. -/
def SortsByMtime (sort : List DirEntry → List DirEntry) : Prop :=
  ∀ l, (sort l).Perm l ∧ (sort l).Sorted (fun a b => a.mtime ≤ b.mtime)

/-- The sum of the sizes of the regular files of a directory. -/
def regularSize (dir : List DirEntry) : Nat :=
  ((dir.filter (fun e => e.regular)).map (fun e => e.size)).sum

/-- A call of the cache interface with the clock reading at the call. -/
inductive CacheOp (ρ : Type)
  | put (now : Int) (key : String) (metadata : ρ)
  | get (now : Int) (key : String)
  | cleanup (now : Int)

/-- The clock reading of a call. -/
def CacheOp.time {ρ : Type} : CacheOp ρ → Int
  | CacheOp.put now _ _ => now
  | CacheOp.get now _ => now
  | CacheOp.cleanup now => now

/-- A call that writes a record under `key`. -/
def CacheOp.writes {ρ : Type} (key : String) : CacheOp ρ → Bool
  | CacheOp.put _ k _ => k == key
  | _ => false

/-- The cache state after one call. -/
def FileCache.step {ρ : Type} (c : FileCache ρ) : CacheOp ρ → FileCache ρ
  | CacheOp.put now key metadata => c.cacheMetadata now key metadata
  | CacheOp.get now key => (c.getCachedMetadata now key).2
  | CacheOp.cleanup now => c.cleanupMemory now

/-- The cache state after a sequence of calls. -/
def FileCache.run {ρ : Type} (c : FileCache ρ) (ops : List (CacheOp ρ)) : FileCache ρ :=
  ops.foldl FileCache.step c

/-! ## Tag interpreter (`MetadataExtractor::extractMetadata`) and the service -/

/-- One `Exiv2::Exifdatum` as the code reads it: its key, `toString()` and `toUint32()`. -/
structure Exifdatum where
  key : String
  text : String
  uint32 : Nat
deriving DecidableEq, Repr

/-- What the external parser hands over for an image it could read: the Exif data in file
order, and the IPTC and XMP data as key and `toString()` pairs. -/
structure ParsedImage where
  exifData : List Exifdatum
  iptcData : List (String × String)
  xmpData : List (String × String)

/-- The external parser (`Exiv2::ImageFactory::open` and `readMetadata`): `none` when it
throws or cannot open the file. -/
abbrev Parser := String → Option ParsedImage

/-- The lookup `exifData.findKey(Exiv2::ExifKey(key))`: the first datum with the key. -/
def findKey (exifData : List Exifdatum) (key : String) : Option Exifdatum :=
  exifData.find? (fun item => item.key == key)

/-- The test `haystack.find(needle) != std::string::npos`. -/
def containsSubstring (needle haystack : List Char) : Bool :=
  haystack.tails.any (fun t => needle.isPrefixOf t)

/-- A JSON object or `std::map` filled by `m[key] = value` over a sequence of pairs. -/
def collectPairs (items : List (String × String)) : List (String × String) :=
  items.foldl (fun m item => mapAssign m item.1 item.2) []

/-- The map `gpsExifData` of `extractMetadata`: the data whose key contains `Exif.GPSInfo`. -/
def gpsSubMap (exifData : List Exifdatum) : List (String × String) :=
  collectPairs ((exifData.filter
    (fun item => containsSubstring "Exif.GPSInfo".data item.key.data)).map
      (fun item => (item.key, item.text)))

/-- The member `gps` of the `exif` object (lines 79 to 89 of `extractMetadata`): `some none`
when the GPS sub-map is empty and the key is not set, `some (some j)` when `parseGpsInfo`
returns `j`, and `none` when `parseGpsInfo` throws. -/
def gpsMember (exifData : List Exifdatum) : Option (Option Json) :=
  if (gpsSubMap exifData).isEmpty then some none
  else (parseGpsInfo (gpsSubMap exifData)).map some

/-- The `exif` object built by `extractMetadata`, `gps` being the member that the GPS step
stores. -/
def interpretExif (exifData : List Exifdatum) (gps : Option Json) : Exif :=
  { make := (findKey exifData "Exif.Image.Make").map (fun d => d.text)
    model := (findKey exifData "Exif.Image.Model").map (fun d => d.text)
    datetime_original := (findKey exifData "Exif.Photo.DateTimeOriginal").map (fun d => d.text)
    datetime_modified := (findKey exifData "Exif.Image.DateTime").map (fun d => d.text)
    width :=
      match findKey exifData "Exif.Photo.PixelXDimension",
            findKey exifData "Exif.Photo.PixelYDimension" with
      | some x, some _ => some x.uint32
      | _, _ => none
    height :=
      match findKey exifData "Exif.Photo.PixelXDimension",
            findKey exifData "Exif.Photo.PixelYDimension" with
      | some _, some y => some y.uint32
      | _, _ => none
    gps := gps
    software := (findKey exifData "Exif.Image.Software").map (fun d => d.text)
    all := collectPairs (exifData.map (fun item => (item.key, item.text))) }

/-- The function `MetadataExtractor::extractMetadata`: `none` is `std::nullopt`, returned when
the parser fails, when `file_size` throws, or when `parseGpsInfo` throws (the handler of
`std::exception` at the end of the function). -/
def extractMetadata (fs : FileSystem) (parser : Parser) (imagePath : String) :
    Option Metadata :=
  match parser imagePath with
  | none => none
  | some image =>
    match (fs imagePath).bind (fun st => st.size) with
    | none => none
    | some filesize =>
      match gpsMember image.exifData with
      | none => none
      | some gps =>
        some
          { filename := String.mk (pathFilename imagePath)
            filesize := filesize
            exif := some (interpretExif image.exifData gps)
            iptc := if image.iptcData.isEmpty then none else some (collectPairs image.iptcData)
            xmp := if image.xmpData.isEmpty then none else some (collectPairs image.xmpData) }

/-- The JSON object returned by `processImage`: `status` is `error` with a message, or
`success` with the metadata. -/
inductive ServiceResult
  | error (message : String)
  | success (metadata : Metadata)

/-- The `status` member of a result. -/
def ServiceResult.status : ServiceResult → String
  | ServiceResult.error _ => "error"
  | ServiceResult.success _ => "success"

/-- The function `ImageService::processImage`; `none` when the exception of `validateImage`
leaves the function. -/
def processImage (fs : FileSystem) (parser : Parser) (imagePath : String) :
    Option ServiceResult :=
  match validateImage fs imagePath with
  | none => none
  | some false => some (ServiceResult.error "Invalid image file")
  | some true =>
    match extractMetadata fs parser imagePath with
    | none => some (ServiceResult.error "Failed to extract metadata")
    | some metadata => some (ServiceResult.success metadata)

/-- The `results` array of `ImageService::processBatch`: one task per path in input order,
then `task.get()` in the same order; `none` when a task rethrows an exception, which leaves
`processBatch`. The tasks read the same file system. -/
def processBatch (fs : FileSystem) (parser : Parser) (images : List String) :
    Option (List ServiceResult) :=
  let tasks := images.map (fun imagePath => processImage fs parser imagePath)
  tasks.foldl
    (fun results task =>
      match results, task with
      | some rs, some r => some (rs ++ [r])
      | _, _ => none)
    (some [])

/-- One admissible outcome of `std::sort` on the file vector: the insertion sort by
modification time. -/
def sortByMtime (l : List DirEntry) : List DirEntry :=
  l.insertionSort (fun a b => a.mtime ≤ b.mtime)

/-! ## Identifier generator (`generateUuid`) -/

/-- What `ss << n` writes for a non-negative `int` after `ss << std::hex`: the digits of `n`
to base 16, lower case, without prefix. -/
def hexInt (n : Nat) : List Char :=
  Nat.toDigits 16 n

/-- A loop `for (int i = 0; i < count; i++) ss << dis(gen);` that starts with the draw
number `start`. -/
def hexDraws (dis : Nat → Nat) (start : Nat) : Nat → List Char
  | 0 => []
  | count + 1 => hexInt (dis start) ++ hexDraws dis (start + 1) count

/-- The function `generateUuid`: `dis i` is the result of the call number `i` of `dis(gen)`,
`dis2` the result of the call of `dis2(gen)`. -/
def generateUuid (dis : Nat → Nat) (dis2 : Nat) : String :=
  String.mk (hexDraws dis 0 8 ++ "-".data ++ hexDraws dis 8 4 ++ "-4".data ++
    hexDraws dis 12 3 ++ "-".data ++ hexInt dis2 ++ hexDraws dis 15 3 ++ "-".data ++
    hexDraws dis 18 12)

/-! ## Agreement up to rounding -/

/-- The exact values for which no rounding on the way leaves the normal range: zero, or a
value between `10 ^ (-305)` and `10 ^ 305`. -/
def InNormalRange (x : ℚ) : Prop :=
  x = 0 ∨ (1 / 10 ^ 305 ≤ x ∧ x ≤ 10 ^ 305)

/-- The `double` `d` is finite and not negative, and its magnitude `v` agrees with the exact
value `x` up to `k` roundings to nearest: `x * (1 - 2 ^ (-53)) ^ k ≤ v` and
`v * (1 - 2 ^ (-53)) ^ k ≤ x`. -/
def Approximates (k : ℕ) (d : Dbl) (x : ℚ) : Prop :=
  ∃ v, d = Dbl.fin false v ∧ 0 ≤ v ∧ x * (1 - 1 / 2 ^ 53) ^ k ≤ v ∧
    v * (1 - 1 / 2 ^ 53) ^ k ≤ x

/-! ## Lemmas: the consistency engine -/

theorem indicatorType_timeMismatch (a b : String) :
    indicatorType (timeMismatchIndicator a b) = some "time_mismatch" := rfl

theorem indicatorType_editingSoftware (s : String) :
    indicatorType (editingSoftwareIndicator s) = some "editing_software" := rfl

theorem checkThumbnail_indicators (m : Metadata) (f : Forensics) :
    (checkThumbnail m f).tampering_indicators = f.tampering_indicators ∧
    (checkThumbnail m f).is_tampered = f.is_tampered := by
  unfold checkThumbnail
  cases m.exif with
  | none => simp
  | some e => dsimp only; split_ifs <;> simp

theorem matchLiteralNocase_iff (p input : List Char) :
    matchLiteralNocase p input = true ↔ p.map Char.toLower <+: input.map Char.toLower := by
  induction p generalizing input with
  | nil => simp [matchLiteralNocase]
  | cons x xs ih =>
    cases input with
    | nil => simp [matchLiteralNocase]
    | cons c cs =>
      simp only [matchLiteralNocase, Bool.and_eq_true, beq_iff_eq, ih, List.map_cons,
        List.cons_prefix_cons]
      constructor
      · rintro ⟨h1, h2⟩; exact ⟨h1.symm, h2⟩
      · rintro ⟨h1, h2⟩; exact ⟨h1.symm, h2⟩

theorem regexSearchNocase_iff (alts : List (List Char)) (input : List Char) :
    regexSearchNocase alts input = true ↔
      ∃ p ∈ alts, p.map Char.toLower <:+: input.map Char.toLower := by
  induction input with
  | nil =>
    simp only [regexSearchNocase, matchAlternativesAt, List.any_eq_true, matchLiteralNocase_iff,
      List.map_nil, List.prefix_nil, List.infix_nil]
  | cons c cs ih =>
    simp only [regexSearchNocase, Bool.or_eq_true, ih, matchAlternativesAt, List.any_eq_true,
      matchLiteralNocase_iff, List.map_cons, List.infix_cons_iff]
    constructor
    · rintro (⟨p, hp, h⟩ | ⟨p, hp, h⟩)
      · exact ⟨p, hp, Or.inl h⟩
      · exact ⟨p, hp, Or.inr h⟩
    · rintro ⟨p, hp, h | h⟩
      · exact Or.inl ⟨p, hp, h⟩
      · exact Or.inr ⟨p, hp, h⟩

theorem editingSoftwareSearch_iff (software : String) :
    editingSoftwareSearch software = true ↔
      ∃ w ∈ editingSoftwareWords, w.data <:+: software.data.map Char.toLower := by
  unfold editingSoftwareSearch
  rw [regexSearchNocase_iff]
  simp [editingSoftwareWords]

/-- The indicator list and the flag in closed form. -/
theorem checkMetadataConsistency_indicators (m : Metadata) :
    (checkMetadataConsistency m).tampering_indicators =
      (checkTimes m ⟨false, [], none⟩).tampering_indicators ++
        (checkSoftware m ⟨false, [], none⟩).tampering_indicators := by
  unfold checkMetadataConsistency
  simp only [(checkThumbnail_indicators m _).1]
  unfold checkSoftware checkTimes
  cases m.exif with
  | none => simp
  | some e =>
    dsimp only
    cases e.datetime_original <;> cases e.datetime_modified <;> cases e.software <;>
      simp only [] <;> (try split_ifs) <;> simp

theorem checkMetadataConsistency_flag (m : Metadata) :
    (checkMetadataConsistency m).is_tampered =
      ((checkTimes m ⟨false, [], none⟩).is_tampered ||
        (checkSoftware m ⟨false, [], none⟩).is_tampered) := by
  unfold checkMetadataConsistency
  simp only [(checkThumbnail_indicators m _).2]
  unfold checkSoftware checkTimes
  cases m.exif with
  | none => simp
  | some e =>
    dsimp only
    cases e.datetime_original <;> cases e.datetime_modified <;> cases e.software <;>
      simp only [] <;> (try split_ifs) <;> simp

theorem checkSoftware_no_time (m : Metadata) :
    indicatorsOfType "time_mismatch" (checkSoftware m ⟨false, [], none⟩) = [] := by
  unfold checkSoftware indicatorsOfType
  cases m.exif with
  | none => simp
  | some e =>
    dsimp only
    cases e.software with
    | none => simp
    | some s =>
      dsimp only
      split_ifs
      · simp [indicatorType_editingSoftware]
      · simp

theorem indicatorsOfType_append (ty : String) (m : Metadata) :
    indicatorsOfType ty (checkMetadataConsistency m) =
      indicatorsOfType ty (checkTimes m ⟨false, [], none⟩) ++
        indicatorsOfType ty (checkSoftware m ⟨false, [], none⟩) := by
  simp only [indicatorsOfType, checkMetadataConsistency_indicators, List.filter_append]

/-- C1: when `datetime_original` and `datetime_modified` are both present and differ as
strings, the verdict is tampered and holds exactly one `time_mismatch` indicator, whose
`original_time` and `modified_time` members are the two strings. -/
theorem time_mismatch_reported (m : Metadata) (e : Exif) (a b : String)
    (hexif : m.exif = some e) (horig : e.datetime_original = some a)
    (hmod : e.datetime_modified = some b) (hne : a ≠ b) :
    (checkMetadataConsistency m).is_tampered = true ∧
    ∃ ind, indicatorsOfType "time_mismatch" (checkMetadataConsistency m) = [ind] ∧
      ind.lookup "original_time" = some a ∧ ind.lookup "modified_time" = some b := by
  have hT : checkTimes m ⟨false, [], none⟩ = ⟨true, [timeMismatchIndicator a b], none⟩ := by
    simp [checkTimes, hexif, horig, hmod, hne]
  refine ⟨?_, timeMismatchIndicator a b, ?_, rfl, rfl⟩
  · rw [checkMetadataConsistency_flag, hT]; rfl
  · rw [indicatorsOfType_append, checkSoftware_no_time, hT]
    simp [indicatorsOfType, indicatorType_timeMismatch]

theorem checkTimes_no_software (m : Metadata) :
    indicatorsOfType "editing_software" (checkTimes m ⟨false, [], none⟩) = [] := by
  unfold checkTimes indicatorsOfType
  cases m.exif with
  | none => simp
  | some e =>
    dsimp only
    cases e.datetime_original <;> cases e.datetime_modified <;> try simp
    split_ifs <;> simp [indicatorType_timeMismatch]

theorem checkTimes_all_time (m : Metadata) :
    indicatorsOfType "time_mismatch" (checkTimes m ⟨false, [], none⟩) =
      (checkTimes m ⟨false, [], none⟩).tampering_indicators := by
  unfold checkTimes indicatorsOfType
  cases m.exif with
  | none => simp
  | some e =>
    dsimp only
    cases e.datetime_original <;> cases e.datetime_modified <;> try simp
    split_ifs <;> simp [indicatorType_timeMismatch]

theorem checkSoftware_all_software (m : Metadata) :
    indicatorsOfType "editing_software" (checkSoftware m ⟨false, [], none⟩) =
      (checkSoftware m ⟨false, [], none⟩).tampering_indicators := by
  unfold checkSoftware indicatorsOfType
  cases m.exif with
  | none => simp
  | some e =>
    dsimp only
    cases e.software with
    | none => simp
    | some s =>
      dsimp only
      split_ifs
      · simp [indicatorType_editingSoftware]
      · simp

theorem checkTimes_flag (m : Metadata) :
    (checkTimes m ⟨false, [], none⟩).is_tampered = true ↔
      (checkTimes m ⟨false, [], none⟩).tampering_indicators ≠ [] := by
  unfold checkTimes
  cases m.exif with
  | none => simp
  | some e =>
    dsimp only
    cases e.datetime_original <;> cases e.datetime_modified <;> try simp
    split_ifs <;> simp

theorem checkSoftware_flag (m : Metadata) :
    (checkSoftware m ⟨false, [], none⟩).is_tampered = true ↔
      (checkSoftware m ⟨false, [], none⟩).tampering_indicators ≠ [] := by
  unfold checkSoftware
  cases m.exif with
  | none => simp
  | some e =>
    dsimp only
    cases e.software with
    | none => simp
    | some s => dsimp only; split_ifs <;> simp

theorem checkTimes_agree (m : Metadata)
    (h : ∀ e, m.exif = some e → e.datetime_original = e.datetime_modified) :
    checkTimes m ⟨false, [], none⟩ = ⟨false, [], none⟩ := by
  unfold checkTimes
  cases hm : m.exif with
  | none => rfl
  | some e =>
    have h2 := h e hm
    dsimp only
    cases ho : e.datetime_original <;> cases hd : e.datetime_modified <;> try rfl
    rw [ho, hd] at h2
    simp [Option.some.inj h2]

theorem checkSoftware_some (m : Metadata) (e : Exif) (s : String) (hm : m.exif = some e)
    (hs : e.software = some s) :
    checkSoftware m ⟨false, [], none⟩ =
      if editingSoftwareSearch s then ⟨true, [editingSoftwareIndicator s], none⟩
      else ⟨false, [], none⟩ := by
  simp [checkSoftware, hm, hs]

theorem checkSoftware_fires_iff (m : Metadata) :
    (checkSoftware m ⟨false, [], none⟩).tampering_indicators ≠ [] ↔
      ∃ e s, m.exif = some e ∧ e.software = some s ∧
        ∃ w ∈ editingSoftwareWords, w.data <:+: s.data.map Char.toLower := by
  cases hm : m.exif with
  | none => simp [checkSoftware, hm]
  | some e =>
    cases hs : e.software with
    | none => simp [checkSoftware, hm, hs]
    | some s =>
      rw [checkSoftware_some m e s hm hs]
      simp only [Option.some.injEq, exists_and_left, exists_eq_left', ← editingSoftwareSearch_iff]
      split_ifs with h <;> simp [h, hs]

/-- C1 witness: a record whose two timestamps differ. -/
theorem time_mismatch_reported_witness :
    (checkMetadataConsistency ⟨"a.jpg", 1, some ⟨none, none, some "2020:01:01 10:00:00",
      some "2021:05:05 12:00:00", none, none, none, none, []⟩, none, none⟩).is_tampered = true ∧
    ∃ ind, indicatorsOfType "time_mismatch" (checkMetadataConsistency ⟨"a.jpg", 1,
      some ⟨none, none, some "2020:01:01 10:00:00", some "2021:05:05 12:00:00", none, none, none,
        none, []⟩, none, none⟩) = [ind] ∧
      ind.lookup "original_time" = some "2020:01:01 10:00:00" ∧
      ind.lookup "modified_time" = some "2021:05:05 12:00:00" :=
  time_mismatch_reported _ _ _ _ rfl rfl rfl (by decide)

/-- C2 counterexample: the two timestamps are the same string and the software tag names an
editor; the verdict is tampered. -/
theorem equal_times_tampered :
    (checkMetadataConsistency ⟨"a.jpg", 1, some ⟨none, none, some "2020:01:01 10:00:00",
      some "2020:01:01 10:00:00", none, none, none, some "Adobe Photoshop CS6", []⟩,
      none, none⟩).is_tampered = true := by
  decide

/-- C2 (amended): when `datetime_original` and `datetime_modified` are equal strings or both
absent, no `time_mismatch` indicator is emitted, and the verdict is tampered exactly when the
software tag is present and contains, case-insensitively, one of the editor names. -/
theorem equal_times_verdict (m : Metadata)
    (h : ∀ e, m.exif = some e → e.datetime_original = e.datetime_modified) :
    indicatorsOfType "time_mismatch" (checkMetadataConsistency m) = [] ∧
    ((checkMetadataConsistency m).is_tampered = true ↔
      ∃ e s, m.exif = some e ∧ e.software = some s ∧
        ∃ w ∈ editingSoftwareWords, w.data <:+: s.data.map Char.toLower) := by
  constructor
  · rw [indicatorsOfType_append, checkSoftware_no_time, checkTimes_agree m h]; rfl
  · rw [checkMetadataConsistency_flag, checkTimes_agree m h, Bool.false_or, checkSoftware_flag,
      checkSoftware_fires_iff]

/-- C2 witness: equal timestamps and a software tag that names no editor. -/
theorem equal_times_verdict_witness :
    indicatorsOfType "time_mismatch" (checkMetadataConsistency ⟨"a.jpg", 1,
      some ⟨none, none, some "2020:01:01 10:00:00", some "2020:01:01 10:00:00", none, none, none,
        some "Camera FW 1.0", []⟩, none, none⟩) = [] :=
  (equal_times_verdict ⟨"a.jpg", 1,
      some ⟨none, none, some "2020:01:01 10:00:00", some "2020:01:01 10:00:00", none, none, none,
        some "Camera FW 1.0", []⟩, none, none⟩
    (fun e he => by cases he; rfl)).1

/-- C3: `is_tampered` is true exactly when `tampering_indicators` is not empty, and the list
consists of its `time_mismatch` indicators followed by its `editing_software` indicators. -/
theorem is_tampered_iff_indicator (m : Metadata) :
    ((checkMetadataConsistency m).is_tampered = true ↔
      (checkMetadataConsistency m).tampering_indicators ≠ []) ∧
    (checkMetadataConsistency m).tampering_indicators =
      indicatorsOfType "time_mismatch" (checkMetadataConsistency m) ++
        indicatorsOfType "editing_software" (checkMetadataConsistency m) := by
  constructor
  · rw [checkMetadataConsistency_flag, checkMetadataConsistency_indicators, Bool.or_eq_true,
      checkTimes_flag, checkSoftware_flag]
    simp only [ne_eq, List.append_eq_nil, not_and_or]
  · rw [indicatorsOfType_append, indicatorsOfType_append, checkSoftware_no_time,
      checkTimes_no_software, checkTimes_all_time, checkSoftware_all_software,
      checkMetadataConsistency_indicators]
    simp

/-- C4: an `editing_software` indicator is emitted exactly when the software tag is present
and contains, case-insensitively, one of `photoshop`, `gimp`, `lightroom`, `affinity`,
`pixelmator`; it is then the only such indicator and its `software` member is the whole tag
value. -/
theorem editing_software_reported (m : Metadata) :
    ((∃ ind ∈ (checkMetadataConsistency m).tampering_indicators,
        indicatorType ind = some "editing_software") ↔
      ∃ e s, m.exif = some e ∧ e.software = some s ∧
        ∃ w ∈ editingSoftwareWords, w.data <:+: s.data.map Char.toLower) ∧
    (∀ e s, m.exif = some e → e.software = some s →
      (∃ w ∈ editingSoftwareWords, w.data <:+: s.data.map Char.toLower) →
      ∃ ind, indicatorsOfType "editing_software" (checkMetadataConsistency m) = [ind] ∧
        ind.lookup "software" = some s) := by
  have key : indicatorsOfType "editing_software" (checkMetadataConsistency m) =
      (checkSoftware m ⟨false, [], none⟩).tampering_indicators := by
    rw [indicatorsOfType_append, checkTimes_no_software, checkSoftware_all_software]; rfl
  constructor
  · rw [← checkSoftware_fires_iff, ← key]
    simp only [indicatorsOfType, ne_eq, List.filter_eq_nil_iff, beq_iff_eq, not_forall,
      Classical.not_imp, not_not, exists_prop]
  · intro e s hm hs hw
    rw [key, checkSoftware_some m e s hm hs, if_pos ((editingSoftwareSearch_iff s).2 hw)]
    exact ⟨editingSoftwareIndicator s, rfl, rfl⟩

/-- C4 witness: the tag `GIMP 2.10` contains `gimp`. -/
theorem editing_software_reported_witness :
    ∃ ind, indicatorsOfType "editing_software" (checkMetadataConsistency ⟨"a.jpg", 1,
      some ⟨none, none, none, none, none, none, none, some "GIMP 2.10", []⟩, none, none⟩) = [ind] ∧
      ind.lookup "software" = some "GIMP 2.10" :=
  (editing_software_reported ⟨"a.jpg", 1,
      some ⟨none, none, none, none, none, none, none, some "GIMP 2.10", []⟩, none, none⟩).2
    _ "GIMP 2.10" rfl rfl ⟨"gimp", by decide, by decide⟩

/-! ## Lemmas: the GPS decoder -/

theorem span_digits (ds rest : List Char) (hds : ∀ c ∈ ds, c.isDigit = true)
    (hrest : ∀ c ∈ rest.head?, c.isDigit = false) :
    (ds ++ rest).span Char.isDigit = (ds, rest) := by
  rw [List.span_eq_take_drop, List.takeWhile_append_of_pos hds,
    List.dropWhile_append_of_pos hds]
  cases rest with
  | nil => simp
  | cons c cs =>
    have hc : c.isDigit = false := hrest c (by simp)
    simp [List.takeWhile_cons, List.dropWhile_cons, hc]

theorem takeDigits_append (ds rest : List Char) (hds : IsDigits ds)
    (hrest : ∀ c ∈ rest.head?, c.isDigit = false) :
    takeDigits (ds ++ rest) = some (ds, rest) := by
  unfold takeDigits
  rw [span_digits ds rest hds.2 hrest]
  cases ds with
  | nil => exact absurd rfl hds.1
  | cons d ds => rfl

theorem takeDigits_sound (input ds rest : List Char) (h : takeDigits input = some (ds, rest)) :
    input = ds ++ rest ∧ IsDigits ds := by
  unfold takeDigits at h
  rw [List.span_eq_take_drop] at h
  have hcat := List.takeWhile_append_dropWhile Char.isDigit input
  split at h
  · exact absurd h (by simp)
  · rename_i d ds2 rest2 heq
    simp only [Option.some.injEq, Prod.mk.injEq] at h
    simp only [Prod.mk.injEq] at heq
    obtain ⟨h1, h2⟩ := h
    subst h1 h2
    refine ⟨?_, by simp, ?_⟩
    · rw [← heq.1, ← heq.2]; exact hcat.symm
    · intro c hc
      rw [← heq.1] at hc
      exact (List.mem_takeWhile_imp hc)

theorem expectChar_sound (c : Char) (input rest : List Char)
    (h : expectChar c input = some rest) : input = c :: rest := by
  cases input with
  | nil => simp [expectChar] at h
  | cons x xs =>
    simp only [expectChar] at h
    split_ifs at h with hx
    simp only [Option.some.injEq] at h
    rw [hx, h]

theorem takeDigits_cons (ds rest : List Char) (c : Char) (hds : IsDigits ds)
    (hc : c.isDigit = false) : takeDigits (ds ++ c :: rest) = some (ds, c :: rest) :=
  takeDigits_append ds (c :: rest) hds (by simpa using hc)

theorem matchDmsAt_dmsChars (d1 d2 m1 m2 s1 s2 : List Char) (h1 : IsDigits d1)
    (h2 : IsDigits d2) (h3 : IsDigits m1) (h4 : IsDigits m2) (h5 : IsDigits s1)
    (h6 : IsDigits s2) :
    matchDmsAt (dmsChars d1 d2 m1 m2 s1 s2) = some ⟨d1, d2, m1, m2, s1, s2⟩ := by
  have h6s : takeDigits s2 = some (s2, []) := by
    simpa using takeDigits_append s2 [] h6 (by simp)
  simp only [matchDmsAt, dmsChars, takeDigits_cons _ _ _ h1 (by decide : '/'.isDigit = false),
    takeDigits_cons _ _ _ h2 (by decide : ' '.isDigit = false),
    takeDigits_cons _ _ _ h3 (by decide : '/'.isDigit = false),
    takeDigits_cons _ _ _ h4 (by decide : ' '.isDigit = false),
    takeDigits_cons _ _ _ h5 (by decide : '/'.isDigit = false), h6s,
    expectChar, if_true, Option.bind_eq_bind, Option.some_bind, Option.pure_def]

theorem regexSearchDms_dmsChars (d1 d2 m1 m2 s1 s2 : List Char) (h1 : IsDigits d1)
    (h2 : IsDigits d2) (h3 : IsDigits m1) (h4 : IsDigits m2) (h5 : IsDigits s1)
    (h6 : IsDigits s2) :
    regexSearchDms (dmsChars d1 d2 m1 m2 s1 s2) = some ⟨d1, d2, m1, m2, s1, s2⟩ := by
  have hm := matchDmsAt_dmsChars d1 d2 m1 m2 s1 s2 h1 h2 h3 h4 h5 h6
  cases hd : dmsChars d1 d2 m1 m2 s1 s2 with
  | nil =>
    rw [hd] at hm
    simp [matchDmsAt, takeDigits] at hm
  | cons c cs =>
    rw [hd] at hm
    simp only [regexSearchDms, hm]

theorem matchDmsAt_sound (input : List Char) (m : DmsMatch) (h : matchDmsAt input = some m) :
    (∃ post, input = dmsChars m.d1 m.d2 m.m1 m.m2 m.s1 m.s2 ++ post) ∧
      IsDigits m.d1 ∧ IsDigits m.d2 ∧ IsDigits m.m1 ∧ IsDigits m.m2 ∧ IsDigits m.s1 ∧
      IsDigits m.s2 := by
  simp only [matchDmsAt, Option.bind_eq_bind, Option.pure_def, Option.bind_eq_some,
    Prod.exists] at h
  obtain ⟨d1, r1, t1, r2, e1, d2, r3, t2, r4, e2, m1, r5, t3, r6, e3, m2, r7, t4, r8, e4,
    s1, r9, t5, r10, e5, s2, r11, t6, hm⟩ := h
  simp only [Option.some.injEq] at hm
  subst hm
  obtain ⟨a1, b1⟩ := takeDigits_sound _ _ _ t1
  obtain ⟨a2, b2⟩ := takeDigits_sound _ _ _ t2
  obtain ⟨a3, b3⟩ := takeDigits_sound _ _ _ t3
  obtain ⟨a4, b4⟩ := takeDigits_sound _ _ _ t4
  obtain ⟨a5, b5⟩ := takeDigits_sound _ _ _ t5
  obtain ⟨a6, b6⟩ := takeDigits_sound _ _ _ t6
  have c1 := expectChar_sound _ _ _ e1
  have c2 := expectChar_sound _ _ _ e2
  have c3 := expectChar_sound _ _ _ e3
  have c4 := expectChar_sound _ _ _ e4
  have c5 := expectChar_sound _ _ _ e5
  refine ⟨⟨r11, ?_⟩, b1, b2, b3, b4, b5, b6⟩
  simp only [dmsChars]
  rw [a1, c1, a2, c2, a3, c3, a4, c4, a5, c5, a6]
  simp

theorem regexSearchDms_sound (input : List Char) (m : DmsMatch)
    (h : regexSearchDms input = some m) :
    (∃ pre post, input = pre ++ dmsChars m.d1 m.d2 m.m1 m.m2 m.s1 m.s2 ++ post) ∧
      IsDigits m.d1 ∧ IsDigits m.d2 ∧ IsDigits m.m1 ∧ IsDigits m.m2 ∧ IsDigits m.s1 ∧
      IsDigits m.s2 := by
  induction input with
  | nil => simp [regexSearchDms] at h
  | cons c cs ih =>
    simp only [regexSearchDms] at h
    cases hm : matchDmsAt (c :: cs) with
    | some m2 =>
      rw [hm] at h
      simp only [Option.some.injEq] at h
      subst h
      obtain ⟨⟨post, hp⟩, hd⟩ := matchDmsAt_sound _ _ hm
      exact ⟨⟨[], post, by simpa using hp⟩, hd⟩
    | none =>
      rw [hm] at h
      obtain ⟨⟨pre, post, hp⟩, hd⟩ := ih h
      exact ⟨⟨c :: pre, post, by simp [hp]⟩, hd⟩

theorem lookup_filter_ne {β : Type} (k k2 : String) (ms : List (String × β)) (h : k2 ≠ k) :
    (ms.filter (fun p => p.1 != k)).lookup k2 = ms.lookup k2 := by
  induction ms with
  | nil => rfl
  | cons p ps ih =>
    obtain ⟨a, b⟩ := p
    by_cases hak : a = k
    · subst hak
      have : (k2 == a) = false := by simpa using h
      simp [List.filter_cons, List.lookup_cons, this, ih]
    · have hne : (a != k) = true := by simpa using hak
      simp only [List.filter_cons, hne, if_true, List.lookup_cons, ih]

theorem Json.get_set_self (j : Json) (k : String) (v : JValue) : (j.set k v).get k = some v := by
  cases j <;> simp [Json.set, Json.get]

theorem Json.get_set_other (j : Json) (k k2 : String) (v : JValue) (h : k2 ≠ k) :
    (j.set k v).get k2 = j.get k2 := by
  have hb : (k2 == k) = false := by simpa using h
  cases j with
  | null => simp [Json.set, Json.get, List.lookup_cons, hb]
  | object ms => simp [Json.set, Json.get, List.lookup_cons, hb, lookup_filter_ne k k2 ms h]

theorem parseTimestamp_get_other (exifData : List (String × String)) (k2 : String) (gps : Json)
    (h : k2 ≠ "timestamp") : (parseTimestamp exifData gps).get k2 = gps.get k2 := by
  unfold parseTimestamp
  split
  · exact Json.get_set_other _ _ _ _ h
  · rfl

theorem formatLocation_get_other (k2 : String) (gps : Json) (h : k2 ≠ "location_string") :
    (formatLocation gps).get k2 = gps.get k2 := by
  unfold formatLocation
  split
  · exact Json.get_set_other _ _ _ _ h
  · rfl

theorem dmsRational_nonneg (d1 d2 m1 m2 s1 s2 : Nat) : 0 ≤ dmsRational d1 d2 m1 m2 s1 s2 := by
  unfold dmsRational
  positivity

theorem takeDigits_isSome (ds rest : List Char) (hds : IsDigits ds) :
    ∃ r, takeDigits (ds ++ rest) = some r := by
  obtain ⟨hne, hall⟩ := hds
  cases ds with
  | nil => exact absurd rfl hne
  | cons d ds =>
    have hd : d.isDigit = true := hall d (by simp)
    unfold takeDigits
    rw [List.span_eq_take_drop]
    simp [List.takeWhile_cons, hd]

theorem matchDmsAt_complete (d1 d2 m1 m2 s1 s2 post : List Char) (h1 : IsDigits d1)
    (h2 : IsDigits d2) (h3 : IsDigits m1) (h4 : IsDigits m2) (h5 : IsDigits s1)
    (h6 : IsDigits s2) :
    ∃ m, matchDmsAt (dmsChars d1 d2 m1 m2 s1 s2 ++ post) = some m := by
  obtain ⟨r, hr⟩ := takeDigits_isSome s2 post h6
  refine ⟨⟨d1, d2, m1, m2, s1, r.1⟩, ?_⟩
  simp only [matchDmsAt, dmsChars, List.append_assoc, List.cons_append,
    takeDigits_cons _ _ _ h1 (by decide : '/'.isDigit = false),
    takeDigits_cons _ _ _ h2 (by decide : ' '.isDigit = false),
    takeDigits_cons _ _ _ h3 (by decide : '/'.isDigit = false),
    takeDigits_cons _ _ _ h4 (by decide : ' '.isDigit = false),
    takeDigits_cons _ _ _ h5 (by decide : '/'.isDigit = false), hr,
    expectChar, if_true, Option.bind_eq_bind, Option.some_bind, Option.pure_def]

theorem regexSearchDms_complete (pre post d1 d2 m1 m2 s1 s2 : List Char) (h1 : IsDigits d1)
    (h2 : IsDigits d2) (h3 : IsDigits m1) (h4 : IsDigits m2) (h5 : IsDigits s1)
    (h6 : IsDigits s2) :
    ∃ m, regexSearchDms (pre ++ dmsChars d1 d2 m1 m2 s1 s2 ++ post) = some m := by
  induction pre with
  | nil =>
    obtain ⟨m, hm⟩ := matchDmsAt_complete d1 d2 m1 m2 s1 s2 post h1 h2 h3 h4 h5 h6
    refine ⟨m, ?_⟩
    rw [List.nil_append]
    cases hd : dmsChars d1 d2 m1 m2 s1 s2 ++ post with
    | nil => rw [hd] at hm; simp [matchDmsAt, takeDigits] at hm
    | cons c cs => rw [hd] at hm; simp only [regexSearchDms, hm]
  | cons c cs ih =>
    obtain ⟨m, hm⟩ := ih
    simp only [List.cons_append, regexSearchDms]
    cases hc : matchDmsAt (c :: (cs ++ dmsChars d1 d2 m1 m2 s1 s2 ++ post)) with
    | some m2 => exact ⟨m2, rfl⟩
    | none => exact ⟨m, by simpa using hm⟩

theorem regexSearchDms_eq_none_iff (s : String) :
    regexSearchDms s.data = none ↔ ¬ ContainsDms s := by
  constructor
  · rintro h ⟨pre, post, d1, d2, m1, m2, s1, s2, h1, h2, h3, h4, h5, h6, hs⟩
    obtain ⟨m, hm⟩ := regexSearchDms_complete pre post d1 d2 m1 m2 s1 s2 h1 h2 h3 h4 h5 h6
    rw [← hs, h] at hm
    exact absurd hm (by simp)
  · intro h
    cases hm : regexSearchDms s.data with
    | none => rfl
    | some m =>
      obtain ⟨⟨pre, post, hp⟩, k1, k2, k3, k4, k5, k6⟩ := regexSearchDms_sound _ _ hm
      exact absurd ⟨pre, post, _, _, _, _, _, _, k1, k2, k3, k4, k5, k6, hp⟩ h

theorem not_isDmsString_of_head (s : String) (c : Char) (cs : List Char) (hs : s.data = c :: cs)
    (hc : c.isDigit = false) : ¬ IsDmsString s := by
  rintro ⟨d1, d2, m1, m2, s1, s2, h1, -, -, -, -, -, h⟩
  obtain ⟨hne, hall⟩ := h1
  cases d1 with
  | nil => exact hne rfl
  | cons d ds =>
    rw [hs] at h
    simp only [dmsChars, List.cons_append, List.cons.injEq] at h
    have := hall d (by simp)
    rw [← h.1, hc] at this
    exact absurd this (by simp)

/-! ## Lemmas: decimal numerals and the round trip -/

theorem digitChar_spec (k : Nat) (h : k < 10) :
    (Nat.digitChar k).isDigit = true ∧ (Nat.digitChar k).toNat - 48 = k := by
  interval_cases k <;> decide

theorem digitsValue_append_singleton (ds : List Char) (c : Char) :
    digitsValue (ds ++ [c]) = 10 * digitsValue ds + (c.toNat - 48) := by
  simp [digitsValue, List.foldl_append]

theorem toDigitsCore_spec (fuel : Nat) : ∀ (n : Nat) (acc : List Char), n < fuel →
    ∃ ds, Nat.toDigitsCore 10 fuel n acc = ds ++ acc ∧ IsDigits ds ∧ digitsValue ds = n := by
  induction fuel with
  | zero => intro n acc h; exact absurd h (Nat.not_lt_zero n)
  | succ fuel ih =>
    intro n acc h
    obtain ⟨hdig, hval⟩ := digitChar_spec (n % 10) (Nat.mod_lt n (by norm_num))
    simp only [Nat.toDigitsCore]
    split_ifs with h0
    · refine ⟨[Nat.digitChar (n % 10)], rfl, ⟨by simp, by simpa using hdig⟩, ?_⟩
      have hn : n % 10 = n := Nat.mod_eq_of_lt (by omega)
      simp only [digitsValue, List.foldl_cons, List.foldl_nil, Nat.mul_zero, Nat.zero_add]
      rw [hval, hn]
    · have hlt : n / 10 < fuel := by omega
      obtain ⟨ds, hds, ⟨hne, hall⟩, hv⟩ := ih (n / 10) (Nat.digitChar (n % 10) :: acc) hlt
      refine ⟨ds ++ [Nat.digitChar (n % 10)], by simp [hds], ⟨by simp, ?_⟩, ?_⟩
      · intro c hc
        rcases List.mem_append.1 hc with hc | hc
        · exact hall c hc
        · rw [List.mem_singleton.1 hc]; exact hdig
      · rw [digitsValue_append_singleton, hv, hval]
        omega

theorem repr_spec (n : Nat) : IsDigits (toString n).data ∧ digitsValue (toString n).data = n := by
  obtain ⟨ds, hds, hdig, hv⟩ := toDigitsCore_spec (n + 1) n [] (Nat.lt_succ_self n)
  have : (toString n).data = ds := by
    show (Nat.toDigits 10 n) = ds
    rw [Nat.toDigits, hds, List.append_nil]
  rw [this]
  exact ⟨hdig, hv⟩

theorem encodeDms_data (v : ℚ) :
    (encodeDms v).data = dmsChars (toString ⌊v⌋.toNat).data ['1']
      (toString ⌊(v - ⌊v⌋.toNat) * 60⌋.toNat).data ['1']
      (toString ⌊((v - ⌊v⌋.toNat) * 60 - ⌊(v - ⌊v⌋.toNat) * 60⌋.toNat) * 60 * 100⌋.toNat).data
      ['1', '0', '0'] := by
  simp [encodeDms, dmsChars, String.data_append]

theorem encodeDms_example : encodeDms (1 / 250000) = "0/1 0/1 1/100" := by
  have f1 : ⌊(1 / 250000 : ℚ)⌋ = 0 := by norm_num
  have f2 : ⌊((1 / 250000 : ℚ) - ((0 : ℕ) : ℚ)) * 60⌋ = 0 := by norm_num
  have f3 : ⌊(((1 / 250000 : ℚ) - ((0 : ℕ) : ℚ)) * 60 - ((0 : ℕ) : ℚ)) * 60 * 100⌋ = 1 := by
    norm_num
  simp only [encodeDms, f1, Int.toNat_zero, f2, f3]
  decide

/-! ## Lemmas: the signature detector and the validation gate -/

theorem pathFilename_append_exe (base : String) :
    pathFilename (base ++ ".exe") = pathFilename base ++ ['.', 'e', 'x', 'e'] := by
  simp [pathFilename, String.data_append, List.takeWhile_cons]

theorem pathExtension_exe (base : String) :
    pathExtension (base ++ ".exe") = "" ∨ pathExtension (base ++ ".exe") = ".exe" := by
  unfold pathExtension
  rw [pathFilename_append_exe]
  have htail : ((pathFilename base ++ ['.', 'e', 'x', 'e']).reverse.takeWhile
      (fun c => c != '.')).reverse = ['e', 'x', 'e'] := by
    simp [List.takeWhile_cons]
  simp only [htail]
  split_ifs
  · exact Or.inl rfl
  · exact Or.inl rfl
  · exact Or.inl rfl
  · exact Or.inr rfl

theorem lowerExtension_exe (base : String) :
    lowerExtension (base ++ ".exe") ∉ SUPPORTED_EXTENSIONS := by
  unfold lowerExtension
  rcases pathExtension_exe base with h | h <;> rw [h] <;> decide

/-- C9: a readable file whose first three bytes are FF D8 FF is detected as `image/jpeg`,
whatever follows and whatever the path. -/
theorem jpeg_signature_detected (fs : FileSystem) (filePath : String) (st : FileState)
    (rest : List Nat) (hfile : fs filePath = some st)
    (hbytes : st.content = some (0xFF :: 0xD8 :: 0xFF :: rest)) :
    detectMimeType fs filePath = "image/jpeg" := by
  simp [detectMimeType, hfile, hbytes, detectSignature]

/-- C9 witness: the JPEG header of the unit test, stored under a `.png` name. -/
theorem jpeg_signature_detected_witness :
    detectMimeType (fun p => if p = "/tmp/test.png" then
        some ⟨some 10, some [0xFF, 0xD8, 0xFF, 0xE0, 0x00, 0x10, 0x4A, 0x46, 0x49, 0x46]⟩
      else none) "/tmp/test.png" = "image/jpeg" :=
  jpeg_signature_detected _ "/tmp/test.png"
    ⟨some 10, some [0xFF, 0xD8, 0xFF, 0xE0, 0x00, 0x10, 0x4A, 0x46, 0x49, 0x46]⟩
    [0xE0, 0x00, 0x10, 0x4A, 0x46, 0x49, 0x46] rfl rfl

/-- C10: `validateImage` returns true exactly when the file exists, its size `s` satisfies
`0 < s ≤ 52428800`, its lower-cased extension is on the allow-list, the detected type starts
with `image/` and the file can be opened; an empty file is rejected, and so is any path that
ends in `.exe`. -/
theorem validateImage_iff (fs : FileSystem) (imagePath : String) :
    (validateImage fs imagePath = some true ↔
      ∃ st s, fs imagePath = some st ∧ st.size = some s ∧ 0 < s ∧ s ≤ 52428800 ∧
        lowerExtension imagePath ∈ [".jpg", ".jpeg", ".png", ".tiff", ".tif", ".bmp", ".gif"] ∧
        "image/".data <+: (detectMimeType fs imagePath).data ∧
        st.content.isSome = true) ∧
    (∀ st, fs imagePath = some st → st.size = some 0 → validateImage fs imagePath = some false) ∧
    (∀ base : String, validateImage fs (base ++ ".exe") ≠ some true) := by
  refine ⟨⟨?_, ?_⟩, ?_, ?_⟩
  · intro h
    cases hfs : fs imagePath with
    | none => simp [validateImage, hfs] at h
    | some st =>
      cases hsize : st.size with
      | none => simp [validateImage, hfs, hsize] at h
      | some s =>
        simp only [validateImage, hfs, hsize] at h
        by_cases hsz : s = 0 ∨ s > 1024 * 1024 * 50
        · simp [hsz] at h
        · rw [if_neg hsz] at h
          by_cases hext : lowerExtension imagePath ∉ SUPPORTED_EXTENSIONS
          · simp [hext] at h
          · rw [if_neg hext] at h
            by_cases hmime : ¬ ("image/".data.isPrefixOf (detectMimeType fs imagePath).data = true)
            · simp [hmime] at h
            · rw [if_neg hmime] at h
              cases hc : st.content with
              | none =>
                rw [hc] at h
                exact absurd (Option.some.inj h) (by decide)
              | some bytes =>
                refine ⟨st, s, rfl, hsize, by omega, by omega, ?_, ?_, by rw [hc]; rfl⟩
                · exact not_not.1 hext
                · exact List.isPrefixOf_iff_prefix.1 (not_not.1 hmime)
  · rintro ⟨st, s, hfs, hsize, hpos, hle, hext, hmime, hopen⟩
    obtain ⟨bytes, hc⟩ := Option.isSome_iff_exists.1 hopen
    have hsz : ¬ (s = 0 ∨ s > 1024 * 1024 * 50) := by omega
    have hext2 : ¬ (lowerExtension imagePath ∉ SUPPORTED_EXTENSIONS) := not_not.2 hext
    have hmime2 : ¬ ¬ ("image/".data.isPrefixOf (detectMimeType fs imagePath).data = true) :=
      not_not.2 (List.isPrefixOf_iff_prefix.2 hmime)
    simp only [validateImage, hfs, hsize, if_neg hsz, if_neg hext2, if_neg hmime2, hc]
  · intro st hfs hsize
    simp [validateImage, hfs, hsize]
  · intro base
    have hext := lowerExtension_exe base
    cases hfs : fs (base ++ ".exe") with
    | none => simp [validateImage, hfs]
    | some st =>
      cases hsize : st.size with
      | none => simp [validateImage, hfs, hsize]
      | some s =>
        simp only [validateImage, hfs, hsize, hext, not_false_eq_true, if_true]
        split_ifs <;> simp

/-- C10 witness: a 4-byte JPEG named `a.jpg` is accepted; an empty file and a file named
`a.exe` that starts with the JPEG signature are not. -/
theorem validateImage_iff_witness :
    validateImage (fun p => if p = "a.jpg" then some ⟨some 4, some [0xFF, 0xD8, 0xFF, 0xE0]⟩
      else if p = "empty.jpg" then some ⟨some 0, some []⟩
      else if p = "a.exe" then some ⟨some 4, some [0xFF, 0xD8, 0xFF, 0xE0]⟩
      else none) "a.jpg" = some true ∧
    validateImage (fun p => if p = "a.jpg" then some ⟨some 4, some [0xFF, 0xD8, 0xFF, 0xE0]⟩
      else if p = "empty.jpg" then some ⟨some 0, some []⟩
      else if p = "a.exe" then some ⟨some 4, some [0xFF, 0xD8, 0xFF, 0xE0]⟩
      else none) "empty.jpg" = some false ∧
    validateImage (fun p => if p = "a.jpg" then some ⟨some 4, some [0xFF, 0xD8, 0xFF, 0xE0]⟩
      else if p = "empty.jpg" then some ⟨some 0, some []⟩
      else if p = "a.exe" then some ⟨some 4, some [0xFF, 0xD8, 0xFF, 0xE0]⟩
      else none) ("a" ++ ".exe") ≠ some true :=
  ⟨(validateImage_iff _ "a.jpg").1.2
      ⟨⟨some 4, some [0xFF, 0xD8, 0xFF, 0xE0]⟩, 4, rfl, rfl, by decide, by decide, by decide,
        by decide, rfl⟩,
    (validateImage_iff _ "empty.jpg").2.1 ⟨some 0, some []⟩ rfl rfl,
    (validateImage_iff _ "a.jpg").2.2 "a"⟩

/-! ## Lemmas: the signature tests -/

theorem signatureTest_first_byte (header : List Nat) :
    (jpegTest.test header = true → header.getD 0 0 = 0xFF) ∧
    (pngTest.test header = true → header.getD 0 0 = 0x89) ∧
    (gifTest.test header = true → header.getD 0 0 = 0x47) ∧
    (tiffTest.test header = true → header.getD 0 0 = 0x49 ∨ header.getD 0 0 = 0x4D) ∧
    (bmpTest.test header = true → header.getD 0 0 = 0x42) := by
  refine ⟨?_, ?_, ?_, ?_, ?_⟩
  · intro h; simp only [jpegTest, decide_eq_true_eq] at h; exact h.2.1
  · intro h; simp only [pngTest, decide_eq_true_eq] at h; exact h.2.1
  · intro h; simp only [gifTest, decide_eq_true_eq] at h; exact h.2.1
  · intro h; simp only [tiffTest, decide_eq_true_eq] at h
    rcases h.2 with h2 | h2
    · exact Or.inl h2.1
    · exact Or.inr h2.1
  · intro h; simp only [bmpTest, decide_eq_true_eq] at h; exact h.2.1

theorem signatureTests_exclusive (header : List Nat) (t1 t2 : SignatureTest)
    (h1 : t1 ∈ signatureTests) (h2 : t2 ∈ signatureTests) (m1 : t1.test header = true)
    (m2 : t2.test header = true) : t1 = t2 := by
  obtain ⟨fj, fp, fg, ft, fb⟩ := signatureTest_first_byte header
  simp only [signatureTests, List.mem_cons, List.mem_singleton, List.not_mem_nil, or_false]
    at h1 h2
  rcases h1 with rfl | rfl | rfl | rfl | rfl <;> rcases h2 with rfl | rfl | rfl | rfl | rfl <;>
    first
      | rfl
      | (exfalso
         first
           | (have a := fj m1; have b := fp m2; omega)
           | (have a := fj m1; have b := fg m2; omega)
           | (have a := fj m1; have b := ft m2; omega)
           | (have a := fj m1; have b := fb m2; omega)
           | (have a := fp m1; have b := fj m2; omega)
           | (have a := fp m1; have b := fg m2; omega)
           | (have a := fp m1; have b := ft m2; omega)
           | (have a := fp m1; have b := fb m2; omega)
           | (have a := fg m1; have b := fj m2; omega)
           | (have a := fg m1; have b := fp m2; omega)
           | (have a := fg m1; have b := ft m2; omega)
           | (have a := fg m1; have b := fb m2; omega)
           | (have a := ft m1; have b := fj m2; omega)
           | (have a := ft m1; have b := fp m2; omega)
           | (have a := ft m1; have b := fg m2; omega)
           | (have a := ft m1; have b := fb m2; omega)
           | (have a := fb m1; have b := fj m2; omega)
           | (have a := fb m1; have b := fp m2; omega)
           | (have a := fb m1; have b := fg m2; omega)
           | (have a := fb m1; have b := ft m2; omega))

theorem detectSignatureIn_perm (header : List Nat) (order : List SignatureTest)
    (hperm : order.Perm signatureTests) :
    detectSignatureIn order header = detectSignatureIn signatureTests header := by
  have key : ∀ (l : List SignatureTest), (∀ t, t ∈ l ↔ t ∈ signatureTests) →
      ∀ t ∈ signatureTests, t.test header = true →
        l.find? (fun t => t.test header) = some t := by
    intro l hl t ht hm
    cases hf : l.find? (fun t => t.test header) with
    | none =>
      have := List.find?_eq_none.1 hf t ((hl t).2 ht)
      exact absurd hm this
    | some t2 =>
      have hm2 : t2.test header = true := by simpa using List.find?_some hf
      have ht2 : t2 ∈ signatureTests := (hl t2).1 (List.mem_of_find?_eq_some hf)
      rw [signatureTests_exclusive header t2 t ht2 ht hm2 hm]
  unfold detectSignatureIn
  by_cases hex : ∃ t ∈ signatureTests, t.test header = true
  · obtain ⟨t, ht, hm⟩ := hex
    rw [key order (fun t => hperm.mem_iff) t ht hm, key signatureTests (fun t => Iff.rfl) t ht hm]
  · have hnone : ∀ (l : List SignatureTest), (∀ t, t ∈ l ↔ t ∈ signatureTests) →
        l.find? (fun t => t.test header) = none := by
      intro l hl
      rw [List.find?_eq_none]
      intro t ht hm
      exact hex ⟨t, (hl t).1 ht, hm⟩
    rw [hnone order (fun t => hperm.mem_iff), hnone signatureTests (fun t => Iff.rfl)]

theorem detectSignatureIn_cons (t : SignatureTest) (ts : List SignatureTest)
    (header : List Nat) :
    detectSignatureIn (t :: ts) header =
      if t.test header = true then some t.mime else detectSignatureIn ts header := by
  unfold detectSignatureIn
  by_cases h : t.test header = true
  · simp [List.find?, h]
  · simp [List.find?, h]

theorem detectSignatureIn_source (header : List Nat) :
    detectSignatureIn signatureTests header = detectSignature header := by
  simp only [signatureTests, detectSignatureIn_cons]
  simp only [detectSignatureIn, List.find?, Option.map_none', jpegTest, pngTest, gifTest,
    tiffTest, bmpTest, decide_eq_true_eq, detectSignature]

/-- C17: on every header at most one of the five signature tests matches, and the five tests
evaluated in any order return what the order of the source returns. -/
theorem signature_order_irrelevant (header : List Nat) :
    (signatureTests.filter (fun t => t.test header)).length ≤ 1 ∧
    ∀ order : List SignatureTest, order.Perm signatureTests →
      detectSignatureIn order header = detectSignature header := by
  refine ⟨?_, fun order hperm => ?_⟩
  · have hnodup : (signatureTests.filter (fun t => t.test header)).Nodup := by
      apply List.Nodup.filter
      simp only [signatureTests, List.nodup_cons, List.mem_cons, List.mem_singleton,
        List.not_mem_nil, or_false, not_false_eq_true, List.nodup_nil, and_true]
      simp [jpegTest, pngTest, gifTest, tiffTest, bmpTest]
    match hl : signatureTests.filter (fun t => t.test header) with
    | [] => rw [hl]; simp
    | [_] => rw [hl]; simp
    | a :: b :: rest =>
      exfalso
      have ha : a ∈ signatureTests.filter (fun t => t.test header) := by rw [hl]; simp
      have hb : b ∈ signatureTests.filter (fun t => t.test header) := by rw [hl]; simp
      rw [List.mem_filter] at ha hb
      have hab := signatureTests_exclusive header a b ha.1 hb.1 ha.2 hb.2
      rw [hl] at hnodup
      simp [hab] at hnodup
  · rw [detectSignatureIn_perm header order hperm, detectSignatureIn_source]

/-- C17 witness: the PNG signature, the tests taken in reverse order. -/
theorem signature_order_irrelevant_witness :
    detectSignatureIn [bmpTest, tiffTest, gifTest, pngTest, jpegTest]
      [0x89, 0x50, 0x4E, 0x47, 0x0D, 0x0A, 0x1A, 0x0A, 0, 0, 0, 13] =
        detectSignature [0x89, 0x50, 0x4E, 0x47, 0x0D, 0x0A, 0x1A, 0x0A, 0, 0, 0, 13] :=
  (signature_order_irrelevant [0x89, 0x50, 0x4E, 0x47, 0x0D, 0x0A, 0x1A, 0x0A, 0, 0, 0, 13]).2
    [bmpTest, tiffTest, gifTest, pngTest, jpegTest] (List.reverse_perm signatureTests)

theorem detectSignature_values (header : List Nat) (mime : String)
    (h : detectSignature header = some mime) :
    mime ∈ ["image/jpeg", "image/png", "image/gif", "image/tiff", "image/bmp"] := by
  simp only [detectSignature] at h
  split_ifs at h <;> simp only [Option.some.injEq] at h <;> subst h <;> decide

theorem mimeFromExtension_values (extension : String) :
    mimeFromExtension extension ∈ ["image/jpeg", "image/png", "image/gif", "image/tiff",
      "image/bmp", "application/octet-stream"] := by
  unfold mimeFromExtension
  split_ifs <;> decide

theorem detectSignature_short (header : List Nat) (h : header.length < 2) :
    detectSignature header = none := by
  unfold detectSignature
  have h3 : ¬ header.length ≥ 3 := by omega
  have h8 : ¬ header.length ≥ 8 := by omega
  have h4 : ¬ header.length ≥ 4 := by omega
  have h2 : ¬ header.length ≥ 2 := by omega
  simp [h3, h8, h4, h2]

/-- C18: `detectMimeType` always returns one of the six types; for a readable file whose
header matches no signature, a header shorter than two bytes included, the type is the one of
the lower-cased extension, and it is `application/octet-stream` exactly when the extension is
none of `.jpg`, `.jpeg`, `.png`, `.gif`, `.tiff`, `.tif`, `.bmp`. -/
theorem detectMimeType_fallback (fs : FileSystem) (filePath : String) :
    detectMimeType fs filePath ∈ ["image/jpeg", "image/png", "image/gif", "image/tiff",
      "image/bmp", "application/octet-stream"] ∧
    (∀ st bytes, fs filePath = some st → st.content = some bytes →
      (bytes.length < 2 → detectSignature (bytes.take 12) = none) ∧
      (detectSignature (bytes.take 12) = none →
        (lowerExtension filePath = ".jpg" ∨ lowerExtension filePath = ".jpeg" →
          detectMimeType fs filePath = "image/jpeg") ∧
        (lowerExtension filePath = ".png" → detectMimeType fs filePath = "image/png") ∧
        (lowerExtension filePath = ".gif" → detectMimeType fs filePath = "image/gif") ∧
        (lowerExtension filePath = ".tiff" ∨ lowerExtension filePath = ".tif" →
          detectMimeType fs filePath = "image/tiff") ∧
        (lowerExtension filePath = ".bmp" → detectMimeType fs filePath = "image/bmp") ∧
        (detectMimeType fs filePath = "application/octet-stream" ↔
          lowerExtension filePath ∉ [".jpg", ".jpeg", ".png", ".gif", ".tiff", ".tif",
            ".bmp"]))) := by
  constructor
  · unfold detectMimeType
    split
    · decide
    · rename_i bytes _
      cases hsig : detectSignature (bytes.take 12) with
      | none => exact mimeFromExtension_values _
      | some mime =>
        have := detectSignature_values _ _ hsig
        simp only [List.mem_cons, List.mem_singleton, List.not_mem_nil, or_false] at this ⊢
        tauto
  · intro st bytes hfs hc
    refine ⟨fun hlen => detectSignature_short _ (by simp; omega), fun hsig => ?_⟩
    have hres : detectMimeType fs filePath = mimeFromExtension (lowerExtension filePath) := by
      simp [detectMimeType, hfs, hc, hsig]
    rw [hres]
    refine ⟨?_, ?_, ?_, ?_, ?_, ?_⟩
    · rintro (h | h) <;> rw [h] <;> decide
    · intro h; rw [h]; decide
    · intro h; rw [h]; decide
    · rintro (h | h) <;> rw [h] <;> decide
    · intro h; rw [h]; decide
    · unfold mimeFromExtension
      simp only [List.mem_cons, List.mem_singleton, List.not_mem_nil, or_false, not_or]
      split_ifs with h1 h2 h3 h4 h5
      · rcases h1 with h | h <;> simp [h]
      · simp [h2]
      · simp [h3]
      · rcases h4 with h | h <;> simp [h]
      · simp [h5]
      · simp only [true_iff]
        exact ⟨fun h => h1 (Or.inl h), fun h => h1 (Or.inr h), h2, h3,
          fun h => h4 (Or.inl h), fun h => h4 (Or.inr h), h5⟩

/-- C18 witness: a one-byte file named `scan.TIF`. -/
theorem detectMimeType_fallback_witness :
    detectMimeType (fun p => if p = "scan.TIF" then some ⟨some 1, some [0x42]⟩ else none)
      "scan.TIF" = "image/tiff" :=
  (((detectMimeType_fallback
      (fun p => if p = "scan.TIF" then some ⟨some 1, some [0x42]⟩ else none) "scan.TIF").2
    ⟨some 1, some [0x42]⟩ [0x42] rfl rfl).2 (by decide)).2.2.2.1 (Or.inr (by decide))

/-- C19: replacing the raw tag map of a record, and with it the presence of
`Exif.Thumbnail.Compression`, changes neither `is_tampered` nor `tampering_indicators`; the
tag decides only whether the `thumbnail_check` note is present. -/
theorem thumbnail_advisory (m : Metadata) (e : Exif) (all2 : List (String × String))
    (hexif : m.exif = some e) :
    (checkMetadataConsistency { m with exif := some { e with all := all2 } }).is_tampered =
      (checkMetadataConsistency m).is_tampered ∧
    (checkMetadataConsistency { m with exif := some { e with all := all2 } }).tampering_indicators =
      (checkMetadataConsistency m).tampering_indicators ∧
    (checkMetadataConsistency m).thumbnail_check =
      (if (e.all.lookup "Exif.Thumbnail.Compression").isSome then
        some "Thumbnail exists, but comparison not implemented"
      else none) := by
  have hT : ∀ f, checkTimes { m with exif := some { e with all := all2 } } f = checkTimes m f := by
    intro f; simp [checkTimes, hexif]
  have hS : ∀ f, checkSoftware { m with exif := some { e with all := all2 } } f =
      checkSoftware m f := by
    intro f; simp [checkSoftware, hexif]
  refine ⟨?_, ?_, ?_⟩
  · rw [checkMetadataConsistency_flag, checkMetadataConsistency_flag, hT, hS]
  · rw [checkMetadataConsistency_indicators, checkMetadataConsistency_indicators, hT, hS]
  · simp only [checkMetadataConsistency, checkThumbnail, hexif]
    split_ifs
    · rfl
    · unfold checkSoftware checkTimes
      simp only [hexif]
      cases e.datetime_original <;> cases e.datetime_modified <;> cases e.software <;>
        simp only [] <;> (try split_ifs) <;> rfl

/-- C19 witness: a record with an editor in the software tag, with and without the thumbnail
tag. -/
theorem thumbnail_advisory_witness :
    (checkMetadataConsistency ⟨"a.jpg", 1, some ⟨none, none, none, none, none, none, none,
      some "GIMP 2.10", [("Exif.Thumbnail.Compression", "6")]⟩, none, none⟩).is_tampered =
    (checkMetadataConsistency ⟨"a.jpg", 1, some ⟨none, none, none, none, none, none, none,
      some "GIMP 2.10", []⟩, none, none⟩).is_tampered :=
  (thumbnail_advisory ⟨"a.jpg", 1, some ⟨none, none, none, none, none, none, none,
      some "GIMP 2.10", []⟩, none, none⟩ _ [("Exif.Thumbnail.Compression", "6")] rfl).1

theorem regexSearchFraction_exact (n d : List Char) (hn : IsDigits n) (hd : IsDigits d) :
    regexSearchFraction (n ++ '/' :: d) = some (n, d) := by
  have hds : takeDigits d = some (d, []) := by
    simpa using takeDigits_append d [] hd (by simp)
  have hm : matchFractionAt (n ++ '/' :: d) = some (n, d) := by
    simp only [matchFractionAt, takeDigits_cons _ _ _ hn (by decide : '/'.isDigit = false), hds,
      expectChar, if_true, Option.bind_eq_bind, Option.some_bind, Option.pure_def]
  cases hl : n ++ '/' :: d with
  | nil => simp at hl
  | cons c cs =>
    rw [hl] at hm
    simp only [regexSearchFraction, hm]

/-! ## Lemmas: the service -/

theorem batch_fold_none (tasks : List (Option ServiceResult)) :
    tasks.foldl
      (fun results task =>
        match results, task with
        | some rs, some r => some (rs ++ [r])
        | _, _ => none)
      none = none := by
  induction tasks with
  | nil => rfl
  | cons t ts ih => simpa [List.foldl] using ih

theorem batch_fold_some (rs acc : List ServiceResult) :
    (rs.map some).foldl
      (fun results task =>
        match results, task with
        | some rs, some r => some (rs ++ [r])
        | _, _ => none)
      (some acc) = some (acc ++ rs) := by
  induction rs generalizing acc with
  | nil => simp
  | cons r rs ih =>
    simp only [List.map_cons, List.foldl_cons]
    rw [ih]
    simp

theorem batch_fold_throw (tasks : List (Option ServiceResult)) (acc : List ServiceResult)
    (h : none ∈ tasks) :
    tasks.foldl
      (fun results task =>
        match results, task with
        | some rs, some r => some (rs ++ [r])
        | _, _ => none)
      (some acc) = none := by
  induction tasks generalizing acc with
  | nil => simp at h
  | cons t ts ih =>
    cases t with
    | none => simpa [List.foldl] using batch_fold_none ts
    | some r =>
      simp only [List.foldl_cons]
      exact ih _ (by simpa using h)

theorem processImage_returns (fs : FileSystem) (parser : Parser) (imagePath : String)
    (h : validateImage fs imagePath ≠ none) :
    ∃ r, processImage fs parser imagePath = some r := by
  unfold processImage
  cases hv : validateImage fs imagePath with
  | none => exact absurd hv h
  | some b =>
    cases b with
    | false => exact ⟨_, rfl⟩
    | true =>
      cases extractMetadata fs parser imagePath with
      | none => exact ⟨_, rfl⟩
      | some m => exact ⟨_, rfl⟩

theorem processBatch_some (fs : FileSystem) (parser : Parser) (images : List String)
    (rs : List ServiceResult) (h : images.map (processImage fs parser) = rs.map some) :
    processBatch fs parser images = some rs := by
  unfold processBatch
  simp only []
  rw [h, batch_fold_some]
  simp

/-- C15 counterexample: `photos.jpg` is a directory, on which `file_size` throws; the
exception leaves `processBatch` and no results array is returned, although `a.jpg` alone is
processed. -/
theorem batch_aborted :
    processBatch
      (fun p => if p = "a.jpg" then some ⟨some 4, some [0xFF, 0xD8, 0xFF, 0xE0]⟩
        else if p = "photos.jpg" then some ⟨none, none⟩ else none)
      (fun _ => some ⟨[], [], []⟩) ["a.jpg", "photos.jpg"] = none ∧
    (processImage
      (fun p => if p = "a.jpg" then some ⟨some 4, some [0xFF, 0xD8, 0xFF, 0xE0]⟩
        else if p = "photos.jpg" then some ⟨none, none⟩ else none)
      (fun _ => some ⟨[], [], []⟩) "a.jpg").map ServiceResult.status = some "success" := by
  constructor
  · apply batch_fold_throw
    simp only [List.map_cons, List.map_nil, List.mem_cons, List.mem_singleton]
    right; left
    rfl
  · rfl

/-- C15 (amended): when `validateImage` throws on none of the paths, `processBatch` returns a
results array of the length of the input whose i-th entry is `processImage` of the i-th path;
a path that fails validation has the entry `Invalid image file` at its position. -/
theorem batch_results (fs : FileSystem) (parser : Parser) (images : List String)
    (hreturns : ∀ p ∈ images, validateImage fs p ≠ none) :
    ∃ rs, processBatch fs parser images = some rs ∧ rs.length = images.length ∧
      (∀ i : Nat, (images[i]?).bind (processImage fs parser) = rs[i]?) ∧
      (∀ (i : Nat) (p : String), images[i]? = some p → validateImage fs p = some false →
        rs[i]? = some (ServiceResult.error "Invalid image file")) := by
  have hall : ∃ rs : List ServiceResult, images.map (processImage fs parser) = rs.map some := by
    induction images with
    | nil => exact ⟨[], rfl⟩
    | cons p ps ih =>
      obtain ⟨rs, hrs⟩ := ih (fun q hq => hreturns q (List.mem_cons_of_mem _ hq))
      obtain ⟨r, hr⟩ := processImage_returns fs parser p (hreturns p (List.mem_cons_self _ _))
      exact ⟨r :: rs, by simp [hr, hrs]⟩
  obtain ⟨rs, hrs⟩ := hall
  have hlen : rs.length = images.length := by
    have := congrArg List.length hrs
    simpa using this.symm
  have hget : ∀ i : Nat, (images[i]?).bind (processImage fs parser) = rs[i]? := by
    intro i
    have := congrArg (fun l => l[i]?) hrs
    simp only [List.getElem?_map] at this
    cases hi : images[i]? with
    | none =>
      rw [hi] at this
      cases hr : rs[i]? with
      | none => rfl
      | some r => rw [hr] at this; simp at this
    | some p =>
      rw [hi] at this
      cases hr : rs[i]? with
      | none => rw [hr] at this; simp at this
      | some r =>
        rw [hr] at this
        simpa using this
  refine ⟨rs, processBatch_some fs parser images rs hrs, hlen, hget, ?_⟩
  intro i p hi hv
  rw [← hget i, hi]
  simp [processImage, hv]

/-- C15 witness: `[a.jpg, b.exe, c.jpg]`, the second path failing validation. -/
theorem batch_results_witness :
    ∃ rs, processBatch
        (fun p => if p = "a.jpg" ∨ p = "b.exe" ∨ p = "c.jpg" then
          some ⟨some 4, some [0xFF, 0xD8, 0xFF, 0xE0]⟩ else none)
        (fun _ => some ⟨[], [], []⟩) ["a.jpg", "b.exe", "c.jpg"] = some rs ∧
      rs.length = 3 ∧ rs[1]? = some (ServiceResult.error "Invalid image file") := by
  obtain ⟨rs, h1, h2, _, h4⟩ := batch_results
    (fun p => if p = "a.jpg" ∨ p = "b.exe" ∨ p = "c.jpg" then
      some ⟨some 4, some [0xFF, 0xD8, 0xFF, 0xE0]⟩ else none)
    (fun _ => some ⟨[], [], []⟩) ["a.jpg", "b.exe", "c.jpg"]
    (by
      intro p hp
      simp only [List.mem_cons, List.mem_singleton, List.not_mem_nil, or_false] at hp
      rcases hp with rfl | rfl | rfl <;> decide)
  exact ⟨rs, h1, h2, h4 1 "b.exe" rfl (by decide)⟩

/-- C16 counterexample: a file that passes validation and on which the parser fails gets the
status `error`. -/
theorem parse_failure_is_error :
    validateImage (fun p => if p = "a.jpg" then some ⟨some 4, some [0xFF, 0xD8, 0xFF, 0xE0]⟩
      else none) "a.jpg" = some true ∧
    (processImage (fun p => if p = "a.jpg" then some ⟨some 4, some [0xFF, 0xD8, 0xFF, 0xE0]⟩
      else none) (fun _ => none) "a.jpg").map ServiceResult.status = some "error" := by
  constructor
  · decide
  · rfl

/-- C16 (amended): for a file that passes validation and on which the external parser fails,
`processImage` returns the error result with message `Failed to extract metadata`. -/
theorem parse_failure_reported (fs : FileSystem) (parser : Parser) (imagePath : String)
    (hvalid : validateImage fs imagePath = some true) (hparse : parser imagePath = none) :
    processImage fs parser imagePath =
      some (ServiceResult.error "Failed to extract metadata") := by
  simp [processImage, hvalid, extractMetadata, hparse]

/-- C16 witness: a four-byte JPEG that the parser rejects. -/
theorem parse_failure_reported_witness :
    processImage (fun p => if p = "a.jpg" then some ⟨some 4, some [0xFF, 0xD8, 0xFF, 0xE0]⟩
      else none) (fun _ => none) "a.jpg" =
        some (ServiceResult.error "Failed to extract metadata") :=
  parse_failure_reported _ _ "a.jpg" (by decide) rfl

/-! ## Lemmas: the sweep of the cache directory -/

theorem removeOldest_spec (maxCacheSize : Nat) (files : List DirEntry)
    (hok : ∀ f ∈ files, f.removable = true) : ∀ (totalSize : Nat) (dir : List DirEntry),
    ∃ n, n ≤ files.length ∧
      removeOldest maxCacheSize files totalSize dir =
        (totalSize - ((files.take n).map (fun e => e.size)).sum,
          dir.filter (fun e => decide (e.path ∉ (files.take n).map (fun f => f.path)))) ∧
      (∀ m, m < n → maxCacheSize < totalSize - ((files.take m).map (fun e => e.size)).sum) ∧
      (n < files.length → totalSize - ((files.take n).map (fun e => e.size)).sum ≤ maxCacheSize) := by
  induction files with
  | nil =>
    intro totalSize dir
    exact ⟨0, le_refl _, by simp [removeOldest], by intro m hm; omega, by simp⟩
  | cons f fs ih =>
    intro totalSize dir
    by_cases hfit : totalSize ≤ maxCacheSize
    · refine ⟨0, Nat.zero_le _, ?_, by intro m hm; omega, ?_⟩
      · simp [removeOldest, hfit]
      · intro _; simpa using hfit
    · have hf : f.removable = true := hok f (List.mem_cons_self _ _)
      obtain ⟨n, hn, hres, hmin, hfits⟩ :=
        ih (fun g hg => hok g (List.mem_cons_of_mem _ hg)) (totalSize - f.size)
          (dir.filter (fun e => e.path != f.path))
      refine ⟨n + 1, by simpa using hn, ?_, ?_, ?_⟩
      · simp only [removeOldest, hfit, if_false, hf, if_true, hres, List.take_succ_cons,
          List.map_cons, List.sum_cons, List.filter_filter, Nat.sub_sub]
        congr 1
        apply List.filter_congr
        intro e _
        by_cases he : e.path = f.path <;> simp [he]
      · intro m hm
        cases m with
        | zero => simp; omega
        | succ m =>
          have := hmin m (by omega)
          simpa [Nat.sub_sub] using this
      · intro hlt
        have := hfits (by simpa using hlt)
        simpa [Nat.sub_sub] using this

theorem filter_take_paths (files : List DirEntry) (n : Nat)
    (hnodup : (files.map (fun f => f.path)).Nodup) :
    files.filter (fun e => decide (e.path ∉ (files.take n).map (fun f => f.path))) =
      files.drop n := by
  induction files generalizing n with
  | nil => simp
  | cons f fs ih =>
    rw [List.map_cons, List.nodup_cons] at hnodup
    cases n with
    | zero => simp
    | succ n =>
      have hrest : fs.filter (fun e => decide (e.path ∉ ((f :: fs).take (n + 1)).map
          (fun f => f.path))) = fs.filter (fun e => decide (e.path ∉ (fs.take n).map
          (fun f => f.path))) := by
        apply List.filter_congr
        intro e he
        have hne : e.path ≠ f.path := by
          intro h
          exact hnodup.1 (h ▸ List.mem_map_of_mem (fun f => f.path) he)
        simp [hne]
      rw [List.filter_cons]
      simp only [List.take_succ_cons, List.map_cons, List.mem_cons, true_or, not_true_eq_false,
        decide_False, Bool.false_eq_true, if_false, List.drop_succ_cons]
      rw [← ih n hnodup.2, ← hrest]
      simp

theorem sorted_files_facts (sort : List DirEntry → List DirEntry) (dir : List DirEntry)
    (hsort : SortsByMtime sort) (hnodup : (dir.map (fun e => e.path)).Nodup) :
    ((sort (dir.filter (fun e => e.regular))).map (fun f => f.path)).Nodup ∧
    (∀ e, e ∈ sort (dir.filter (fun e => e.regular)) ↔ e ∈ dir ∧ e.regular = true) := by
  have hperm := (hsort (dir.filter (fun e => e.regular))).1
  constructor
  · rw [(hperm.map (fun f => f.path)).nodup_iff]
    exact hnodup.sublist ((List.filter_sublist dir).map _)
  · intro e
    rw [hperm.mem_iff, List.mem_filter]

theorem regularSize_after (sort : List DirEntry → List DirEntry) (dir : List DirEntry)
    (hsort : SortsByMtime sort) (hnodup : (dir.map (fun e => e.path)).Nodup) (n : Nat) :
    regularSize (dir.filter (fun e => decide (e.path ∉
      ((sort (dir.filter (fun e => e.regular))).take n).map (fun f => f.path)))) =
      (((sort (dir.filter (fun e => e.regular))).drop n).map (fun e => e.size)).sum := by
  obtain ⟨hnd, _⟩ := sorted_files_facts sort dir hsort hnodup
  have hperm := (hsort (dir.filter (fun e => e.regular))).1
  unfold regularSize
  rw [← filter_take_paths _ n hnd, List.filter_filter]
  have hcomm : dir.filter (fun a => (decide (a.regular = true) && decide (a.path ∉
      ((sort (dir.filter (fun e => e.regular))).take n).map (fun f => f.path)))) =
      (dir.filter (fun e => e.regular)).filter (fun e => decide (e.path ∉
        ((sort (dir.filter (fun e => e.regular))).take n).map (fun f => f.path))) := by
    rw [List.filter_filter]
    apply List.filter_congr
    intro e _
    simp [Bool.and_comm]
  have hfix : dir.filter (fun a => (a.regular && decide (a.path ∉
      ((sort (dir.filter (fun e => e.regular))).take n).map (fun f => f.path)))) =
      dir.filter (fun a => (decide (a.regular = true) && decide (a.path ∉
      ((sort (dir.filter (fun e => e.regular))).take n).map (fun f => f.path)))) := by
    apply List.filter_congr
    intro e _
    simp
  rw [hfix, hcomm]
  exact (((hperm.filter _).map _).sum_eq).symm

theorem regularSize_eq_sorted (sort : List DirEntry → List DirEntry) (dir : List DirEntry)
    (hsort : SortsByMtime sort) :
    regularSize dir = ((sort (dir.filter (fun e => e.regular))).map (fun e => e.size)).sum := by
  unfold regularSize
  exact ((((hsort (dir.filter (fun e => e.regular))).1).map _).sum_eq).symm

theorem sum_take_add_drop (l : List Nat) (n : Nat) : (l.take n).sum + (l.drop n).sum = l.sum := by
  rw [← List.sum_append, List.take_append_drop]

/-- The outcome of the file sweep when every removal succeeds: a prefix of the sorted files
is removed. -/
theorem cleanupFiles_spec (sort : List DirEntry → List DirEntry) (maxCacheSize : Nat)
    (dir : List DirEntry) (hsort : SortsByMtime sort)
    (hok : ∀ e ∈ dir, e.regular = true → e.removable = true) :
    ∃ n, n ≤ (sort (dir.filter (fun e => e.regular))).length ∧
      (cleanupFiles sort maxCacheSize dir).2 = dir.filter (fun e => decide (e.path ∉
        ((sort (dir.filter (fun e => e.regular))).take n).map (fun f => f.path))) ∧
      (regularSize dir ≤ maxCacheSize → n = 0) ∧
      (∀ m, m < n → maxCacheSize < regularSize dir -
        (((sort (dir.filter (fun e => e.regular))).take m).map (fun e => e.size)).sum) ∧
      (n < (sort (dir.filter (fun e => e.regular))).length → regularSize dir -
        (((sort (dir.filter (fun e => e.regular))).take n).map (fun e => e.size)).sum
          ≤ maxCacheSize) := by
  have hperm := (hsort (dir.filter (fun e => e.regular))).1
  by_cases hbig : regularSize dir > maxCacheSize
  · have hrem : ∀ f ∈ sort (dir.filter (fun e => e.regular)), f.removable = true := by
      intro f hf
      have := hperm.mem_iff.1 hf
      rw [List.mem_filter] at this
      exact hok f this.1 this.2
    obtain ⟨n, hn, hres, hmin, hfits⟩ :=
      removeOldest_spec maxCacheSize _ hrem (regularSize dir) dir
    refine ⟨n, hn, ?_, fun h => absurd h (by omega), hmin, hfits⟩
    have : (cleanupFiles sort maxCacheSize dir) =
        removeOldest maxCacheSize (sort (dir.filter (fun e => e.regular))) (regularSize dir)
          dir := by
      simp only [cleanupFiles, regularSize] at hbig ⊢
      rw [if_pos hbig]
    rw [this, hres]
  · have hle : regularSize dir ≤ maxCacheSize := Nat.le_of_not_gt hbig
    have : (cleanupFiles sort maxCacheSize dir) = (regularSize dir, dir) := by
      simp only [cleanupFiles, regularSize] at hbig ⊢
      rw [if_neg hbig]
    refine ⟨0, Nat.zero_le _, ?_, fun _ => rfl, fun m hm => by omega, fun _ => ?_⟩
    · rw [this]
      simp
    · simpa using hle

/-- C13: when every removal succeeds, the regular files left in the cache directory by
`cleanupCache` have a total size of at most the cap. -/
theorem cleanup_within_cap {ρ : Type} (sort : List DirEntry → List DirEntry) (c : FileCache ρ)
    (now : Int) (dir : List DirEntry) (hsort : SortsByMtime sort)
    (hnodup : (dir.map (fun e => e.path)).Nodup)
    (hok : ∀ e ∈ dir, e.regular = true → e.removable = true) :
    regularSize (c.cleanupCache sort now dir).2 ≤ c.maxCacheSize := by
  obtain ⟨n, hn, hres, _, _, hfits⟩ := cleanupFiles_spec sort c.maxCacheSize dir hsort hok
  simp only [FileCache.cleanupCache]
  rw [hres, regularSize_after sort dir hsort hnodup n]
  have hsum := sum_take_add_drop
    ((sort (dir.filter (fun e => e.regular))).map (fun e => e.size)) n
  rw [← List.map_take, ← List.map_drop] at hsum
  rcases Nat.lt_or_ge n (sort (dir.filter (fun e => e.regular))).length with hlt | hge
  · have := hfits hlt
    rw [regularSize_eq_sorted sort dir hsort] at this
    omega
  · rw [List.drop_of_length_le hge]
    simp

theorem sortByMtime_sorts : SortsByMtime sortByMtime := by
  intro l
  haveI : IsTotal DirEntry (fun a b => a.mtime ≤ b.mtime) := ⟨fun a b => le_total a.mtime b.mtime⟩
  haveI : IsTrans DirEntry (fun a b => a.mtime ≤ b.mtime) :=
    ⟨fun a b c hab hbc => le_trans hab hbc⟩
  exact ⟨List.perm_insertionSort _ l, List.sorted_insertionSort _ l⟩

/-- C13 witness: three files of 10 bytes under a cap of 15 bytes. -/
theorem cleanup_within_cap_witness :
    regularSize ((⟨15, 60, [], []⟩ : FileCache Nat).cleanupCache sortByMtime 0
      [⟨"b", true, 10, 2, true⟩, ⟨"a", true, 10, 1, true⟩, ⟨"c", true, 10, 3, true⟩]).2 ≤ 15 :=
  cleanup_within_cap sortByMtime ⟨15, 60, [], []⟩ 0
    [⟨"b", true, 10, 2, true⟩, ⟨"a", true, 10, 1, true⟩, ⟨"c", true, 10, 3, true⟩]
    sortByMtime_sorts (by decide) (by decide)

/-- C14 counterexample: the oldest file cannot be removed; the sweep skips it and removes the
newer file, so the file removed is newer than the file kept. -/
theorem cleanup_skips_unremovable :
    ((⟨5, 60, [], []⟩ : FileCache Nat).cleanupCache sortByMtime 0
      [⟨"old", true, 10, 1, false⟩, ⟨"new", true, 10, 2, true⟩]).2 =
        [⟨"old", true, 10, 1, false⟩] := by
  decide

/-- C14 (amended): when every removal succeeds, the files `cleanupCache` removes are the
first `n` files in ascending order of modification time, `n` being the least number that
brings the total to at most the cap: nothing is removed when the total is within the cap,
every removed file is at least as old as every regular file kept, and with fewer than `n`
files removed the total is above the cap. -/
theorem cleanup_removes_oldest {ρ : Type} (sort : List DirEntry → List DirEntry)
    (c : FileCache ρ) (now : Int) (dir : List DirEntry) (hsort : SortsByMtime sort)
    (hnodup : (dir.map (fun e => e.path)).Nodup)
    (hok : ∀ e ∈ dir, e.regular = true → e.removable = true) :
    ∃ n, (∀ e, e ∈ (c.cleanupCache sort now dir).2 ↔
        e ∈ dir ∧ e ∉ (sort (dir.filter (fun e => e.regular))).take n) ∧
      (regularSize dir ≤ c.maxCacheSize → n = 0) ∧
      (∀ r ∈ (sort (dir.filter (fun e => e.regular))).take n,
        ∀ k ∈ (c.cleanupCache sort now dir).2, k.regular = true → r.mtime ≤ k.mtime) ∧
      regularSize dir - (((sort (dir.filter (fun e => e.regular))).take n).map
        (fun e => e.size)).sum ≤ c.maxCacheSize ∧
      (∀ m, m < n → c.maxCacheSize < regularSize dir -
        (((sort (dir.filter (fun e => e.regular))).take m).map (fun e => e.size)).sum) := by
  obtain ⟨n, hn, hres, hzero, hmin, hfits⟩ :=
    cleanupFiles_spec sort c.maxCacheSize dir hsort hok
  obtain ⟨hnd, hmem⟩ := sorted_files_facts sort dir hsort hnodup
  have hkept : ∀ e, e ∈ (c.cleanupCache sort now dir).2 ↔
      e ∈ dir ∧ e ∉ (sort (dir.filter (fun e => e.regular))).take n := by
    intro e
    simp only [FileCache.cleanupCache, hres, List.mem_filter, decide_eq_true_eq]
    constructor
    · rintro ⟨hd, hp⟩
      exact ⟨hd, fun ht => hp (List.mem_map_of_mem (fun f => f.path) ht)⟩
    · rintro ⟨hd, ht⟩
      refine ⟨hd, fun hp => ht ?_⟩
      obtain ⟨f, hf, hfe⟩ := List.mem_map.1 hp
      have hfd : f ∈ dir := ((hmem f).1 (List.mem_of_mem_take hf)).1
      have : f = e := by
        have hinj := List.inj_on_of_nodup_map hnodup
        exact hinj hfd hd hfe
      exact this ▸ hf
  refine ⟨n, hkept, hzero, ?_, ?_, hmin⟩
  · intro r hr k hk hkreg
    have hk2 := (hkept k).1 hk
    have hkfiles : k ∈ sort (dir.filter (fun e => e.regular)) := (hmem k).2 ⟨hk2.1, hkreg⟩
    have hsorted := (hsort (dir.filter (fun e => e.regular))).2
    rw [← List.take_append_drop n (sort (dir.filter (fun e => e.regular)))] at hsorted hkfiles
    rcases List.mem_append.1 hkfiles with h | h
    · exact absurd h hk2.2
    · exact (List.pairwise_append.1 hsorted).2.2 r hr k h
  · rcases Nat.lt_or_ge n (sort (dir.filter (fun e => e.regular))).length with hlt | hge
    · exact hfits hlt
    · rw [List.take_of_length_le hge, ← regularSize_eq_sorted sort dir hsort]
      simp

/-- C14 witness: of three 10-byte files under a cap of 15 bytes the two oldest are removed. -/
theorem cleanup_removes_oldest_witness :
    ∃ n, (∀ e, e ∈ ((⟨15, 60, [], []⟩ : FileCache Nat).cleanupCache sortByMtime 0
        [⟨"b", true, 10, 2, true⟩, ⟨"a", true, 10, 1, true⟩, ⟨"c", true, 10, 3, true⟩]).2 ↔
        e ∈ [⟨"b", true, 10, 2, true⟩, ⟨"a", true, 10, 1, true⟩, ⟨"c", true, 10, 3, true⟩] ∧
        e ∉ (sortByMtime ([⟨"b", true, 10, 2, true⟩, ⟨"a", true, 10, 1, true⟩,
          ⟨"c", true, 10, 3, true⟩].filter (fun e => e.regular))).take n) ∧
      (regularSize [⟨"b", true, 10, 2, true⟩, ⟨"a", true, 10, 1, true⟩,
        ⟨"c", true, 10, 3, true⟩] ≤ 15 → n = 0) := by
  obtain ⟨n, h1, h2, _⟩ := cleanup_removes_oldest sortByMtime (⟨15, 60, [], []⟩ : FileCache Nat) 0
    [⟨"b", true, 10, 2, true⟩, ⟨"a", true, 10, 1, true⟩, ⟨"c", true, 10, 3, true⟩]
    sortByMtime_sorts (by decide) (by decide)
  exact ⟨n, h1, h2⟩

/-! ## Lemmas: the in-memory cache -/

theorem ageSeconds_eq (now timestamp : Int) :
    ageSeconds now timestamp =
      if 0 ≤ now - timestamp then (now - timestamp) / 1000000000
      else -((timestamp - now) / 1000000000) := by
  unfold ageSeconds ticksPerSecond
  split_ifs with h
  · exact Int.tdiv_eq_ediv h (by norm_num)
  · have hneg : now - timestamp = -(timestamp - now) := by ring
    rw [hneg, Int.neg_tdiv, Int.tdiv_eq_ediv (by omega) (by norm_num)]

theorem ageSeconds_le (now timestamp maxAge : Int)
    (h : now - timestamp ≤ maxAge * ticksPerSecond) : ageSeconds now timestamp ≤ maxAge := by
  rw [ageSeconds_eq]
  unfold ticksPerSecond at h
  split_ifs <;> omega

theorem ageSeconds_gt (now timestamp maxAge : Int)
    (h : (maxAge + 1) * ticksPerSecond ≤ now - timestamp) : maxAge < ageSeconds now timestamp := by
  rw [ageSeconds_eq]
  unfold ticksPerSecond at h
  split_ifs <;> omega

theorem lookup_filter_key {V : Type} (P : String → Bool) (m : List (String × V)) (k : String) :
    (m.filter (fun p => P p.1)).lookup k = if P k = true then m.lookup k else none := by
  induction m with
  | nil => simp
  | cons p ps ih =>
    obtain ⟨a, b⟩ := p
    by_cases hP : P a = true
    · rw [List.filter_cons, if_pos hP, List.lookup_cons, List.lookup_cons, ih]
      by_cases hka : k = a
      · subst hka; simp [hP]
      · have hb : (k == a) = false := by simpa using hka
        simp only [hb]
    · rw [List.filter_cons, if_neg hP, ih, List.lookup_cons]
      by_cases hka : k = a
      · subst hka; simp [hP]
      · have hb : (k == a) = false := by simpa using hka
        simp only [hb]

theorem lookup_mapErase_self {V : Type} (m : List (String × V)) (k : String) :
    (mapErase m k).lookup k = none := by
  unfold mapErase
  rw [lookup_filter_key (fun x => x != k) m k]
  simp

theorem lookup_mapErase_ne {V : Type} (m : List (String × V)) (k k2 : String) (h : k2 ≠ k) :
    (mapErase m k).lookup k2 = m.lookup k2 :=
  lookup_filter_ne k k2 m h

theorem lookup_mapAssign_self {V : Type} (m : List (String × V)) (k : String) (v : V) :
    (mapAssign m k v).lookup k = some v := by
  simp [mapAssign]

theorem lookup_mapAssign_ne {V : Type} (m : List (String × V)) (k k2 : String) (v : V)
    (h : k2 ≠ k) : (mapAssign m k v).lookup k2 = m.lookup k2 := by
  have hb : (k2 == k) = false := by simpa using h
  simp only [mapAssign, List.lookup_cons, hb]
  exact lookup_mapErase_ne m k k2 h

theorem mem_mapErase {V : Type} (m : List (String × V)) (k : String) (p : String × V) :
    p ∈ mapErase m k ↔ p ∈ m ∧ p.1 ≠ k := by
  simp [mapErase, List.mem_filter]

/-- The keys that the first block of `cleanupCache` collects. -/
theorem cleanupMemory_eq {ρ : Type} (c : FileCache ρ) (now : Int) :
    c.cleanupMemory now =
      { c with
        metadataCache := c.metadataCache.filter (fun p => decide (p.1 ∉
          (c.cacheTimestamps.filter (fun p => ageSeconds now p.2 > c.maxCacheAge)).map Prod.fst))
        cacheTimestamps := c.cacheTimestamps.filter (fun p => decide (p.1 ∉
          (c.cacheTimestamps.filter (fun p => ageSeconds now p.2 > c.maxCacheAge)).map
            Prod.fst)) } := by
  have key : ∀ (keys : List String) (c : FileCache ρ),
      keys.foldl
        (fun c key =>
          { c with
            metadataCache := mapErase c.metadataCache key
            cacheTimestamps := mapErase c.cacheTimestamps key })
        c =
      { c with
        metadataCache := c.metadataCache.filter (fun p => decide (p.1 ∉ keys))
        cacheTimestamps := c.cacheTimestamps.filter (fun p => decide (p.1 ∉ keys)) } := by
    intro keys
    induction keys with
    | nil => intro c; simp
    | cons k ks ih =>
      intro c
      rw [List.foldl_cons, ih]
      simp only [mapErase, List.filter_filter]
      congr 1
      · apply List.filter_congr
        intro p _
        by_cases hp : p.1 = k <;> simp [hp]
      · apply List.filter_congr
        intro p _
        by_cases hp : p.1 = k <;> simp [hp]
  unfold FileCache.cleanupMemory
  exact key _ c

theorem cleanupMemory_lookup {ρ : Type} (c : FileCache ρ) (now : Int) (k : String) :
    ((c.cleanupMemory now).metadataCache.lookup k =
      if k ∈ (c.cacheTimestamps.filter (fun p => ageSeconds now p.2 > c.maxCacheAge)).map
          Prod.fst then none
      else c.metadataCache.lookup k) ∧
    ((c.cleanupMemory now).cacheTimestamps.lookup k =
      if k ∈ (c.cacheTimestamps.filter (fun p => ageSeconds now p.2 > c.maxCacheAge)).map
          Prod.fst then none
      else c.cacheTimestamps.lookup k) ∧
    (c.cleanupMemory now).maxCacheAge = c.maxCacheAge := by
  rw [cleanupMemory_eq]
  refine ⟨?_, ?_, rfl⟩
  · rw [lookup_filter_key (fun x => decide (x ∉ (c.cacheTimestamps.filter
      (fun p => ageSeconds now p.2 > c.maxCacheAge)).map Prod.fst)) c.metadataCache k]
    by_cases h : k ∈ (c.cacheTimestamps.filter
      (fun p => ageSeconds now p.2 > c.maxCacheAge)).map Prod.fst <;> simp [h]
  · rw [lookup_filter_key (fun x => decide (x ∉ (c.cacheTimestamps.filter
      (fun p => ageSeconds now p.2 > c.maxCacheAge)).map Prod.fst)) c.cacheTimestamps k]
    by_cases h : k ∈ (c.cacheTimestamps.filter
      (fun p => ageSeconds now p.2 > c.maxCacheAge)).map Prod.fst <;> simp [h]

theorem getCachedMetadata_miss {ρ : Type} (c : FileCache ρ) (now : Int) (key : String)
    (h : c.metadataCache.lookup key = none) : c.getCachedMetadata now key = (none, c) := by
  simp [FileCache.getCachedMetadata, h]

theorem getCachedMetadata_hit {ρ : Type} (c : FileCache ρ) (now timestamp : Int) (key : String)
    (record : ρ) (h : c.metadataCache.lookup key = some record)
    (ht : c.cacheTimestamps.lookup key = some timestamp) :
    c.getCachedMetadata now key =
      if ageSeconds now timestamp > c.maxCacheAge then
        (none, { c with
          metadataCache := mapErase c.metadataCache key
          cacheTimestamps := mapErase c.cacheTimestamps key })
      else (some record, c) := by
  simp [FileCache.getCachedMetadata, h, ht]

/-- A call of `getCachedMetadata` for another key leaves the entries of `k` as they are. -/
theorem getCachedMetadata_other {ρ : Type} (c : FileCache ρ) (now : Int) (key k : String)
    (hne : k ≠ key) :
    (c.getCachedMetadata now key).2.metadataCache.lookup k = c.metadataCache.lookup k ∧
    (c.getCachedMetadata now key).2.cacheTimestamps.lookup k = c.cacheTimestamps.lookup k ∧
    (∀ p ∈ (c.getCachedMetadata now key).2.cacheTimestamps, p.1 = k → p ∈ c.cacheTimestamps) ∧
    (c.getCachedMetadata now key).2.maxCacheAge = c.maxCacheAge := by
  have hb : (k == key) = false := by simpa using hne
  cases h : c.metadataCache.lookup key with
  | none =>
    rw [getCachedMetadata_miss c now key h]
    exact ⟨rfl, rfl, fun p hp _ => hp, rfl⟩
  | some record =>
    cases ht : c.cacheTimestamps.lookup key with
    | some timestamp =>
      rw [getCachedMetadata_hit c now timestamp key record h ht]
      split_ifs
      · refine ⟨lookup_mapErase_ne _ _ _ hne, lookup_mapErase_ne _ _ _ hne, ?_, rfl⟩
        intro p hp _
        exact ((mem_mapErase _ _ _).1 hp).1
      · exact ⟨rfl, rfl, fun p hp _ => hp, rfl⟩
    | none =>
      simp only [FileCache.getCachedMetadata, h, ht]
      split_ifs
      · refine ⟨lookup_mapErase_ne _ _ _ hne, ?_, ?_, rfl⟩
        · simp only []
          rw [lookup_mapErase_ne _ _ _ hne, List.lookup_cons, hb]
        · intro p hp hpk
          have := ((mem_mapErase _ _ _).1 hp).1
          rcases List.mem_cons.1 this with h1 | h1
          · rw [h1] at hpk
            exact absurd hpk.symm hne
          · exact h1
      · refine ⟨rfl, ?_, ?_, rfl⟩
        · simp only []
          rw [List.lookup_cons, hb]
        · intro p hp hpk
          rcases List.mem_cons.1 hp with h1 | h1
          · rw [h1] at hpk
            exact absurd hpk.symm hne
          · exact h1

/-- While the entry of `k` written at `t` has not expired, a call that does not write `k`
leaves it in both maps, with `t` as its only timestamp. -/
theorem step_keeps_entry {ρ : Type} (c : FileCache ρ) (op : CacheOp ρ) (k : String) (r : ρ)
    (t : Int) (hrec : c.metadataCache.lookup k = some r)
    (hstamp : c.cacheTimestamps.lookup k = some t)
    (honly : ∀ p ∈ c.cacheTimestamps, p.1 = k → p.2 = t)
    (hw : op.writes k = false) (hage : ageSeconds op.time t ≤ c.maxCacheAge) :
    (c.step op).metadataCache.lookup k = some r ∧
    (c.step op).cacheTimestamps.lookup k = some t ∧
    (∀ p ∈ (c.step op).cacheTimestamps, p.1 = k → p.2 = t) ∧
    (c.step op).maxCacheAge = c.maxCacheAge := by
  cases op with
  | put now key metadata =>
    have hne : k ≠ key := by
      intro h
      simp [CacheOp.writes, h] at hw
    simp only [FileCache.step, FileCache.cacheMetadata]
    refine ⟨by rw [lookup_mapAssign_ne _ _ _ _ hne, hrec],
      by rw [lookup_mapAssign_ne _ _ _ _ hne, hstamp], ?_, trivial⟩
    intro p hp hpk
    rcases List.mem_cons.1 hp with h1 | h1
    · rw [h1] at hpk
      exact absurd hpk.symm hne
    · exact honly p ((mem_mapErase _ _ _).1 h1).1 hpk
  | get now key =>
    simp only [FileCache.step]
    by_cases hk : k = key
    · subst hk
      simp only [CacheOp.time] at hage
      rw [getCachedMetadata_hit c now t k r hrec hstamp, if_neg (by omega)]
      exact ⟨hrec, hstamp, honly, rfl⟩
    · obtain ⟨h1, h2, h3, h4⟩ := getCachedMetadata_other c now key k hk
      exact ⟨by rw [h1, hrec], by rw [h2, hstamp], fun p hp hpk => honly p (h3 p hp hpk) hpk, h4⟩
  | cleanup now =>
    simp only [FileCache.step]
    simp only [CacheOp.time] at hage
    obtain ⟨h1, h2, h3⟩ := cleanupMemory_lookup c now k
    have hnot : k ∉ (c.cacheTimestamps.filter
        (fun p => ageSeconds now p.2 > c.maxCacheAge)).map Prod.fst := by
      intro hmem
      obtain ⟨p, hp, hpk⟩ := List.mem_map.1 hmem
      rw [List.mem_filter] at hp
      have := honly p hp.1 hpk
      have hexp := hp.2
      rw [this] at hexp
      simp only [gt_iff_lt, decide_eq_true_eq] at hexp
      omega
    rw [if_neg hnot] at h1 h2
    refine ⟨by rw [h1, hrec], by rw [h2, hstamp], ?_, h3⟩
    intro p hp hpk
    rw [cleanupMemory_eq] at hp
    exact honly p (List.mem_filter.1 hp).1 hpk

theorem run_keeps_entry {ρ : Type} (ops : List (CacheOp ρ)) (k : String) (r : ρ) (t : Int) :
    ∀ (c : FileCache ρ), c.metadataCache.lookup k = some r →
      c.cacheTimestamps.lookup k = some t →
      (∀ p ∈ c.cacheTimestamps, p.1 = k → p.2 = t) →
      (∀ op ∈ ops, op.writes k = false ∧ ageSeconds op.time t ≤ c.maxCacheAge) →
      (c.run ops).metadataCache.lookup k = some r ∧
      (c.run ops).cacheTimestamps.lookup k = some t ∧
      (c.run ops).maxCacheAge = c.maxCacheAge := by
  induction ops with
  | nil => intro c h1 h2 _ _; exact ⟨h1, h2, rfl⟩
  | cons op ops ih =>
    intro c h1 h2 h3 hops
    obtain ⟨hw, hage⟩ := hops op (List.mem_cons_self _ _)
    obtain ⟨s1, s2, s3, s4⟩ := step_keeps_entry c op k r t h1 h2 h3 hw hage
    have := ih (c.step op) s1 s2 s3 (fun o ho => by
      rw [s4]; exact hops o (List.mem_cons_of_mem _ ho))
    simp only [FileCache.run, List.foldl_cons] at this ⊢
    rw [s4] at this
    exact this

/-- C11: after `cacheMetadata(k, r)` at time `t`, whatever the cache held before, a
`getCachedMetadata(k)` at a time `t2` with `t2 - t` at most the TTL returns `r`, whatever
calls other than a write of `k` were made in between (each before `t2`). -/
theorem get_after_put {ρ : Type} (c : FileCache ρ) (ops : List (CacheOp ρ)) (k : String)
    (r : ρ) (t t2 : Int)
    (hfresh : t2 - t ≤ c.maxCacheAge * ticksPerSecond)
    (hops : ∀ op ∈ ops, op.writes k = false ∧ op.time ≤ t2) :
    (((c.cacheMetadata t k r).run ops).getCachedMetadata t2 k).1 = some r := by
  have hput : (c.cacheMetadata t k r).maxCacheAge = c.maxCacheAge := rfl
  obtain ⟨h1, h2, h3⟩ := run_keeps_entry ops k r t (c.cacheMetadata t k r)
    (lookup_mapAssign_self _ _ _) (lookup_mapAssign_self _ _ _)
    (by
      intro p hp hpk
      rcases List.mem_cons.1 hp with h | h
      · rw [h]
      · exact absurd hpk ((mem_mapErase _ _ _).1 h).2)
    (by
      intro op hop
      obtain ⟨hw, htime⟩ := hops op hop
      exact ⟨hw, ageSeconds_le _ _ _ (by rw [hput]; omega)⟩)
  rw [getCachedMetadata_hit _ t2 t k r h1 h2, h3, hput,
    if_neg (not_lt.2 (ageSeconds_le _ _ _ hfresh))]

/-- C11 witness: a record overwritten at time 5 s and read back 60 s later under a TTL of
60 s, another key being written and the cache swept in between. -/
theorem get_after_put_witness :
    ((((⟨100, 60, [("k", 1)], [("k", 0)]⟩ : FileCache Nat).cacheMetadata 5000000000 "k" 2).run
      [CacheOp.put 6000000000 "other" 3, CacheOp.cleanup 7000000000]).getCachedMetadata
        65000000000 "k").1 = some 2 :=
  get_after_put ⟨100, 60, [("k", 1)], [("k", 0)]⟩
    [CacheOp.put 6000000000 "other" 3, CacheOp.cleanup 7000000000] "k" 2 5000000000 65000000000
    (by decide) (by decide)

/-- A call that does not write `k` leaves `k` either absent from both maps, or present with
the record and the timestamp it had. -/
theorem step_entry_or_absent {ρ : Type} (c : FileCache ρ) (op : CacheOp ρ) (k : String)
    (r : ρ) (t : Int) (hw : op.writes k = false)
    (hinv : (c.metadataCache.lookup k = none ∧ c.cacheTimestamps.lookup k = none) ∨
      (c.metadataCache.lookup k = some r ∧ c.cacheTimestamps.lookup k = some t)) :
    (((c.step op).metadataCache.lookup k = none ∧ (c.step op).cacheTimestamps.lookup k = none) ∨
      ((c.step op).metadataCache.lookup k = some r ∧
        (c.step op).cacheTimestamps.lookup k = some t)) ∧
    (c.step op).maxCacheAge = c.maxCacheAge := by
  cases op with
  | put now key metadata =>
    have hne : k ≠ key := by
      intro h
      simp [CacheOp.writes, h] at hw
    simp only [FileCache.step, FileCache.cacheMetadata]
    rw [lookup_mapAssign_ne _ _ _ _ hne, lookup_mapAssign_ne _ _ _ _ hne]
    exact ⟨hinv, trivial⟩
  | get now key =>
    simp only [FileCache.step]
    by_cases hk : k = key
    · subst hk
      rcases hinv with ⟨h1, h2⟩ | ⟨h1, h2⟩
      · rw [getCachedMetadata_miss c now k h1]
        exact ⟨Or.inl ⟨h1, h2⟩, rfl⟩
      · rw [getCachedMetadata_hit c now t k r h1 h2]
        split_ifs
        · exact ⟨Or.inl ⟨lookup_mapErase_self _ _, lookup_mapErase_self _ _⟩, rfl⟩
        · exact ⟨Or.inr ⟨h1, h2⟩, rfl⟩
    · obtain ⟨h1, h2, _, h4⟩ := getCachedMetadata_other c now key k hk
      rw [h1, h2]
      exact ⟨hinv, h4⟩
  | cleanup now =>
    simp only [FileCache.step]
    obtain ⟨h1, h2, h3⟩ := cleanupMemory_lookup c now k
    by_cases hmem : k ∈ (c.cacheTimestamps.filter
        (fun p => ageSeconds now p.2 > c.maxCacheAge)).map Prod.fst
    · rw [if_pos hmem] at h1 h2
      exact ⟨Or.inl ⟨h1, h2⟩, h3⟩
    · rw [if_neg hmem] at h1 h2
      rw [h1, h2]
      exact ⟨hinv, h3⟩

theorem run_entry_or_absent {ρ : Type} (ops : List (CacheOp ρ)) (k : String) (r : ρ) (t : Int)
    (hops : ∀ op ∈ ops, op.writes k = false) :
    ∀ (c : FileCache ρ),
      ((c.metadataCache.lookup k = none ∧ c.cacheTimestamps.lookup k = none) ∨
        (c.metadataCache.lookup k = some r ∧ c.cacheTimestamps.lookup k = some t)) →
      (((c.run ops).metadataCache.lookup k = none ∧ (c.run ops).cacheTimestamps.lookup k = none) ∨
        ((c.run ops).metadataCache.lookup k = some r ∧
          (c.run ops).cacheTimestamps.lookup k = some t)) ∧
      (c.run ops).maxCacheAge = c.maxCacheAge := by
  induction ops with
  | nil => intro c h; exact ⟨h, rfl⟩
  | cons op ops ih =>
    intro c h
    obtain ⟨s1, s2⟩ := step_entry_or_absent c op k r t (hops op (List.mem_cons_self _ _)) h
    obtain ⟨i1, i2⟩ := ih (fun o ho => hops o (List.mem_cons_of_mem _ ho)) (c.step op) s1
    simp only [FileCache.run, List.foldl_cons] at i1 i2 ⊢
    exact ⟨i1, by rw [i2, s2]⟩

theorem step_stays_absent {ρ : Type} (c : FileCache ρ) (op : CacheOp ρ) (k : String)
    (hw : op.writes k = false) (h1 : c.metadataCache.lookup k = none)
    (h2 : c.cacheTimestamps.lookup k = none) :
    (c.step op).metadataCache.lookup k = none ∧ (c.step op).cacheTimestamps.lookup k = none := by
  cases op with
  | put now key metadata =>
    have hne : k ≠ key := by
      intro h
      simp [CacheOp.writes, h] at hw
    simp only [FileCache.step, FileCache.cacheMetadata]
    rw [lookup_mapAssign_ne _ _ _ _ hne, lookup_mapAssign_ne _ _ _ _ hne]
    exact ⟨h1, h2⟩
  | get now key =>
    simp only [FileCache.step]
    by_cases hk : k = key
    · subst hk
      rw [getCachedMetadata_miss c now k h1]
      exact ⟨h1, h2⟩
    · obtain ⟨g1, g2, _, _⟩ := getCachedMetadata_other c now key k hk
      rw [g1, g2]
      exact ⟨h1, h2⟩
  | cleanup now =>
    simp only [FileCache.step]
    obtain ⟨g1, g2, _⟩ := cleanupMemory_lookup c now k
    rw [g1, g2, h1, h2]
    simp

theorem run_stays_absent {ρ : Type} (ops : List (CacheOp ρ)) (k : String)
    (hops : ∀ op ∈ ops, op.writes k = false) :
    ∀ (c : FileCache ρ), c.metadataCache.lookup k = none → c.cacheTimestamps.lookup k = none →
      (c.run ops).metadataCache.lookup k = none ∧
        (c.run ops).cacheTimestamps.lookup k = none := by
  induction ops with
  | nil => intro c h1 h2; exact ⟨h1, h2⟩
  | cons op ops ih =>
    intro c h1 h2
    obtain ⟨s1, s2⟩ := step_stays_absent c op k (hops op (List.mem_cons_self _ _)) h1 h2
    exact ih (fun o ho => hops o (List.mem_cons_of_mem _ ho)) (c.step op) s1 s2

/-! ## Lemmas: the GPS object as a whole -/

theorem parseTimestamp_unset (exifData : List (String × String)) (gps : Json)
    (h : (parseTimestamp exifData gps).get "timestamp" = none) :
    parseTimestamp exifData gps = gps := by
  unfold parseTimestamp at h ⊢
  split
  · rename_i hv hr
    simp only [hv, hr, Json.get_set_self] at h
    exact absurd h (by simp)
  · rfl

theorem Json.set_ne_null (j : Json) (k : String) (v : JValue) : j.set k v ≠ Json.null := by
  cases j <;> simp [Json.set]

theorem Json.get_null (k : String) : Json.null.get k = none := rfl

/-! ## Lemmas: the basic fields of the record -/

theorem findKey_isSome (exifData : List Exifdatum) (tag : String) :
    (findKey exifData tag).isSome = true ↔ ∃ item ∈ exifData, item.key = tag := by
  simp [findKey, List.find?_isSome]

theorem findKey_key (exifData : List Exifdatum) (tag : String) (item : Exifdatum)
    (h : findKey exifData tag = some item) : item ∈ exifData ∧ item.key = tag := by
  unfold findKey at h
  exact ⟨List.mem_of_find?_eq_some h, by simpa using List.find?_some h⟩

/-- C24 counterexample: Exif data that hold the X dimension only give a record without a
width, and data that hold the Y dimension only a record without a height; `none` is the `gps`
member that the GPS step stores for these data. -/
theorem width_unset_without_height :
    (∃ item ∈ [(⟨"Exif.Photo.PixelXDimension", "640", 640⟩ : Exifdatum)],
      item.key = "Exif.Photo.PixelXDimension") ∧
    gpsMember [⟨"Exif.Photo.PixelXDimension", "640", 640⟩] = some none ∧
    (interpretExif [⟨"Exif.Photo.PixelXDimension", "640", 640⟩] none).width = none ∧
    (∃ item ∈ [(⟨"Exif.Photo.PixelYDimension", "480", 480⟩ : Exifdatum)],
      item.key = "Exif.Photo.PixelYDimension") ∧
    gpsMember [⟨"Exif.Photo.PixelYDimension", "480", 480⟩] = some none ∧
    (interpretExif [⟨"Exif.Photo.PixelYDimension", "480", 480⟩] none).height = none := by
  refine ⟨⟨_, List.mem_singleton_self _, rfl⟩, by decide, by decide,
    ⟨_, List.mem_singleton_self _, rfl⟩, by decide, by decide⟩

/-- C24 (amended): width and height are set together, exactly when the Exif data hold both
the X dimension and the Y dimension; the width is then the number of the first X datum and
the height the number of the first Y datum. This holds whatever the GPS step stores. -/
theorem dimensions_set_together (exifData : List Exifdatum) (gps : Option Json) :
    ((interpretExif exifData gps).width.isSome = true ↔
      (∃ item ∈ exifData, item.key = "Exif.Photo.PixelXDimension") ∧
      (∃ item ∈ exifData, item.key = "Exif.Photo.PixelYDimension")) ∧
    ((interpretExif exifData gps).height.isSome = true ↔
      (∃ item ∈ exifData, item.key = "Exif.Photo.PixelXDimension") ∧
      (∃ item ∈ exifData, item.key = "Exif.Photo.PixelYDimension")) ∧
    (∀ x y, findKey exifData "Exif.Photo.PixelXDimension" = some x →
      findKey exifData "Exif.Photo.PixelYDimension" = some y →
      (interpretExif exifData gps).width = some x.uint32 ∧
      (interpretExif exifData gps).height = some y.uint32) := by
  rw [← findKey_isSome, ← findKey_isSome]
  simp only [interpretExif]
  cases hx : findKey exifData "Exif.Photo.PixelXDimension" with
  | none => simp
  | some x =>
    cases hy : findKey exifData "Exif.Photo.PixelYDimension" with
    | none => simp
    | some y => simp

/-- C24 witness: Exif data with both dimensions. -/
theorem dimensions_set_together_witness :
    (interpretExif [⟨"Exif.Photo.PixelXDimension", "640", 640⟩,
      ⟨"Exif.Photo.PixelYDimension", "480", 480⟩] none).width = some 640 ∧
    (interpretExif [⟨"Exif.Photo.PixelXDimension", "640", 640⟩,
      ⟨"Exif.Photo.PixelYDimension", "480", 480⟩] none).height = some 480 :=
  (dimensions_set_together [⟨"Exif.Photo.PixelXDimension", "640", 640⟩,
    ⟨"Exif.Photo.PixelYDimension", "480", 480⟩] none).2.2
    ⟨"Exif.Photo.PixelXDimension", "640", 640⟩
    ⟨"Exif.Photo.PixelYDimension", "480", 480⟩ (by decide) (by decide)

/-! ## Lemmas: the content of a validated file -/

theorem mimeFromExtension_image (extension : String) (h : extension ∈ SUPPORTED_EXTENSIONS) :
    "image/".data.isPrefixOf (mimeFromExtension extension).data = true := by
  simp only [SUPPORTED_EXTENSIONS, List.mem_cons, List.mem_singleton, List.not_mem_nil,
    or_false] at h
  rcases h with h | h | h | h | h | h | h <;> subst h <;> decide

theorem detectSignature_image (header : List Nat) (mime : String)
    (h : detectSignature header = some mime) : "image/".data.isPrefixOf mime.data = true := by
  have hm := detectSignature_values header mime h
  simp only [List.mem_cons, List.mem_singleton, List.not_mem_nil, or_false] at hm
  rcases hm with h | h | h | h | h <;> subst h <;> decide

theorem detectMimeType_image (fs : FileSystem) (filePath : String) (st : FileState)
    (bytes : List Nat) (hfile : fs filePath = some st) (hbytes : st.content = some bytes)
    (hext : lowerExtension filePath ∈ SUPPORTED_EXTENSIONS) :
    "image/".data.isPrefixOf (detectMimeType fs filePath).data = true := by
  simp only [detectMimeType, hfile, Option.some_bind, hbytes]
  cases hsig : detectSignature (bytes.take 12) with
  | none => exact mimeFromExtension_image _ hext
  | some mime => exact detectSignature_image _ _ hsig

theorem validateImage_readable (fs : FileSystem) (imagePath : String) (s : Nat)
    (bytes : List Nat) (hfile : fs imagePath = some ⟨some s, some bytes⟩) :
    validateImage fs imagePath =
      some (decide (0 < s ∧ s ≤ 52428800 ∧ lowerExtension imagePath ∈ SUPPORTED_EXTENSIONS)) := by
  simp only [validateImage, hfile]
  by_cases hsz : s = 0 ∨ s > 1024 * 1024 * 50
  · rw [if_pos hsz]
    have : ¬ (0 < s ∧ s ≤ 52428800 ∧ lowerExtension imagePath ∈ SUPPORTED_EXTENSIONS) := by
      intro h; omega
    simp [this]
  · rw [if_neg hsz]
    by_cases hext : lowerExtension imagePath ∈ SUPPORTED_EXTENSIONS
    · have hmime := detectMimeType_image fs imagePath _ bytes hfile rfl hext
      have : 0 < s ∧ s ≤ 52428800 ∧ lowerExtension imagePath ∈ SUPPORTED_EXTENSIONS :=
        ⟨by omega, by omega, hext⟩
      simp [hext, hmime, this]
    · simp [hext]

/-- C27: two readable files with the same size and the same lower-cased extension get the
same verdict from `validateImage`, whatever their bytes; so a readable file of size `s` with
`0 < s ≤ 52428800` and an extension on the allow-list is accepted whatever it holds. -/
theorem content_never_rejects (fs fs2 : FileSystem) (imagePath imagePath2 : String) (s : Nat)
    (bytes bytes2 : List Nat) (hfile : fs imagePath = some ⟨some s, some bytes⟩)
    (hfile2 : fs2 imagePath2 = some ⟨some s, some bytes2⟩)
    (hext : lowerExtension imagePath = lowerExtension imagePath2) :
    validateImage fs imagePath = validateImage fs2 imagePath2 ∧
    (0 < s → s ≤ 52428800 → lowerExtension imagePath ∈ SUPPORTED_EXTENSIONS →
      validateImage fs imagePath = some true) := by
  rw [validateImage_readable fs imagePath s bytes hfile,
    validateImage_readable fs2 imagePath2 s bytes2 hfile2, hext]
  refine ⟨rfl, fun h1 h2 h3 => ?_⟩
  simp [h1, h2, h3]

/-- C27 witness: a JPEG and a file of four zero bytes, both named with the extension `.jpg`. -/
theorem content_never_rejects_witness :
    validateImage (fun _ => some ⟨some 4, some [0xFF, 0xD8, 0xFF, 0xE0]⟩) "a.jpg" =
      validateImage (fun _ => some ⟨some 4, some [0, 0, 0, 0]⟩) "b.JPG" ∧
    (detectSignature [0, 0, 0, 0] = none ∧
      validateImage (fun _ => some ⟨some 4, some [0, 0, 0, 0]⟩) "b.JPG" = some true) :=
  ⟨(content_never_rejects (fun _ => some ⟨some 4, some [0xFF, 0xD8, 0xFF, 0xE0]⟩)
      (fun _ => some ⟨some 4, some [0, 0, 0, 0]⟩) "a.jpg" "b.JPG" 4 [0xFF, 0xD8, 0xFF, 0xE0]
      [0, 0, 0, 0] rfl rfl (by decide)).1,
    by decide,
    (content_never_rejects (fun _ => some ⟨some 4, some [0, 0, 0, 0]⟩)
      (fun _ => some ⟨some 4, some [0, 0, 0, 0]⟩) "b.JPG" "b.JPG" 4 [0, 0, 0, 0]
      [0, 0, 0, 0] rfl rfl rfl).2 (by decide) (by decide) (by decide)⟩

/-! ## Lemmas: the sweep of the memory cache and the key sets of the two maps -/

theorem lookup_eq_some_of_mem {V : Type} (m : List (String × V)) (k : String) (v : V)
    (hnodup : (m.map Prod.fst).Nodup) (hmem : (k, v) ∈ m) : m.lookup k = some v := by
  induction m with
  | nil => simp at hmem
  | cons p ps ih =>
    obtain ⟨a, b⟩ := p
    simp only [List.map_cons, List.nodup_cons, List.mem_map, not_exists, not_and] at hnodup
    rcases List.mem_cons.1 hmem with h | h
    · simp only [Prod.mk.injEq] at h
      obtain ⟨h1, h2⟩ := h
      subst h1 h2
      simp [List.lookup_cons]
    · have hne : k ≠ a := by
        intro hka
        exact hnodup.1 (k, v) h hka
      have hb : (k == a) = false := by simpa using hne
      simp only [List.lookup_cons, hb]
      exact ih hnodup.2 h

theorem mem_of_lookup_eq_some {V : Type} (m : List (String × V)) (k : String) (v : V)
    (h : m.lookup k = some v) : (k, v) ∈ m := by
  induction m with
  | nil => simp at h
  | cons p ps ih =>
    obtain ⟨a, b⟩ := p
    by_cases hka : k = a
    · subst hka
      simp only [List.lookup_cons, beq_self_eq_true, Option.some.injEq] at h
      subst h
      exact List.mem_cons_self _ _
    · have hb : (k == a) = false := by simpa using hka
      simp only [List.lookup_cons, hb] at h
      exact List.mem_cons_of_mem _ (ih h)

/-- With each key once in `cacheTimestamps`, the keys collected by `cleanupCache` are the keys
whose timestamp is older than the age limit in whole seconds. -/
theorem mem_keysToRemove {ρ : Type} (c : FileCache ρ) (now : Int) (k : String)
    (hnodup : (c.cacheTimestamps.map Prod.fst).Nodup) :
    k ∈ (c.cacheTimestamps.filter (fun p => ageSeconds now p.2 > c.maxCacheAge)).map Prod.fst ↔
      ∃ t, c.cacheTimestamps.lookup k = some t ∧ ageSeconds now t > c.maxCacheAge := by
  constructor
  · intro h
    obtain ⟨p, hp, hk⟩ := List.mem_map.1 h
    obtain ⟨a, t⟩ := p
    simp only at hk
    subst hk
    obtain ⟨hmem, hage⟩ := List.mem_filter.1 hp
    exact ⟨t, lookup_eq_some_of_mem _ _ _ hnodup hmem, by simpa using hage⟩
  · rintro ⟨t, ht, hage⟩
    exact List.mem_map.2 ⟨(k, t), List.mem_filter.2 ⟨mem_of_lookup_eq_some _ _ _ ht,
      by simpa using hage⟩, rfl⟩

/-- One call keeps the key sets of the two maps equal. -/
theorem step_same_keys {ρ : Type} (c : FileCache ρ) (op : CacheOp ρ)
    (hinv : ∀ k, (c.metadataCache.lookup k).isSome = (c.cacheTimestamps.lookup k).isSome)
    (k : String) :
    ((c.step op).metadataCache.lookup k).isSome = ((c.step op).cacheTimestamps.lookup k).isSome := by
  cases op with
  | put now key metadata =>
    simp only [FileCache.step, FileCache.cacheMetadata]
    by_cases hk : k = key
    · subst hk
      rw [lookup_mapAssign_self, lookup_mapAssign_self]
      rfl
    · rw [lookup_mapAssign_ne _ _ _ _ hk, lookup_mapAssign_ne _ _ _ _ hk]
      exact hinv k
  | get now key =>
    simp only [FileCache.step]
    cases hrec : c.metadataCache.lookup key with
    | none =>
      rw [getCachedMetadata_miss c now key hrec]
      exact hinv k
    | some record =>
      have hs := hinv key
      rw [hrec] at hs
      cases ht : c.cacheTimestamps.lookup key with
      | none => rw [ht] at hs; simp at hs
      | some timestamp =>
        rw [getCachedMetadata_hit c now timestamp key record hrec ht]
        split_ifs
        · simp only []
          by_cases hk : k = key
          · subst hk
            rw [lookup_mapErase_self, lookup_mapErase_self]
            rfl
          · rw [lookup_mapErase_ne _ _ _ hk, lookup_mapErase_ne _ _ _ hk]
            exact hinv k
        · exact hinv k
  | cleanup now =>
    simp only [FileCache.step]
    obtain ⟨h1, h2, _⟩ := cleanupMemory_lookup c now k
    rw [h1, h2]
    split_ifs
    · rfl
    · exact hinv k

theorem run_same_keys {ρ : Type} (ops : List (CacheOp ρ)) :
    ∀ (c : FileCache ρ),
      (∀ k, (c.metadataCache.lookup k).isSome = (c.cacheTimestamps.lookup k).isSome) →
      ∀ k, ((c.run ops).metadataCache.lookup k).isSome =
        ((c.run ops).cacheTimestamps.lookup k).isSome := by
  induction ops with
  | nil => intro c h; exact h
  | cons op ops ih =>
    intro c h
    exact ih (c.step op) (step_same_keys c op h)

/-- C29: after any sequence of `cacheMetadata`, `getCachedMetadata` and `cleanupCache` calls
on the empty cache, a key has a record exactly when it has a timestamp; so a record found by
`getCachedMetadata` has its insertion time, and the age is computed from it. -/
theorem maps_same_keys {ρ : Type} (maxCacheSize : Nat) (maxCacheAge : Int)
    (ops : List (CacheOp ρ)) :
    (∀ k, (((⟨maxCacheSize, maxCacheAge, [], []⟩ : FileCache ρ).run ops).metadataCache.lookup
        k).isSome =
      (((⟨maxCacheSize, maxCacheAge, [], []⟩ : FileCache ρ).run ops).cacheTimestamps.lookup
        k).isSome) ∧
    (∀ now key record,
      ((⟨maxCacheSize, maxCacheAge, [], []⟩ : FileCache ρ).run ops).metadataCache.lookup key =
        some record →
      ∃ timestamp,
        ((⟨maxCacheSize, maxCacheAge, [], []⟩ : FileCache ρ).run ops).cacheTimestamps.lookup
          key = some timestamp ∧
        (((⟨maxCacheSize, maxCacheAge, [], []⟩ : FileCache ρ).run ops).getCachedMetadata now
          key).1 = if ageSeconds now timestamp >
              ((⟨maxCacheSize, maxCacheAge, [], []⟩ : FileCache ρ).run ops).maxCacheAge
            then none else some record) := by
  have hinv := run_same_keys ops (⟨maxCacheSize, maxCacheAge, [], []⟩ : FileCache ρ)
    (fun k => rfl)
  refine ⟨hinv, ?_⟩
  intro now key record hrec
  have hs := hinv key
  rw [hrec] at hs
  cases ht : ((⟨maxCacheSize, maxCacheAge, [], []⟩ : FileCache ρ).run ops).cacheTimestamps.lookup
      key with
  | none => rw [ht] at hs; simp at hs
  | some timestamp =>
    refine ⟨timestamp, rfl, ?_⟩
    rw [getCachedMetadata_hit _ now timestamp key record hrec ht]
    split_ifs <;> rfl

/-- C29 witness: a put, a sweep after the TTL and a second put; the key written last has a
record and the timestamp of its put. -/
theorem maps_same_keys_witness :
    ∃ timestamp,
      ((⟨0, 10, [], []⟩ : FileCache Nat).run [CacheOp.put 0 "a" 1, CacheOp.cleanup 30000000000,
        CacheOp.put 31000000000 "b" 2]).cacheTimestamps.lookup "b" = some timestamp ∧
      (((⟨0, 10, [], []⟩ : FileCache Nat).run [CacheOp.put 0 "a" 1, CacheOp.cleanup 30000000000,
        CacheOp.put 31000000000 "b" 2]).getCachedMetadata 32000000000 "b").1 =
        if ageSeconds 32000000000 timestamp >
            ((⟨0, 10, [], []⟩ : FileCache Nat).run [CacheOp.put 0 "a" 1,
              CacheOp.cleanup 30000000000, CacheOp.put 31000000000 "b" 2]).maxCacheAge
          then none else some 2 :=
  (maps_same_keys 0 10 [CacheOp.put 0 "a" 1, CacheOp.cleanup 30000000000,
    CacheOp.put 31000000000 "b" 2]).2 32000000000 "b" 2 (by decide)

/-! ## Lemmas: the layout of an identifier -/

theorem hexInt_digit (n : Nat) (h : n ≤ 15) : hexInt n = [Nat.digitChar n] := by
  interval_cases n <;> rfl

theorem digitChar_lower_hex (n : Nat) (h : n ≤ 15) :
    Nat.digitChar n ∈ "0123456789abcdef".data := by
  interval_cases n <;> decide

theorem generateUuid_data (dis : Nat → Nat) (dis2 : Nat) (hdis : ∀ i, dis i ≤ 15)
    (hdis2 : dis2 ≤ 15) :
    (generateUuid dis dis2).data =
      [Nat.digitChar (dis 0), Nat.digitChar (dis 1), Nat.digitChar (dis 2),
        Nat.digitChar (dis 3), Nat.digitChar (dis 4), Nat.digitChar (dis 5),
        Nat.digitChar (dis 6), Nat.digitChar (dis 7), '-',
        Nat.digitChar (dis 8), Nat.digitChar (dis 9), Nat.digitChar (dis 10),
        Nat.digitChar (dis 11), '-', '4',
        Nat.digitChar (dis 12), Nat.digitChar (dis 13), Nat.digitChar (dis 14), '-',
        Nat.digitChar dis2, Nat.digitChar (dis 15), Nat.digitChar (dis 16),
        Nat.digitChar (dis 17), '-',
        Nat.digitChar (dis 18), Nat.digitChar (dis 19), Nat.digitChar (dis 20),
        Nat.digitChar (dis 21), Nat.digitChar (dis 22), Nat.digitChar (dis 23),
        Nat.digitChar (dis 24), Nat.digitChar (dis 25), Nat.digitChar (dis 26),
        Nat.digitChar (dis 27), Nat.digitChar (dis 28), Nat.digitChar (dis 29)] := by
  simp only [generateUuid, hexDraws, hexInt_digit _ (hdis _), hexInt_digit _ hdis2]
  rfl

/-- C26: whatever the draws, `dis` in 0..15 and `dis2` in 8..11, `generateUuid` returns 36
characters: a hyphen at the indices 8, 13, 18 and 23, the character 4 at index 14, one of
8, 9, a, b at index 19 and a lower-case hexadecimal digit at every other index. -/
theorem generateUuid_layout (dis : Nat → Nat) (dis2 : Nat) (hdis : ∀ i, dis i ≤ 15)
    (hlow : 8 ≤ dis2) (hhigh : dis2 ≤ 11) :
    (generateUuid dis dis2).length = 36 ∧
    (∀ i ∈ [8, 13, 18, 23], (generateUuid dis dis2).data.get? i = some '-') ∧
    (generateUuid dis dis2).data.get? 14 = some '4' ∧
    (∃ c ∈ ['8', '9', 'a', 'b'], (generateUuid dis dis2).data.get? 19 = some c) ∧
    (∀ i, i < 36 → i ∉ [8, 13, 14, 18, 19, 23] →
      ∃ c ∈ "0123456789abcdef".data, (generateUuid dis dis2).data.get? i = some c) := by
  have hdata := generateUuid_data dis dis2 hdis (by omega)
  refine ⟨?_, ?_, ?_, ?_, ?_⟩
  · rw [String.length, hdata]
    rfl
  · intro i hi
    rw [hdata]
    simp only [List.mem_cons, List.mem_singleton, List.not_mem_nil, or_false] at hi
    rcases hi with h | h | h | h <;> subst h <;> rfl
  · rw [hdata]
    rfl
  · rw [hdata]
    refine ⟨Nat.digitChar dis2, ?_, rfl⟩
    interval_cases dis2 <;> decide
  · intro i hi hnot
    rw [hdata]
    simp only [List.mem_cons, List.mem_singleton, List.not_mem_nil, or_false, not_or] at hnot
    obtain ⟨n8, n13, n14, n18, n19, n23⟩ := hnot
    interval_cases i
    all_goals first
      | exact absurd rfl n8
      | exact absurd rfl n13
      | exact absurd rfl n14
      | exact absurd rfl n18
      | exact absurd rfl n19
      | exact absurd rfl n23
      | exact ⟨_, digitChar_lower_hex _ (hdis _), rfl⟩

/-- C26 witness: the draws `dis i = i % 16` and `dis2 = 10`. -/
theorem generateUuid_layout_witness :
    generateUuid (fun i => i % 16) 10 = "01234567-89ab-4cde-af01-23456789abcd" ∧
    (generateUuid (fun i => i % 16) 10).length = 36 :=
  ⟨by decide, (generateUuid_layout (fun i => i % 16) 10 (fun i => by
    show i % 16 ≤ 15
    omega) (by decide) (by decide)).1⟩

/-! ## Lemmas: rounding to binary64 -/

theorem roundHalfEven_error (q : ℚ) : |(roundHalfEven q : ℚ) - q| ≤ 1 / 2 := by
  have h0 := Int.fract_nonneg q
  have h1 := Int.fract_lt_one q
  have hf : q - (⌊q⌋ : ℚ) = Int.fract q := Int.self_sub_floor q
  unfold roundHalfEven
  simp only []
  rw [abs_le]
  split_ifs with c1 c2 c3
  · constructor <;> linarith
  · push_cast
    constructor <;> linarith
  · constructor <;> linarith
  · push_cast
    constructor <;> linarith

theorem roundHalfEven_intCast (n : ℤ) : roundHalfEven (n : ℚ) = n := by
  unfold roundHalfEven
  simp

theorem roundHalfEven_nonneg (q : ℚ) (h : 0 ≤ q) : 0 ≤ roundHalfEven q := by
  have hf : 0 ≤ ⌊q⌋ := Int.floor_nonneg.2 h
  unfold roundHalfEven
  simp only []
  split_ifs <;> omega

theorem roundMagnitude_zero : roundMagnitude 0 = some 0 := by
  unfold roundMagnitude
  simp [roundHalfEven]

/-- A magnitude that is a whole multiple of its unit in the last place is not changed. -/
theorem roundMagnitude_exact (a : ℚ) (m : ℤ)
    (hm : a = (m : ℚ) * 2 ^ (max (Int.log 2 a) (-1022) - 52)) (hlt : a < 2 ^ 1024) :
    roundMagnitude a = some a := by
  have hpos : (0 : ℚ) < 2 ^ (max (Int.log 2 a) (-1022) - 52) := zpow_pos (by norm_num) _
  have hdiv : a / 2 ^ (max (Int.log 2 a) (-1022) - 52) = (m : ℚ) := by
    rw [div_eq_iff (ne_of_gt hpos)]
    exact hm
  unfold roundMagnitude
  simp only []
  rw [hdiv, roundHalfEven_intCast, ← hm, if_pos hlt]

theorem roundMagnitude_natCast (n : ℕ) (h : n < 2 ^ 53) : roundMagnitude (n : ℚ) = some (n : ℚ) := by
  by_cases hn : n = 0
  · subst hn
    simpa using roundMagnitude_zero
  have hlog : Nat.log 2 n < 53 := Nat.log_lt_of_lt_pow hn h
  have hmax : max (Int.log 2 (n : ℚ)) (-1022) = (Nat.log 2 n : ℤ) := by
    rw [Int.log_natCast]
    exact max_eq_left (by omega)
  refine roundMagnitude_exact (n : ℚ) ((n : ℤ) * 2 ^ (52 - Nat.log 2 n)) ?_ ?_
  · rw [hmax]
    have he : ((Nat.log 2 n : ℤ) - 52) = -((52 - Nat.log 2 n : ℕ) : ℤ) := by omega
    rw [he, zpow_neg, zpow_natCast]
    push_cast
    field_simp
  · have : (n : ℚ) < 2 ^ 53 := by exact_mod_cast h
    have h2 : (2 : ℚ) ^ 53 ≤ 2 ^ 1024 := pow_le_pow_right₀ (by norm_num) (by norm_num)
    linarith

/-- The rounding of a magnitude in the normal range: no overflow, and a relative error of at
most `2 ^ (-53)`. -/
theorem roundMagnitude_normal (a : ℚ) (hlo : (2 : ℚ) ^ (-1022 : ℤ) ≤ a) (hhi : a ≤ 2 ^ 1023) :
    ∃ v, roundMagnitude a = some v ∧ a * (1 - 1 / 2 ^ 53) ≤ v ∧ v * (1 - 1 / 2 ^ 53) ≤ a := by
  have hpos : 0 < a := lt_of_lt_of_le (zpow_pos (by norm_num) _) hlo
  have hlog : (-1022 : ℤ) ≤ Int.log 2 a := by
    have := (Int.zpow_le_iff_le_log (R := ℚ) (b := 2) (by norm_num) (x := -1022) hpos).1
      (by simpa using hlo)
    exact this
  have hmax : max (Int.log 2 a) (-1022) = Int.log 2 a := max_eq_left hlog
  have hle : (2 : ℚ) ^ (Int.log 2 a) ≤ a := by
    simpa using Int.zpow_log_le_self (R := ℚ) (b := 2) (by norm_num) hpos
  have hulp : (0 : ℚ) < 2 ^ (Int.log 2 a - 52) := zpow_pos (by norm_num) _
  have hsplit : (2 : ℚ) ^ (Int.log 2 a - 52) = 2 ^ (Int.log 2 a) / 2 ^ 52 := by
    rw [zpow_sub₀ (by norm_num)]
    norm_num
  have herr := roundHalfEven_error (a / 2 ^ (Int.log 2 a - 52))
  rw [abs_le] at herr
  obtain ⟨e1, e2⟩ := herr
  have hx : a / 2 ^ (Int.log 2 a - 52) * 2 ^ (Int.log 2 a - 52) = a :=
    div_mul_cancel₀ a (ne_of_gt hulp)
  have e1' := mul_le_mul_of_nonneg_right e1 (le_of_lt hulp)
  have e2' := mul_le_mul_of_nonneg_right e2 (le_of_lt hulp)
  rw [sub_mul, hx] at e1' e2'
  have hu : (2 : ℚ) ^ (Int.log 2 a - 52) ≤ a / 2 ^ 52 := by
    rw [hsplit]
    exact div_le_div_of_nonneg_right hle (by positivity)
  have hlow : a * (1 - 1 / 2 ^ 53) ≤
      (roundHalfEven (a / 2 ^ (Int.log 2 a - 52)) : ℚ) * 2 ^ (Int.log 2 a - 52) := by
    have : a / 2 ^ 52 / 2 = a * (1 / 2 ^ 53) := by ring
    nlinarith
  have hupp : (roundHalfEven (a / 2 ^ (Int.log 2 a - 52)) : ℚ) * 2 ^ (Int.log 2 a - 52) ≤
      a * (1 + 1 / 2 ^ 53) := by
    have : a / 2 ^ 52 / 2 = a * (1 / 2 ^ 53) := by ring
    nlinarith
  refine ⟨(roundHalfEven (a / 2 ^ (Int.log 2 a - 52)) : ℚ) * 2 ^ (Int.log 2 a - 52), ?_, hlow, ?_⟩
  · unfold roundMagnitude
    simp only []
    rw [hmax, if_pos]
    have h1 : a * (1 + 1 / 2 ^ 53) ≤ 2 ^ 1023 * (1 + 1 / 2 ^ 53) :=
      mul_le_mul_of_nonneg_right hhi (by positivity)
    have h2 : (2 : ℚ) ^ 1023 * (1 + 1 / 2 ^ 53) < 2 ^ 1024 := by norm_num
    linarith
  · have h1 : (roundHalfEven (a / 2 ^ (Int.log 2 a - 52)) : ℚ) * 2 ^ (Int.log 2 a - 52) *
        (1 - 1 / 2 ^ 53) ≤ a * (1 + 1 / 2 ^ 53) * (1 - 1 / 2 ^ 53) :=
      mul_le_mul_of_nonneg_right hupp (by norm_num)
    have h2 : a * (1 + 1 / 2 ^ 53) * (1 - 1 / 2 ^ 53) ≤ a := by
      have : a * (1 + 1 / 2 ^ 53) * (1 - 1 / 2 ^ 53) = a - a * (1 / 2 ^ 53) ^ 2 := by ring
      rw [this]
      have : 0 ≤ a * (1 / 2 ^ 53) ^ 2 := by positivity
      linarith
    linarith

/-! ## Lemmas: the error of the floating-point operations -/

theorem roundingFactor_pos : (0 : ℚ) < 1 - 1 / 2 ^ 53 := by norm_num

theorem roundingFactor_le_one : (1 - 1 / 2 ^ 53 : ℚ) ≤ 1 := by norm_num

theorem roundingFactor_pow_pos (k : ℕ) : (0 : ℚ) < (1 - 1 / 2 ^ 53) ^ k :=
  pow_pos roundingFactor_pos k

theorem roundingFactor_pow_le_one (k : ℕ) : ((1 - 1 / 2 ^ 53 : ℚ)) ^ k ≤ 1 :=
  pow_le_one₀ (le_of_lt roundingFactor_pos) roundingFactor_le_one

theorem roundingFactor_pow_anti (j k : ℕ) (h : j ≤ k) :
    ((1 - 1 / 2 ^ 53 : ℚ)) ^ k ≤ (1 - 1 / 2 ^ 53) ^ j :=
  pow_le_pow_of_le_one (le_of_lt roundingFactor_pos) roundingFactor_le_one h

theorem roundingFactor_pow_ge_half (k : ℕ) (h : k ≤ 8) :
    (1 / 2 : ℚ) ≤ (1 - 1 / 2 ^ 53) ^ k := by
  have h8 : (1 / 2 : ℚ) ≤ (1 - 1 / 2 ^ 53) ^ 8 := by norm_num
  exact le_trans h8 (roundingFactor_pow_anti k 8 h)

theorem Approximates.nonneg {k : ℕ} {d : Dbl} {x : ℚ} (h : Approximates k d x) : 0 ≤ x := by
  obtain ⟨v, _, hv, _, h2⟩ := h
  exact le_trans (mul_nonneg hv (le_of_lt (roundingFactor_pow_pos k))) h2

theorem Approximates.mono {j k : ℕ} {d : Dbl} {x : ℚ} (h : Approximates j d x) (hjk : j ≤ k) :
    Approximates k d x := by
  have hx := h.nonneg
  obtain ⟨v, hd, hv, h1, h2⟩ := h
  have hr := roundingFactor_pow_anti j k hjk
  refine ⟨v, hd, hv, ?_, ?_⟩
  · exact le_trans (mul_le_mul_of_nonneg_left hr hx) h1
  · exact le_trans (mul_le_mul_of_nonneg_left hr hv) h2

theorem Approximates.exact (x : ℚ) (hx : 0 ≤ x) : Approximates 0 (Dbl.fin false x) x :=
  ⟨x, rfl, hx, by simp, by simp⟩

/-- One more rounding: the exact value being in the normal range, the rounding of a magnitude
that agrees with it up to `k` roundings agrees with it up to `k + 1` roundings. -/
theorem Approximates.round {k : ℕ} {a x : ℚ} (hk : k ≤ 8) (hx : InNormalRange x) (ha : 0 ≤ a)
    (h1 : x * (1 - 1 / 2 ^ 53) ^ k ≤ a) (h2 : a * (1 - 1 / 2 ^ 53) ^ k ≤ x) :
    Approximates (k + 1) (Dbl.round false a) x := by
  have hr := roundingFactor_pow_pos k
  have hhalf := roundingFactor_pow_ge_half k hk
  rcases hx with hx | ⟨hlo, hhi⟩
  · subst hx
    have ha0 : a = 0 := by
      have : a * (1 - 1 / 2 ^ 53) ^ k ≤ 0 := h2
      have h3 : a ≤ 0 := by
        by_contra hc
        push_neg at hc
        have := mul_pos hc hr
        linarith
      exact le_antisymm h3 ha
    subst ha0
    refine ⟨0, ?_, le_refl _, by simp, by simp⟩
    unfold Dbl.round
    rw [roundMagnitude_zero]
  · have hpos305 : (0 : ℚ) < 1 / 10 ^ 305 := by positivity
    have hxpos : 0 < x := lt_of_lt_of_le hpos305 hlo
    have halo : (2 : ℚ) ^ (-1022 : ℤ) ≤ a := by
      have h3 : x * (1 / 2) ≤ a := le_trans (mul_le_mul_of_nonneg_left hhalf (le_of_lt hxpos)) h1
      have h4 : (2 : ℚ) ^ (-1022 : ℤ) ≤ 1 / 10 ^ 305 * (1 / 2) := by
        rw [zpow_neg]
        norm_num
      have h5 : (1 / 10 ^ 305 : ℚ) * (1 / 2) ≤ x * (1 / 2) :=
        mul_le_mul_of_nonneg_right hlo (by norm_num)
      exact le_trans h4 (le_trans h5 h3)
    have hahi : a ≤ 2 ^ 1023 := by
      have h3 : a * (1 / 2) ≤ x := le_trans (mul_le_mul_of_nonneg_left hhalf ha) h2
      have h4 : (10 : ℚ) ^ 305 * 2 ≤ 2 ^ 1023 := by norm_num
      have h5 : a ≤ x * 2 := by linarith
      exact le_trans h5 (le_trans (mul_le_mul_of_nonneg_right hhi (by norm_num)) h4)
    obtain ⟨v, hv, e1, e2⟩ := roundMagnitude_normal a halo hahi
    have hvnn : 0 ≤ v := le_trans (mul_nonneg ha (le_of_lt roundingFactor_pos)) e1
    have hround : Dbl.round false a = Dbl.fin false v := by
      unfold Dbl.round
      rw [hv]
    refine ⟨v, hround, hvnn, ?_, ?_⟩
    · rw [pow_succ, ← mul_assoc]
      exact le_trans (mul_le_mul_of_nonneg_right h1 (le_of_lt roundingFactor_pos)) e1
    · rw [pow_succ, ← mul_assoc, mul_right_comm]
      exact le_trans (mul_le_mul_of_nonneg_right e2 (le_of_lt hr)) h2

theorem Approximates.div {j k : ℕ} {d e : Dbl} {x y : ℚ} (hd : Approximates j d x)
    (he : Approximates k e y) (hy : y ≠ 0) (hjk : j + k ≤ 8) (hq : InNormalRange (x / y)) :
    Approximates (j + k + 1) (Dbl.div d e) (x / y) := by
  have hx0 := hd.nonneg
  have hy0 := he.nonneg
  have hypos : 0 < y := lt_of_le_of_ne hy0 (Ne.symm hy)
  obtain ⟨a, rfl, ha, a1, a2⟩ := hd
  obtain ⟨b, rfl, hb, b1, b2⟩ := he
  have hrj := roundingFactor_pow_pos j
  have hrk := roundingFactor_pow_pos k
  have hbpos : 0 < b := lt_of_lt_of_le (mul_pos hypos hrk) b1
  have hdiv : Dbl.div (Dbl.fin false a) (Dbl.fin false b) = Dbl.round false (a / b) := by
    simp [Dbl.div, ne_of_gt hbpos]
  rw [hdiv]
  refine Approximates.round hjk hq (div_nonneg ha hb) ?_ ?_
  · rw [pow_add, div_mul_eq_mul_div, div_le_div_iff₀ hypos hbpos]
    have := mul_le_mul a1 b2 (mul_nonneg hb (le_of_lt hrk)) ha
    nlinarith
  · rw [pow_add, div_mul_eq_mul_div, div_le_div_iff₀ hbpos hypos]
    have := mul_le_mul a2 b1 (mul_nonneg hy0 (le_of_lt hrk)) hx0
    nlinarith

theorem Approximates.add {j k : ℕ} {d e : Dbl} {x y : ℚ} (hd : Approximates j d x)
    (he : Approximates k e y) (hjk : max j k ≤ 8) (hs : InNormalRange (x + y)) :
    Approximates (max j k + 1) (Dbl.add d e) (x + y) := by
  obtain ⟨a, rfl, ha, a1, a2⟩ := hd.mono (le_max_left j k)
  obtain ⟨b, rfl, hb, b1, b2⟩ := he.mono (le_max_right j k)
  have hadd : Dbl.add (Dbl.fin false a) (Dbl.fin false b) = Dbl.round false (a + b) := by
    simp [Dbl.add]
  rw [hadd]
  refine Approximates.round hjk hs (add_nonneg ha hb) ?_ ?_
  · rw [add_mul]
    exact add_le_add a1 b1
  · rw [add_mul]
    exact add_le_add a2 b2

/-- Agreement up to six roundings is a relative error of at most `2 ^ (-50)`. -/
theorem Approximates.bound {k : ℕ} {d : Dbl} {x : ℚ} (h : Approximates k d x) (hk : k ≤ 6) :
    ∃ v, d = Dbl.fin false v ∧ |v - x| ≤ x / 2 ^ 50 := by
  have hx := h.nonneg
  obtain ⟨v, hd, hv, h1, h2⟩ := h.mono hk
  refine ⟨v, hd, ?_⟩
  have c1 : (1 - 1 / 2 ^ 50 : ℚ) ≤ (1 - 1 / 2 ^ 53) ^ 6 := by norm_num
  have c2 : (1 : ℚ) ≤ (1 + 1 / 2 ^ 50) * (1 - 1 / 2 ^ 53) ^ 6 := by norm_num
  rw [abs_le]
  constructor
  · have := mul_le_mul_of_nonneg_left c1 hx
    have e : x / 2 ^ 50 = x * (1 / 2 ^ 50) := by ring
    rw [e]
    linarith
  · have h3 : v * 1 ≤ v * ((1 + 1 / 2 ^ 50) * (1 - 1 / 2 ^ 53) ^ 6) :=
      mul_le_mul_of_nonneg_left c2 hv
    have h4 : v * ((1 + 1 / 2 ^ 50) * (1 - 1 / 2 ^ 53) ^ 6) ≤ x * (1 + 1 / 2 ^ 50) := by
      have := mul_le_mul_of_nonneg_right h2 (show (0 : ℚ) ≤ 1 + 1 / 2 ^ 50 by norm_num)
      calc v * ((1 + 1 / 2 ^ 50) * (1 - 1 / 2 ^ 53) ^ 6)
          = v * (1 - 1 / 2 ^ 53) ^ 6 * (1 + 1 / 2 ^ 50) := by ring
        _ ≤ x * (1 + 1 / 2 ^ 50) := this
    have e : x / 2 ^ 50 = x * (1 / 2 ^ 50) := by ring
    rw [e]
    linarith

/-! ## Lemmas: `std::stod` -/

theorem roundHalfEven_ge_floor (q : ℚ) : ⌊q⌋ ≤ roundHalfEven q := by
  unfold roundHalfEven
  simp only []
  split_ifs <;> omega

/-- From `2 ^ 1024` on the rounding overflows. -/
theorem roundMagnitude_overflow (a : ℚ) (h : 2 ^ 1024 ≤ a) : roundMagnitude a = none := by
  have hpos : 0 < a := lt_of_lt_of_le (pow_pos (by norm_num) 1024) h
  have e1024 : (2 : ℚ) ^ (1024 : ℤ) = 2 ^ 1024 := zpow_ofNat 2 1024
  have hlog : (1024 : ℤ) ≤ Int.log 2 a := by
    refine (Int.zpow_le_iff_le_log (R := ℚ) (b := 2) (by norm_num) (x := 1024) hpos).1 ?_
    rw [Nat.cast_ofNat, e1024]
    exact h
  have hmax : max (Int.log 2 a) (-1022) = Int.log 2 a := max_eq_left (by omega)
  have hle : (2 : ℚ) ^ (Int.log 2 a) ≤ a := by
    simpa using Int.zpow_log_le_self (R := ℚ) (b := 2) (by norm_num) hpos
  have hulp : (0 : ℚ) < 2 ^ (Int.log 2 a - 52) := zpow_pos (by norm_num) _
  have hsplit : (2 : ℚ) ^ (Int.log 2 a) = 2 ^ 52 * 2 ^ (Int.log 2 a - 52) := by
    rw [zpow_sub₀ (by norm_num), zpow_ofNat]
    field_simp
  have hx : (((2 : ℤ) ^ 52 : ℤ) : ℚ) ≤ a / 2 ^ (Int.log 2 a - 52) := by
    rw [le_div_iff₀ hulp, Int.cast_pow, Int.cast_ofNat, ← hsplit]
    exact hle
  have hfloor : (2 : ℤ) ^ 52 ≤ ⌊a / 2 ^ (Int.log 2 a - 52)⌋ := Int.le_floor.2 hx
  have hround := le_trans hfloor (roundHalfEven_ge_floor _)
  have hv : (2 : ℚ) ^ 1024 ≤
      (roundHalfEven (a / 2 ^ (Int.log 2 a - 52)) : ℚ) * 2 ^ (Int.log 2 a - 52) := by
    have h0 : ((2 : ℚ) ^ 52) ≤ (roundHalfEven (a / 2 ^ (Int.log 2 a - 52)) : ℚ) := by
      have := (Int.cast_le (R := ℚ)).2 hround
      rw [Int.cast_pow, Int.cast_ofNat] at this
      exact this
    have h1 : ((2 : ℚ) ^ 52) * 2 ^ (Int.log 2 a - 52) ≤
        (roundHalfEven (a / 2 ^ (Int.log 2 a - 52)) : ℚ) * 2 ^ (Int.log 2 a - 52) :=
      mul_le_mul_of_nonneg_right h0 (le_of_lt hulp)
    rw [← hsplit] at h1
    have h2 : (2 : ℚ) ^ (1024 : ℤ) ≤ 2 ^ (Int.log 2 a) :=
      zpow_le_zpow_right₀ (by norm_num) hlog
    rw [e1024] at h2
    exact le_trans h2 h1
  unfold roundMagnitude
  simp only []
  rw [hmax, if_neg (not_lt.2 hv)]

theorem Dbl.round_eq_fin (s t : Bool) (a v : ℚ) (h : Dbl.round s a = Dbl.fin t v) :
    roundMagnitude a = some v ∧ s = t := by
  unfold Dbl.round at h
  cases hr : roundMagnitude a with
  | none => rw [hr] at h; simp at h
  | some w =>
    rw [hr] at h
    simp only [Dbl.fin.injEq] at h
    exact ⟨by rw [h.2], h.1⟩

theorem isDigit_value (c : Char) (h : c.isDigit = true) : c.toNat - 48 ≤ 9 := by
  simp only [Char.isDigit, Bool.and_eq_true, decide_eq_true_eq] at h
  have h2 : c.val.toNat ≤ 57 := by
    have := h.2
    exact this
  show c.val.toNat - 48 ≤ 9
  omega

theorem digitsValue_lt (ds : List Char) (hds : ∀ c ∈ ds, c.isDigit = true) :
    digitsValue ds < 10 ^ ds.length := by
  induction ds using List.reverseRecOn with
  | nil => simp [digitsValue]
  | append_singleton ds c ih =>
    have h1 := ih (fun x hx => hds x (List.mem_append_left _ hx))
    have h2 := isDigit_value c (hds c (by simp))
    rw [digitsValue_append_singleton, List.length_append, List.length_singleton, pow_succ]
    omega

theorem stod_eq_some (ds : List Char) (d : Dbl) (h : stod ds = some d) :
    ∃ v, roundMagnitude (digitsValue ds) = some v ∧ d = Dbl.fin false v := by
  unfold stod at h
  cases hr : roundMagnitude (digitsValue ds : ℚ) with
  | none => rw [hr] at h; simp at h
  | some v =>
    rw [hr] at h
    simp only [Option.map_some', Option.some.injEq] at h
    exact ⟨v, rfl, h.symm⟩

theorem stod_round (ds : List Char) (d : Dbl) (h : Dbl.round false (digitsValue ds) = d)
    (hd : ∃ v, d = Dbl.fin false v) : stod ds = some d := by
  obtain ⟨v, rfl⟩ := hd
  obtain ⟨hr, _⟩ := Dbl.round_eq_fin _ _ _ _ h
  unfold stod
  rw [hr]
  rfl

/-- A number below `2 ^ 53` is converted exactly. -/
theorem stod_exact (ds : List Char) (h : digitsValue ds < 2 ^ 53) :
    stod ds = some (Dbl.fin false (digitsValue ds)) := by
  unfold stod
  rw [roundMagnitude_natCast _ h]
  rfl

/-- A number from `2 ^ 1024` on makes `std::stod` throw. -/
theorem stod_overflow (ds : List Char) (h : 2 ^ 1024 ≤ digitsValue ds) : stod ds = none := by
  have hq : (2 : ℚ) ^ 1024 ≤ (digitsValue ds : ℚ) := by
    have := (Nat.cast_le (α := ℚ)).2 h
    rw [Nat.cast_pow, Nat.cast_ofNat] at this
    exact this
  unfold stod
  rw [roundMagnitude_overflow _ hq]
  rfl

theorem natCast_inNormalRange (n : ℕ) (h : n < 10 ^ 300) : InNormalRange (n : ℚ) := by
  by_cases hn : n = 0
  · left; exact_mod_cast hn
  · right
    have h1 : (1 : ℚ) ≤ n := by exact_mod_cast Nat.one_le_iff_ne_zero.2 hn
    have h2 : (n : ℚ) < 10 ^ 300 := by
      have := (Nat.cast_lt (α := ℚ)).2 h
      rw [Nat.cast_pow, Nat.cast_ofNat] at this
      exact this
    have h3 : (1 / 10 ^ 305 : ℚ) ≤ 1 := by
      rw [div_le_one (by positivity)]
      exact one_le_pow₀ (by norm_num)
    have h4 : (10 : ℚ) ^ 300 ≤ 10 ^ 305 := pow_le_pow_right₀ (by norm_num) (by norm_num)
    exact ⟨le_trans h3 h1, le_of_lt (lt_of_lt_of_le h2 h4)⟩

/-- A number below `10 ^ 300` is converted, with one rounding. -/
theorem stod_approximates (ds : List Char) (hlt : digitsValue ds < 10 ^ 300) :
    ∃ d, stod ds = some d ∧ Approximates 1 d (digitsValue ds) := by
  have happ : Approximates (0 + 1) (Dbl.round false (digitsValue ds)) (digitsValue ds) :=
    Approximates.round (by norm_num) (natCast_inNormalRange _ hlt) (Nat.cast_nonneg _)
      (by simp) (by simp)
  refine ⟨_, stod_round ds _ rfl ?_, happ⟩
  obtain ⟨v, hv, _⟩ := happ
  exact ⟨v, hv⟩

theorem digitsValue_lt_of_length (ds : List Char) (hds : IsDigits ds) (hlen : ds.length ≤ 300) :
    digitsValue ds < 10 ^ 300 :=
  lt_of_lt_of_le (digitsValue_lt ds hds.2) (Nat.pow_le_pow_right (by decide) hlen)

/-! ## Lemmas: the blocks of the GPS decoder -/

theorem coordinateValue_absent (exifData : List (String × String))
    (valueTag refTag negRef : String)
    (h : exifData.lookup valueTag = none ∨ exifData.lookup refTag = none) :
    coordinateValue exifData valueTag refTag negRef = some none := by
  unfold coordinateValue
  rcases h with h | h
  · rw [h]
  · rw [h]
    cases exifData.lookup valueTag <;> rfl

theorem coordinateValue_unmatched (exifData : List (String × String))
    (valueTag refTag negRef str ref : String) (hv : exifData.lookup valueTag = some str)
    (hr : exifData.lookup refTag = some ref) (hm : regexSearchDms str.data = none) :
    coordinateValue exifData valueTag refTag negRef = some none := by
  simp only [coordinateValue, hv, hr, hm]

theorem coordinateValue_matched (exifData : List (String × String))
    (valueTag refTag negRef str ref : String) (m : DmsMatch)
    (hv : exifData.lookup valueTag = some str) (hr : exifData.lookup refTag = some ref)
    (hm : regexSearchDms str.data = some m) :
    coordinateValue exifData valueTag refTag negRef =
      (dmsValue m).map (fun value => some (if ref = negRef then Dbl.neg value else value)) := by
  simp only [coordinateValue, hv, hr, hm]
  cases dmsValue m <;> rfl

/-- A value is assigned only from a match of the pattern in the value, both tags present. -/
theorem coordinateValue_set (exifData : List (String × String))
    (valueTag refTag negRef : String) (v : Dbl)
    (h : coordinateValue exifData valueTag refTag negRef = some (some v)) :
    ∃ str ref m value, exifData.lookup valueTag = some str ∧ exifData.lookup refTag = some ref ∧
      regexSearchDms str.data = some m ∧ dmsValue m = some value ∧
      v = (if ref = negRef then Dbl.neg value else value) := by
  cases hv : exifData.lookup valueTag with
  | none => rw [coordinateValue_absent _ _ _ _ (Or.inl hv)] at h; simp at h
  | some str =>
    cases hr : exifData.lookup refTag with
    | none => rw [coordinateValue_absent _ _ _ _ (Or.inr hr)] at h; simp at h
    | some ref =>
      cases hm : regexSearchDms str.data with
      | none => rw [coordinateValue_unmatched _ _ _ _ _ _ hv hr hm] at h; simp at h
      | some m =>
        rw [coordinateValue_matched _ _ _ _ _ _ _ hv hr hm] at h
        cases hd : dmsValue m with
        | none => rw [hd] at h; simp at h
        | some value =>
          rw [hd] at h
          simp only [Option.map_some', Option.some.injEq] at h
          exact ⟨str, ref, m, value, rfl, rfl, hm, hd, h.symm⟩

theorem altitudeValue_absent (exifData : List (String × String))
    (h : exifData.lookup "Exif.GPSInfo.GPSAltitude" = none) :
    altitudeValue exifData = some none := by
  simp only [altitudeValue, h]

theorem altitudeValue_unmatched (exifData : List (String × String)) (altStr : String)
    (hv : exifData.lookup "Exif.GPSInfo.GPSAltitude" = some altStr)
    (hm : regexSearchFraction altStr.data = none) : altitudeValue exifData = some none := by
  simp only [altitudeValue, hv, hm]

theorem altitudeValue_matched (exifData : List (String × String)) (altStr : String)
    (n d : List Char) (hv : exifData.lookup "Exif.GPSInfo.GPSAltitude" = some altStr)
    (hm : regexSearchFraction altStr.data = some (n, d)) :
    altitudeValue exifData =
      (stodQuotient n d).map (fun altitude =>
        some (if exifData.lookup "Exif.GPSInfo.GPSAltitudeRef" = some "1" then Dbl.neg altitude
          else altitude)) := by
  simp only [altitudeValue, hv, hm]
  cases stodQuotient n d with
  | none => rfl
  | some altitude =>
    cases href : exifData.lookup "Exif.GPSInfo.GPSAltitudeRef" with
    | none => simp
    | some altRef =>
      by_cases h1 : altRef = "1"
      · simp [h1]
      · simp [h1]

theorem parseCoordinate_get_other (exifData : List (String × String))
    (valueTag refTag negRef key k2 : String) (gps g : Json) (h : k2 ≠ key)
    (hg : parseCoordinate exifData valueTag refTag negRef key gps = some g) :
    g.get k2 = gps.get k2 := by
  unfold parseCoordinate at hg
  cases hc : coordinateValue exifData valueTag refTag negRef with
  | none => rw [hc] at hg; simp at hg
  | some o =>
    rw [hc] at hg
    cases o with
    | none =>
      simp only [Option.some.injEq] at hg
      rw [hg]
    | some v =>
      simp only [Option.some.injEq] at hg
      rw [← hg]
      exact Json.get_set_other _ _ _ _ h

theorem parseCoordinate_get_key (exifData : List (String × String))
    (valueTag refTag negRef key : String) (gps g : Json) (hgps : gps.get key = none)
    (hg : parseCoordinate exifData valueTag refTag negRef key gps = some g) :
    ∃ o, coordinateValue exifData valueTag refTag negRef = some o ∧
      g.get key = o.map JValue.number := by
  unfold parseCoordinate at hg
  cases hc : coordinateValue exifData valueTag refTag negRef with
  | none => rw [hc] at hg; simp at hg
  | some o =>
    rw [hc] at hg
    refine ⟨o, rfl, ?_⟩
    cases o with
    | none =>
      simp only [Option.some.injEq] at hg
      rw [← hg, hgps]
      rfl
    | some v =>
      simp only [Option.some.injEq] at hg
      rw [← hg, Json.get_set_self]
      rfl

theorem parseAltitude_get_other (exifData : List (String × String)) (k2 : String)
    (gps g : Json) (h : k2 ≠ "altitude") (hg : parseAltitude exifData gps = some g) :
    g.get k2 = gps.get k2 := by
  unfold parseAltitude at hg
  cases hc : altitudeValue exifData with
  | none => rw [hc] at hg; simp at hg
  | some o =>
    rw [hc] at hg
    cases o with
    | none =>
      simp only [Option.some.injEq] at hg
      rw [hg]
    | some v =>
      simp only [Option.some.injEq] at hg
      rw [← hg]
      exact Json.get_set_other _ _ _ _ h

theorem parseAltitude_get_key (exifData : List (String × String)) (gps g : Json)
    (hgps : gps.get "altitude" = none) (hg : parseAltitude exifData gps = some g) :
    ∃ o, altitudeValue exifData = some o ∧ g.get "altitude" = o.map JValue.number := by
  unfold parseAltitude at hg
  cases hc : altitudeValue exifData with
  | none => rw [hc] at hg; simp at hg
  | some o =>
    rw [hc] at hg
    refine ⟨o, rfl, ?_⟩
    cases o with
    | none =>
      simp only [Option.some.injEq] at hg
      rw [← hg, hgps]
      rfl
    | some v =>
      simp only [Option.some.injEq] at hg
      rw [← hg, Json.get_set_self]
      rfl

theorem parseTimestamp_get_key (exifData : List (String × String)) (gps : Json)
    (hgps : gps.get "timestamp" = none) :
    (parseTimestamp exifData gps).get "timestamp" =
      (parseTimestamp exifData Json.null).get "timestamp" := by
  unfold parseTimestamp
  cases exifData.lookup "Exif.GPSInfo.GPSTimeStamp" with
  | none => simpa using hgps
  | some timeStr =>
    cases exifData.lookup "Exif.GPSInfo.GPSDateStamp" with
    | none => simpa using hgps
    | some dateStr => simp only [Json.get_set_self]

/-! ## Lemmas: the GPS object as a whole -/

/-- What `parseGpsInfo` returns: the three blocks have computed their values without an
exception, and the members of the object are these values and the timestamp. -/
theorem parseGpsInfo_eq_some (exifData : List (String × String)) (g : Json)
    (h : parseGpsInfo exifData = some g) :
    ∃ lat lon alt,
      coordinateValue exifData "Exif.GPSInfo.GPSLatitude" "Exif.GPSInfo.GPSLatitudeRef" "S" =
        some lat ∧
      coordinateValue exifData "Exif.GPSInfo.GPSLongitude" "Exif.GPSInfo.GPSLongitudeRef" "W" =
        some lon ∧
      altitudeValue exifData = some alt ∧
      g.get "latitude" = lat.map JValue.number ∧
      g.get "longitude" = lon.map JValue.number ∧
      g.get "altitude" = alt.map JValue.number ∧
      g.get "timestamp" = (parseTimestamp exifData Json.null).get "timestamp" := by
  unfold parseGpsInfo at h
  cases h1 : parseCoordinate exifData "Exif.GPSInfo.GPSLatitude" "Exif.GPSInfo.GPSLatitudeRef"
      "S" "latitude" Json.null with
  | none => rw [h1] at h; simp at h
  | some g1 =>
    rw [h1] at h
    simp only [] at h
    cases h2 : parseCoordinate exifData "Exif.GPSInfo.GPSLongitude"
        "Exif.GPSInfo.GPSLongitudeRef" "W" "longitude" g1 with
    | none => rw [h2] at h; simp at h
    | some g2 =>
      rw [h2] at h
      simp only [] at h
      cases h3 : parseAltitude exifData g2 with
      | none => rw [h3] at h; simp at h
      | some g3 =>
        rw [h3] at h
        simp only [Option.some.injEq] at h
        have n1 : ∀ k, g1.get k = none ∨ k = "latitude" := by
          intro k
          by_cases hk : k = "latitude"
          · exact Or.inr hk
          · left
            rw [parseCoordinate_get_other _ _ _ _ _ k _ _ hk h1]
            rfl
        have lonNone : g1.get "longitude" = none :=
          (n1 "longitude").resolve_right (by decide)
        have altNone : g2.get "altitude" = none := by
          rw [parseCoordinate_get_other _ _ _ _ _ "altitude" _ _ (by decide) h2]
          exact (n1 "altitude").resolve_right (by decide)
        have tsNone : g3.get "timestamp" = none := by
          rw [parseAltitude_get_other _ "timestamp" _ _ (by decide) h3,
            parseCoordinate_get_other _ _ _ _ _ "timestamp" _ _ (by decide) h2]
          exact (n1 "timestamp").resolve_right (by decide)
        obtain ⟨lat, hlat, glat⟩ := parseCoordinate_get_key _ _ _ _ _ Json.null _ (Json.get_null _) h1
        obtain ⟨lon, hlon, glon⟩ := parseCoordinate_get_key _ _ _ _ _ _ _ lonNone h2
        obtain ⟨alt, halt, galt⟩ := parseAltitude_get_key _ _ _ altNone h3
        refine ⟨lat, lon, alt, hlat, hlon, halt, ?_, ?_, ?_, ?_⟩
        · rw [← h, formatLocation_get_other _ _ (by decide),
            parseTimestamp_get_other _ _ _ (by decide),
            parseAltitude_get_other _ "latitude" _ _ (by decide) h3,
            parseCoordinate_get_other _ _ _ _ _ "latitude" _ _ (by decide) h2, glat]
        · rw [← h, formatLocation_get_other _ _ (by decide),
            parseTimestamp_get_other _ _ _ (by decide),
            parseAltitude_get_other _ "longitude" _ _ (by decide) h3, glon]
        · rw [← h, formatLocation_get_other _ _ (by decide),
            parseTimestamp_get_other _ _ _ (by decide), galt]
        · rw [← h, formatLocation_get_other _ _ (by decide)]
          exact parseTimestamp_get_key _ _ tsNone

/-- The decoder returns when none of the three blocks throws. -/
theorem parseGpsInfo_returns (exifData : List (String × String)) (lat lon alt : Option Dbl)
    (hlat : coordinateValue exifData "Exif.GPSInfo.GPSLatitude" "Exif.GPSInfo.GPSLatitudeRef"
      "S" = some lat)
    (hlon : coordinateValue exifData "Exif.GPSInfo.GPSLongitude" "Exif.GPSInfo.GPSLongitudeRef"
      "W" = some lon)
    (halt : altitudeValue exifData = some alt) : ∃ g, parseGpsInfo exifData = some g := by
  unfold parseGpsInfo parseCoordinate parseAltitude
  rw [hlat, hlon, halt]
  cases lat <;> cases lon <;> cases alt <;> exact ⟨_, rfl⟩

/-- The decoder throws when one of the three blocks throws. -/
theorem parseGpsInfo_throws (exifData : List (String × String))
    (h : coordinateValue exifData "Exif.GPSInfo.GPSLatitude" "Exif.GPSInfo.GPSLatitudeRef"
        "S" = none ∨
      coordinateValue exifData "Exif.GPSInfo.GPSLongitude" "Exif.GPSInfo.GPSLongitudeRef"
        "W" = none ∨
      altitudeValue exifData = none) : parseGpsInfo exifData = none := by
  cases hg : parseGpsInfo exifData with
  | none => rfl
  | some g =>
    obtain ⟨lat, lon, alt, h1, h2, h3, _⟩ := parseGpsInfo_eq_some exifData g hg
    rcases h with h | h | h
    · rw [h] at h1; simp at h1
    · rw [h] at h2; simp at h2
    · rw [h] at h3; simp at h3

/-! ## Lemmas: the values that the decoder computes -/

theorem stodQuotient_eq_some (n d : List Char) (q : Dbl) (h : stodQuotient n d = some q) :
    ∃ x y, stod n = some (Dbl.fin false x) ∧ stod d = some (Dbl.fin false y) ∧
      q = Dbl.div (Dbl.fin false x) (Dbl.fin false y) := by
  unfold stodQuotient at h
  cases hn : stod n with
  | none => rw [hn] at h; simp at h
  | some a =>
    cases hd : stod d with
    | none => rw [hn, hd] at h; simp at h
    | some b =>
      rw [hn, hd] at h
      simp only [Option.some.injEq] at h
      obtain ⟨x, _, hx⟩ := stod_eq_some n a hn
      obtain ⟨y, _, hy⟩ := stod_eq_some d b hd
      subst hx hy
      exact ⟨x, y, rfl, rfl, h.symm⟩

theorem stodQuotient_of_stod (n d : List Char) (a b : Dbl) (hn : stod n = some a)
    (hd : stod d = some b) : stodQuotient n d = some (Dbl.div a b) := by
  unfold stodQuotient
  rw [hn, hd]

theorem stodQuotient_throws (n d : List Char) (h : stod n = none ∨ stod d = none) :
    stodQuotient n d = none := by
  unfold stodQuotient
  rcases h with h | h
  · rw [h]
  · rw [h]
    cases stod n <;> rfl

theorem dmsValue_throws (m : DmsMatch)
    (h : stodQuotient m.d1 m.d2 = none ∨ stodQuotient m.m1 m.m2 = none ∨
      stodQuotient m.s1 m.s2 = none) : dmsValue m = none := by
  unfold dmsValue
  rcases h with h | h | h
  · rw [h]
  · rw [h]
    cases stodQuotient m.d1 m.d2 <;> rfl
  · rw [h]
    cases stodQuotient m.d1 m.d2 <;> cases stodQuotient m.m1 m.m2 <;> rfl

theorem dmsValue_of_quotients (m : DmsMatch) (degrees minutes seconds : Dbl)
    (h1 : stodQuotient m.d1 m.d2 = some degrees) (h2 : stodQuotient m.m1 m.m2 = some minutes)
    (h3 : stodQuotient m.s1 m.s2 = some seconds) :
    dmsValue m = some (Dbl.add (Dbl.add degrees (Dbl.div minutes (Dbl.fin false 60)))
      (Dbl.div seconds (Dbl.fin false 3600))) := by
  unfold dmsValue
  rw [h1, h2, h3]

theorem dmsValue_eq_some (m : DmsMatch) (v : Dbl) (h : dmsValue m = some v) :
    ∃ degrees minutes seconds, stodQuotient m.d1 m.d2 = some degrees ∧
      stodQuotient m.m1 m.m2 = some minutes ∧ stodQuotient m.s1 m.s2 = some seconds ∧
      v = Dbl.add (Dbl.add degrees (Dbl.div minutes (Dbl.fin false 60)))
        (Dbl.div seconds (Dbl.fin false 3600)) := by
  cases h1 : stodQuotient m.d1 m.d2 with
  | none => rw [dmsValue_throws m (Or.inl h1)] at h; simp at h
  | some degrees =>
    cases h2 : stodQuotient m.m1 m.m2 with
    | none => rw [dmsValue_throws m (Or.inr (Or.inl h2))] at h; simp at h
    | some minutes =>
      cases h3 : stodQuotient m.s1 m.s2 with
      | none => rw [dmsValue_throws m (Or.inr (Or.inr h3))] at h; simp at h
      | some seconds =>
        rw [dmsValue_of_quotients m _ _ _ h1 h2 h3] at h
        simp only [Option.some.injEq] at h
        exact ⟨_, _, _, rfl, rfl, rfl, h.symm⟩

/-! ### Short digit runs do not overflow -/

theorem stod_short (ds : List Char) (hds : IsDigits ds) (hlen : ds.length ≤ 300) :
    ∃ x, stod ds = some (Dbl.fin false x) := by
  obtain ⟨d, hd, v, hv, _⟩ := stod_approximates ds (digitsValue_lt_of_length ds hds hlen)
  exact ⟨v, by rw [hd, hv]⟩

theorem stodQuotient_short (n d : List Char) (hn : IsDigits n) (hd : IsDigits d)
    (hnlen : n.length ≤ 300) (hdlen : d.length ≤ 300) : ∃ q, stodQuotient n d = some q := by
  obtain ⟨x, hx⟩ := stod_short n hn hnlen
  obtain ⟨y, hy⟩ := stod_short d hd hdlen
  exact ⟨_, stodQuotient_of_stod n d _ _ hx hy⟩

theorem dmsChars_length (d1 d2 m1 m2 s1 s2 : List Char) :
    (dmsChars d1 d2 m1 m2 s1 s2).length =
      d1.length + d2.length + m1.length + m2.length + s1.length + s2.length + 5 := by
  simp only [dmsChars, List.length_append, List.length_cons]
  omega

theorem regexSearchDms_lengths (input : List Char) (m : DmsMatch)
    (h : regexSearchDms input = some m) :
    m.d1.length ≤ input.length ∧ m.d2.length ≤ input.length ∧ m.m1.length ≤ input.length ∧
      m.m2.length ≤ input.length ∧ m.s1.length ≤ input.length ∧ m.s2.length ≤ input.length := by
  obtain ⟨⟨pre, post, hin⟩, _⟩ := regexSearchDms_sound input m h
  have hl := congrArg List.length hin
  rw [List.length_append, List.length_append, dmsChars_length] at hl
  refine ⟨?_, ?_, ?_, ?_, ?_, ?_⟩ <;> omega

theorem matchFractionAt_sound (input n d : List Char)
    (h : matchFractionAt input = some (n, d)) :
    IsDigits n ∧ IsDigits d ∧ ∃ post, input = n ++ '/' :: (d ++ post) := by
  unfold matchFractionAt at h
  simp only [bind, Option.bind] at h
  cases h1 : takeDigits input with
  | none => rw [h1] at h; simp at h
  | some p1 =>
    obtain ⟨n1, r1⟩ := p1
    rw [h1] at h
    simp only [] at h
    cases h2 : expectChar '/' r1 with
    | none => rw [h2] at h; simp at h
    | some r2 =>
      rw [h2] at h
      simp only [] at h
      cases h3 : takeDigits r2 with
      | none => rw [h3] at h; simp at h
      | some p3 =>
        obtain ⟨d1, r3⟩ := p3
        rw [h3] at h
        simp only [pure, Option.some.injEq, Prod.mk.injEq] at h
        obtain ⟨e1, e2⟩ := h
        subst e1 e2
        obtain ⟨i1, dn⟩ := takeDigits_sound _ _ _ h1
        have i2 := expectChar_sound _ _ _ h2
        obtain ⟨i3, dd⟩ := takeDigits_sound _ _ _ h3
        exact ⟨dn, dd, r3, by rw [i1, i2, i3]⟩

theorem regexSearchFraction_sound (input n d : List Char)
    (h : regexSearchFraction input = some (n, d)) :
    IsDigits n ∧ IsDigits d ∧ ∃ pre post, input = pre ++ (n ++ '/' :: (d ++ post)) := by
  induction input with
  | nil => simp [regexSearchFraction] at h
  | cons c cs ih =>
    unfold regexSearchFraction at h
    cases hm : matchFractionAt (c :: cs) with
    | some p =>
      rw [hm] at h
      simp only [Option.some.injEq] at h
      subst h
      obtain ⟨hn, hd, post, hin⟩ := matchFractionAt_sound _ _ _ hm
      exact ⟨hn, hd, [], post, by simpa using hin⟩
    | none =>
      rw [hm] at h
      obtain ⟨hn, hd, pre, post, hin⟩ := ih h
      exact ⟨hn, hd, c :: pre, post, by rw [hin]; rfl⟩

theorem regexSearchFraction_lengths (input n d : List Char)
    (h : regexSearchFraction input = some (n, d)) :
    n.length ≤ input.length ∧ d.length ≤ input.length := by
  obtain ⟨_, _, pre, post, hin⟩ := regexSearchFraction_sound input n d h
  have hl := congrArg List.length hin
  simp only [List.length_append, List.length_cons] at hl
  constructor <;> omega

theorem dmsValue_short (m : DmsMatch) (h1 : IsDigits m.d1) (h2 : IsDigits m.d2)
    (h3 : IsDigits m.m1) (h4 : IsDigits m.m2) (h5 : IsDigits m.s1) (h6 : IsDigits m.s2)
    (l1 : m.d1.length ≤ 300) (l2 : m.d2.length ≤ 300) (l3 : m.m1.length ≤ 300)
    (l4 : m.m2.length ≤ 300) (l5 : m.s1.length ≤ 300) (l6 : m.s2.length ≤ 300) :
    ∃ v, dmsValue m = some v := by
  obtain ⟨a, ha⟩ := stodQuotient_short _ _ h1 h2 l1 l2
  obtain ⟨b, hb⟩ := stodQuotient_short _ _ h3 h4 l3 l4
  obtain ⟨c, hc⟩ := stodQuotient_short _ _ h5 h6 l5 l6
  exact ⟨_, dmsValue_of_quotients m a b c ha hb hc⟩

theorem coordinateValue_short (exifData : List (String × String))
    (valueTag refTag negRef : String) (hshort : ∀ p ∈ exifData, p.2.length ≤ 300) :
    ∃ o, coordinateValue exifData valueTag refTag negRef = some o := by
  cases hv : exifData.lookup valueTag with
  | none => exact ⟨none, coordinateValue_absent _ _ _ _ (Or.inl hv)⟩
  | some str =>
    cases hr : exifData.lookup refTag with
    | none => exact ⟨none, coordinateValue_absent _ _ _ _ (Or.inr hr)⟩
    | some ref =>
      cases hm : regexSearchDms str.data with
      | none => exact ⟨none, coordinateValue_unmatched _ _ _ _ _ _ hv hr hm⟩
      | some m =>
        have hlen : str.data.length ≤ 300 := hshort _ (mem_of_lookup_eq_some _ _ _ hv)
        obtain ⟨_, d1, d2, d3, d4, d5, d6⟩ := regexSearchDms_sound _ _ hm
        obtain ⟨l1, l2, l3, l4, l5, l6⟩ := regexSearchDms_lengths _ _ hm
        obtain ⟨v, hval⟩ := dmsValue_short m d1 d2 d3 d4 d5 d6 (by omega) (by omega) (by omega)
          (by omega) (by omega) (by omega)
        rw [coordinateValue_matched _ _ _ _ _ _ _ hv hr hm, hval]
        exact ⟨_, rfl⟩

theorem altitudeValue_short (exifData : List (String × String))
    (hshort : ∀ p ∈ exifData, p.2.length ≤ 300) : ∃ o, altitudeValue exifData = some o := by
  cases hv : exifData.lookup "Exif.GPSInfo.GPSAltitude" with
  | none => exact ⟨none, altitudeValue_absent _ hv⟩
  | some altStr =>
    cases hm : regexSearchFraction altStr.data with
    | none => exact ⟨none, altitudeValue_unmatched _ _ hv hm⟩
    | some p =>
      obtain ⟨n, d⟩ := p
      have hlen : altStr.data.length ≤ 300 := hshort _ (mem_of_lookup_eq_some _ _ _ hv)
      obtain ⟨hn, hd, _⟩ := regexSearchFraction_sound _ _ _ hm
      obtain ⟨l1, l2⟩ := regexSearchFraction_lengths _ _ _ hm
      obtain ⟨q, hq⟩ := stodQuotient_short n d hn hd (by omega) (by omega)
      rw [altitudeValue_matched _ _ _ _ hv hm, hq]
      exact ⟨_, rfl⟩

/-- No digit run of a value of at most 300 characters is beyond the range of `double`: the
decoder returns for a map of such values. -/
theorem parseGpsInfo_short (exifData : List (String × String))
    (hshort : ∀ p ∈ exifData, p.2.length ≤ 300) : ∃ g, parseGpsInfo exifData = some g := by
  obtain ⟨lat, hlat⟩ := coordinateValue_short exifData "Exif.GPSInfo.GPSLatitude"
    "Exif.GPSInfo.GPSLatitudeRef" "S" hshort
  obtain ⟨lon, hlon⟩ := coordinateValue_short exifData "Exif.GPSInfo.GPSLongitude"
    "Exif.GPSInfo.GPSLongitudeRef" "W" hshort
  obtain ⟨alt, halt⟩ := altitudeValue_short exifData hshort
  exact parseGpsInfo_returns exifData lat lon alt hlat hlon halt

/-! ### The error of a decoded value -/

theorem inNormalRange_of_bounds (x : ℚ) (h : x = 0 ∨ (1 / 10 ^ 304 ≤ x ∧ x ≤ 3 * 10 ^ 300)) :
    InNormalRange x := by
  rcases h with h | ⟨h1, h2⟩
  · exact Or.inl h
  · right
    have c1 : (1 / 10 ^ 305 : ℚ) ≤ 1 / 10 ^ 304 := by
      rw [div_le_div_iff₀ (by positivity) (by positivity), one_mul, one_mul]
      exact pow_le_pow_right₀ (by norm_num) (by norm_num)
    have c2 : (3 * 10 ^ 300 : ℚ) ≤ 10 ^ 305 := by
      have e : (10 : ℚ) ^ 305 = 10 ^ 5 * 10 ^ 300 := by rw [← pow_add]
      rw [e]
      exact mul_le_mul_of_nonneg_right (by norm_num) (by positivity)
    exact ⟨le_trans c1 h1, le_trans h2 c2⟩

theorem quotient_range (n d : ℕ) (hn : n < 10 ^ 300) (hd : d < 10 ^ 300) (hd0 : d ≠ 0) :
    (n : ℚ) / d = 0 ∨ (1 / 10 ^ 300 ≤ (n : ℚ) / d ∧ (n : ℚ) / d ≤ 10 ^ 300) := by
  by_cases hn0 : n = 0
  · left
    rw [hn0]
    simp
  · right
    have n1 : (1 : ℚ) ≤ n := by exact_mod_cast Nat.one_le_iff_ne_zero.2 hn0
    have d1 : (1 : ℚ) ≤ d := by exact_mod_cast Nat.one_le_iff_ne_zero.2 hd0
    have nq : (n : ℚ) ≤ 10 ^ 300 := by
      have := (Nat.cast_le (α := ℚ)).2 (le_of_lt hn)
      rw [Nat.cast_pow, Nat.cast_ofNat] at this
      exact this
    have dq : (d : ℚ) ≤ 10 ^ 300 := by
      have := (Nat.cast_le (α := ℚ)).2 (le_of_lt hd)
      rw [Nat.cast_pow, Nat.cast_ofNat] at this
      exact this
    have dpos : (0 : ℚ) < d := lt_of_lt_of_le one_pos d1
    constructor
    · rw [div_le_div_iff₀ (by positivity) dpos, one_mul]
      calc (d : ℚ) ≤ 10 ^ 300 := dq
        _ = 1 * 10 ^ 300 := (one_mul _).symm
        _ ≤ n * 10 ^ 300 := mul_le_mul_of_nonneg_right n1 (by positivity)
    · rw [div_le_iff₀ dpos]
      calc (n : ℚ) ≤ 10 ^ 300 := nq
        _ = 10 ^ 300 * 1 := (mul_one _).symm
        _ ≤ 10 ^ 300 * d := mul_le_mul_of_nonneg_left d1 (by positivity)

theorem div_const_range (x c l : ℚ) (hc : 1 ≤ c) (hl : 0 < l)
    (h : x = 0 ∨ (l ≤ x ∧ x ≤ 10 ^ 300)) :
    x / c = 0 ∨ (l / c ≤ x / c ∧ x / c ≤ 10 ^ 300) := by
  have hcpos : 0 < c := lt_of_lt_of_le one_pos hc
  rcases h with h | ⟨h1, h2⟩
  · left
    rw [h]
    simp
  · right
    refine ⟨div_le_div_of_nonneg_right h1 (le_of_lt hcpos), ?_⟩
    have hx : 0 ≤ x := le_trans (le_of_lt hl) h1
    exact le_trans (div_le_self hx hc) h2

theorem add_range (x y l u1 u2 : ℚ) (hl : 0 < l)
    (hx : x = 0 ∨ (l ≤ x ∧ x ≤ u1)) (hy : y = 0 ∨ (l ≤ y ∧ y ≤ u2)) (hu1 : 0 ≤ u1)
    (hu2 : 0 ≤ u2) : x + y = 0 ∨ (l ≤ x + y ∧ x + y ≤ u1 + u2) := by
  rcases hx with hx | ⟨x1, x2⟩ <;> rcases hy with hy | ⟨y1, y2⟩
  · left; rw [hx, hy]; simp
  · right; rw [hx, zero_add]; exact ⟨y1, by linarith⟩
  · right; rw [hy, add_zero]; exact ⟨x1, by linarith⟩
  · right; exact ⟨by linarith, by linarith⟩

theorem weaken_range (x l l2 u u2 : ℚ) (hl : l2 ≤ l) (hu : u ≤ u2)
    (h : x = 0 ∨ (l ≤ x ∧ x ≤ u)) : x = 0 ∨ (l2 ≤ x ∧ x ≤ u2) := by
  rcases h with h | ⟨h1, h2⟩
  · exact Or.inl h
  · exact Or.inr ⟨le_trans hl h1, le_trans h2 hu⟩

theorem small_le_300 : (1 / 10 ^ 304 : ℚ) ≤ 1 / 10 ^ 300 := by
  rw [div_le_div_iff₀ (by positivity) (by positivity), one_mul, one_mul]
  exact pow_le_pow_right₀ (by norm_num) (by norm_num)

theorem small_le_60 : (1 / 10 ^ 304 : ℚ) ≤ 1 / 10 ^ 300 / 60 := by
  rw [div_div, div_le_div_iff₀ (by positivity) (by positivity), one_mul, one_mul]
  have e : (10 : ℚ) ^ 304 = 10 ^ 300 * 10 ^ 4 := by rw [← pow_add]
  rw [e]
  exact mul_le_mul_of_nonneg_left (by norm_num) (by positivity)

theorem small_le_3600 : (1 / 10 ^ 304 : ℚ) ≤ 1 / 10 ^ 300 / 3600 := by
  rw [div_div, div_le_div_iff₀ (by positivity) (by positivity), one_mul, one_mul]
  have e : (10 : ℚ) ^ 304 = 10 ^ 300 * 10 ^ 4 := by rw [← pow_add]
  rw [e]
  exact mul_le_mul_of_nonneg_left (by norm_num) (by positivity)

/-- A quotient of two numbers below `10 ^ 300`, the second not zero: three roundings. -/
theorem stodQuotient_approximates (n d : List Char) (hn : digitsValue n < 10 ^ 300)
    (hd : digitsValue d < 10 ^ 300) (hd0 : digitsValue d ≠ 0) :
    ∃ q, stodQuotient n d = some q ∧
      Approximates 3 q ((digitsValue n : ℚ) / (digitsValue d : ℚ)) := by
  obtain ⟨a, ha, appa⟩ := stod_approximates n hn
  obtain ⟨b, hb, appb⟩ := stod_approximates d hd
  refine ⟨_, stodQuotient_of_stod n d a b ha hb, ?_⟩
  have hr := quotient_range _ _ hn hd hd0
  have hr2 := weaken_range _ _ (1 / 10 ^ 304) _ (3 * 10 ^ 300) small_le_300
    (le_mul_of_one_le_left (by positivity) (by norm_num)) hr
  exact Approximates.div appa appb (by exact_mod_cast hd0) (by norm_num)
    (inNormalRange_of_bounds _ hr2)

/-- The value of a match whose components are below `10 ^ 300` and whose denominators are not
zero: six roundings away from the exact rational of the specification. -/
theorem dmsValue_approximates (m : DmsMatch) (l1 : digitsValue m.d1 < 10 ^ 300)
    (l2 : digitsValue m.d2 < 10 ^ 300) (l3 : digitsValue m.m1 < 10 ^ 300)
    (l4 : digitsValue m.m2 < 10 ^ 300) (l5 : digitsValue m.s1 < 10 ^ 300)
    (l6 : digitsValue m.s2 < 10 ^ 300)
    (z2 : digitsValue m.d2 ≠ 0) (z4 : digitsValue m.m2 ≠ 0) (z6 : digitsValue m.s2 ≠ 0) :
    ∃ v, dmsValue m = some v ∧
      Approximates 6 v (dmsRational (digitsValue m.d1) (digitsValue m.d2) (digitsValue m.m1)
        (digitsValue m.m2) (digitsValue m.s1) (digitsValue m.s2)) := by
  obtain ⟨deg, hdeg, adeg⟩ := stodQuotient_approximates _ _ l1 l2 z2
  obtain ⟨mn, hmn, amn⟩ := stodQuotient_approximates _ _ l3 l4 z4
  obtain ⟨sc, hsc, asc⟩ := stodQuotient_approximates _ _ l5 l6 z6
  refine ⟨_, dmsValue_of_quotients m deg mn sc hdeg hmn hsc, ?_⟩
  have rdeg := quotient_range _ _ l1 l2 z2
  have rmn := quotient_range _ _ l3 l4 z4
  have rsc := quotient_range _ _ l5 l6 z6
  have p300 : (0 : ℚ) < 1 / 10 ^ 300 := by positivity
  have p304 : (0 : ℚ) < 1 / 10 ^ 304 := by positivity
  have u300 : (0 : ℚ) ≤ 10 ^ 300 := by positivity
  have rmn60 := div_const_range _ 60 _ (by norm_num) p300 rmn
  have rsc3600 := div_const_range _ 3600 _ (by norm_num) p300 rsc
  have wdeg := weaken_range _ _ (1 / 10 ^ 304) _ (10 ^ 300) small_le_300 (le_refl _) rdeg
  have wmn := weaken_range _ _ (1 / 10 ^ 304) _ (10 ^ 300) small_le_60 (le_refl _) rmn60
  have wsc := weaken_range _ _ (1 / 10 ^ 304) _ (10 ^ 300) small_le_3600 (le_refl _) rsc3600
  have rsum1 := add_range _ _ _ _ _ p304 wdeg wmn u300 u300
  have rsum2 := add_range _ _ _ _ _ p304 rsum1 wsc (add_nonneg u300 u300) u300
  have c60 : Approximates 0 (Dbl.fin false 60) 60 := Approximates.exact 60 (by norm_num)
  have c3600 : Approximates 0 (Dbl.fin false 3600) 3600 := Approximates.exact 3600 (by norm_num)
  have e2 : (10 : ℚ) ^ 300 + 10 ^ 300 ≤ 3 * 10 ^ 300 := by
    have : (0 : ℚ) ≤ 10 ^ 300 := u300
    linarith
  have e3 : (10 : ℚ) ^ 300 + 10 ^ 300 + 10 ^ 300 ≤ 3 * 10 ^ 300 := by
    have : (0 : ℚ) ≤ 10 ^ 300 := u300
    linarith
  have amn60 := Approximates.div amn c60 (by norm_num) (by norm_num)
    (inNormalRange_of_bounds _ (weaken_range _ _ _ _ (3 * 10 ^ 300) (le_refl _)
      (le_mul_of_one_le_left u300 (by norm_num)) wmn))
  have asc3600 := Approximates.div asc c3600 (by norm_num) (by norm_num)
    (inNormalRange_of_bounds _ (weaken_range _ _ _ _ (3 * 10 ^ 300) (le_refl _)
      (le_mul_of_one_le_left u300 (by norm_num)) wsc))
  have asum1 := Approximates.add adeg amn60 (by norm_num)
    (inNormalRange_of_bounds _ (weaken_range _ _ _ _ (3 * 10 ^ 300) (le_refl _) e2 rsum1))
  have asum2 := Approximates.add asum1 asc3600 (by norm_num)
    (inNormalRange_of_bounds _ (weaken_range _ _ _ _ (3 * 10 ^ 300) (le_refl _) e3 rsum2))
  exact asum2

/-! ### Exact and special results -/

theorem Dbl.div_fin (a b : ℚ) (hb : b ≠ 0) :
    Dbl.div (Dbl.fin false a) (Dbl.fin false b) = Dbl.round false (a / b) := by
  simp only [Dbl.div, Bool.xor_false]
  rw [if_neg hb]

theorem Dbl.add_fin (a b : ℚ) :
    Dbl.add (Dbl.fin false a) (Dbl.fin false b) = Dbl.round false (a + b) := by
  simp only [Dbl.add]
  rw [if_pos trivial]

theorem Dbl.round_natCast (s : Bool) (n : ℕ) (h : n < 2 ^ 53) :
    Dbl.round s (n : ℚ) = Dbl.fin s n := by
  unfold Dbl.round
  rw [roundMagnitude_natCast n h]

theorem Dbl.round_zero (s : Bool) : Dbl.round s 0 = Dbl.fin s 0 := by
  unfold Dbl.round
  rw [roundMagnitude_zero]

theorem stod_zero : stod ['0'] = some (Dbl.fin false 0) := by
  have h := stod_exact ['0'] (by decide)
  have e : digitsValue ['0'] = 0 := by decide
  rw [e] at h
  simpa using h

theorem stod_one : stod ['1'] = some (Dbl.fin false 1) := by
  have h := stod_exact ['1'] (by decide)
  have e : digitsValue ['1'] = 1 := by decide
  rw [e] at h
  simpa using h

/-- A value `"d/1 0/1 0/1"` with `d` below `2 ^ 53` is decoded without any rounding. -/
theorem dmsValue_whole (d1 : List Char) (h : digitsValue d1 < 2 ^ 53) :
    dmsValue ⟨d1, ['1'], ['0'], ['1'], ['0'], ['1']⟩ =
      some (Dbl.fin false (digitsValue d1)) := by
  have q1 : stodQuotient d1 ['1'] = some (Dbl.fin false (digitsValue d1)) := by
    rw [stodQuotient_of_stod _ _ _ _ (stod_exact d1 h) stod_one,
      Dbl.div_fin _ 1 one_ne_zero, div_one, Dbl.round_natCast _ _ h]
  have q0 : stodQuotient ['0'] ['1'] = some (Dbl.fin false 0) := by
    rw [stodQuotient_of_stod _ _ _ _ stod_zero stod_one, Dbl.div_fin _ 1 one_ne_zero,
      zero_div, Dbl.round_zero]
  rw [dmsValue_of_quotients ⟨d1, ['1'], ['0'], ['1'], ['0'], ['1']⟩ _ _ _ q1 q0 q0, Dbl.div_fin 0 60 (by norm_num),
    Dbl.div_fin 0 3600 (by norm_num), zero_div, zero_div, Dbl.round_zero, Dbl.add_fin, add_zero,
    Dbl.round_natCast _ _ h, Dbl.add_fin, add_zero, Dbl.round_natCast _ _ h]

theorem Dbl.div_zero_not_fin (a : ℚ) (s : Bool) (q : ℚ) :
    Dbl.div (Dbl.fin false a) (Dbl.fin false 0) ≠ Dbl.fin s q := by
  simp only [Dbl.div]
  rw [if_pos trivial]
  split_ifs <;> simp

theorem Dbl.div_not_fin (x : Dbl) (t : Bool) (c : ℚ) (hx : ∀ s q, x ≠ Dbl.fin s q) (s : Bool)
    (q : ℚ) : Dbl.div x (Dbl.fin t c) ≠ Dbl.fin s q := by
  cases x with
  | fin s0 a => exact absurd rfl (hx s0 a)
  | inf s0 => simp [Dbl.div]
  | nan s0 => simp [Dbl.div]

theorem Dbl.add_not_fin_left (x y : Dbl) (hx : ∀ s q, x ≠ Dbl.fin s q) (s : Bool) (q : ℚ) :
    Dbl.add x y ≠ Dbl.fin s q := by
  cases x with
  | fin s0 a => exact absurd rfl (hx s0 a)
  | inf s0 =>
    cases y with
    | fin t b => simp [Dbl.add]
    | inf t =>
      simp only [Dbl.add]
      split_ifs <;> simp
    | nan t => simp [Dbl.add]
  | nan s0 => simp [Dbl.add]

theorem Dbl.add_not_fin_right (x y : Dbl) (hy : ∀ s q, y ≠ Dbl.fin s q) (s : Bool) (q : ℚ) :
    Dbl.add x y ≠ Dbl.fin s q := by
  cases y with
  | fin t b => exact absurd rfl (hy t b)
  | inf t =>
    cases x with
    | fin s0 a => simp [Dbl.add]
    | inf s0 =>
      simp only [Dbl.add]
      split_ifs <;> simp
    | nan s0 => simp [Dbl.add]
  | nan t =>
    cases x with
    | fin s0 a => simp [Dbl.add]
    | inf s0 => simp [Dbl.add]
    | nan s0 => simp [Dbl.add]

theorem Dbl.neg_not_fin (x : Dbl) (hx : ∀ s q, x ≠ Dbl.fin s q) (s : Bool) (q : ℚ) :
    Dbl.neg x ≠ Dbl.fin s q := by
  cases x with
  | fin s0 a => exact absurd rfl (hx s0 a)
  | inf s0 => simp [Dbl.neg]
  | nan s0 => simp [Dbl.neg]

theorem Dbl.neg_fin (ref negRef : String) (mag : ℚ) :
    (if ref = negRef then Dbl.neg (Dbl.fin false mag) else Dbl.fin false mag) =
      Dbl.fin (decide (ref = negRef)) mag := by
  by_cases h : ref = negRef
  · rw [if_pos h]
    simp [Dbl.neg, h]
  · rw [if_neg h]
    simp [h]

theorem stodQuotient_zero_not_fin (n d : List Char) (v : Dbl) (h : stodQuotient n d = some v)
    (hzero : digitsValue d = 0) (s : Bool) (q : ℚ) : v ≠ Dbl.fin s q := by
  obtain ⟨x, y, hx, hy, hv⟩ := stodQuotient_eq_some n d v h
  have hy0 : y = 0 := by
    unfold stod at hy
    rw [hzero, Nat.cast_zero, roundMagnitude_zero] at hy
    simp only [Option.map_some', Option.some.injEq, Dbl.fin.injEq, true_and] at hy
    exact hy.symm
  rw [hv, hy0]
  exact Dbl.div_zero_not_fin x s q

/-- A match with a denominator zero has a value that is not finite. -/
theorem dmsValue_not_finite (m : DmsMatch) (v : Dbl) (h : dmsValue m = some v)
    (hzero : digitsValue m.d2 = 0 ∨ digitsValue m.m2 = 0 ∨ digitsValue m.s2 = 0) (s : Bool)
    (q : ℚ) : v ≠ Dbl.fin s q := by
  obtain ⟨degrees, minutes, seconds, h1, h2, h3, hv⟩ := dmsValue_eq_some m v h
  rw [hv]
  rcases hzero with hz | hz | hz
  · exact Dbl.add_not_fin_left _ _
      (Dbl.add_not_fin_left _ _ (stodQuotient_zero_not_fin _ _ _ h1 hz)) s q
  · exact Dbl.add_not_fin_left _ _
      (Dbl.add_not_fin_right _ _
        (Dbl.div_not_fin _ _ _ (stodQuotient_zero_not_fin _ _ _ h2 hz))) s q
  · exact Dbl.add_not_fin_right _ _
      (Dbl.div_not_fin _ _ _ (stodQuotient_zero_not_fin _ _ _ h3 hz)) s q

/-! ### The members of the object returned -/

theorem parseGpsInfo_latitude (exifData : List (String × String)) (g : Json) (o : Option Dbl)
    (hg : parseGpsInfo exifData = some g)
    (ho : coordinateValue exifData "Exif.GPSInfo.GPSLatitude" "Exif.GPSInfo.GPSLatitudeRef"
      "S" = some o) : g.get "latitude" = o.map JValue.number := by
  obtain ⟨lat, _, _, h1, _, _, g1, _⟩ := parseGpsInfo_eq_some exifData g hg
  rw [h1] at ho
  simp only [Option.some.injEq] at ho
  rw [g1, ho]

theorem parseGpsInfo_longitude (exifData : List (String × String)) (g : Json) (o : Option Dbl)
    (hg : parseGpsInfo exifData = some g)
    (ho : coordinateValue exifData "Exif.GPSInfo.GPSLongitude" "Exif.GPSInfo.GPSLongitudeRef"
      "W" = some o) : g.get "longitude" = o.map JValue.number := by
  obtain ⟨_, lon, _, _, h2, _, _, g2, _⟩ := parseGpsInfo_eq_some exifData g hg
  rw [h2] at ho
  simp only [Option.some.injEq] at ho
  rw [g2, ho]

theorem parseGpsInfo_altitude (exifData : List (String × String)) (g : Json) (o : Option Dbl)
    (hg : parseGpsInfo exifData = some g) (ho : altitudeValue exifData = some o) :
    g.get "altitude" = o.map JValue.number := by
  obtain ⟨_, _, alt, _, _, h3, _, _, g3, _⟩ := parseGpsInfo_eq_some exifData g hg
  rw [h3] at ho
  simp only [Option.some.injEq] at ho
  rw [g3, ho]

/-- A coordinate whose value has a match: the block returns exactly when `dmsValue` does, and
the member is then the value with the sign of the reference. -/
theorem coordinate_of_match (exifData : List (String × String))
    (valueTag refTag negRef str ref : String) (m : DmsMatch) (value : Dbl)
    (hv : exifData.lookup valueTag = some str) (hr : exifData.lookup refTag = some ref)
    (hm : regexSearchDms str.data = some m) (hval : dmsValue m = some value) :
    coordinateValue exifData valueTag refTag negRef =
      some (some (if ref = negRef then Dbl.neg value else value)) := by
  rw [coordinateValue_matched _ _ _ _ _ _ _ hv hr hm, hval]
  rfl

theorem coordinate_of_match_throws (exifData : List (String × String))
    (valueTag refTag negRef str ref : String) (m : DmsMatch)
    (hv : exifData.lookup valueTag = some str) (hr : exifData.lookup refTag = some ref)
    (hm : regexSearchDms str.data = some m) (hval : dmsValue m = none) :
    coordinateValue exifData valueTag refTag negRef = none := by
  rw [coordinateValue_matched _ _ _ _ _ _ _ hv hr hm, hval]
  rfl

/-! ### Values that are not rounded -/

/-- A dyadic rational `n / 2 ^ j` with `n` below `2 ^ 53` is a binary64 magnitude: the
rounding leaves it as it is. -/
theorem roundMagnitude_dyadic (n j : ℕ) (hn : n < 2 ^ 53) (hj : j ≤ 1022) :
    roundMagnitude ((n : ℚ) / 2 ^ j) = some ((n : ℚ) / 2 ^ j) := by
  by_cases hn0 : n = 0
  · subst hn0
    simpa using roundMagnitude_zero
  have npos : (0 : ℚ) < n := by exact_mod_cast Nat.pos_of_ne_zero hn0
  have n1 : (1 : ℚ) ≤ n := by exact_mod_cast Nat.one_le_iff_ne_zero.2 hn0
  have nlt : (n : ℚ) < 2 ^ 53 := by exact_mod_cast hn
  have p2 : (0 : ℚ) < 2 ^ j := by positivity
  have apos : (0 : ℚ) < n / 2 ^ j := div_pos npos p2
  have hlow : (-(j : ℤ)) ≤ Int.log 2 ((n : ℚ) / 2 ^ j) := by
    refine (Int.zpow_le_iff_le_log (R := ℚ) (b := 2) (by norm_num) apos).1 ?_
    rw [Nat.cast_ofNat, zpow_neg, zpow_natCast, ← one_div]
    exact div_le_div_of_nonneg_right n1 (le_of_lt p2)
  have hupp : Int.log 2 ((n : ℚ) / 2 ^ j) < 53 - (j : ℤ) := by
    refine (Int.lt_zpow_iff_log_lt (R := ℚ) (b := 2) (by norm_num) apos).1 ?_
    rw [Nat.cast_ofNat, zpow_sub₀ (by norm_num), zpow_natCast]
    rw [zpow_ofNat]
    exact div_lt_div_of_pos_right nlt p2
  have hmax : max (Int.log 2 ((n : ℚ) / 2 ^ j)) (-1022) = Int.log 2 ((n : ℚ) / 2 ^ j) :=
    max_eq_left (by omega)
  obtain ⟨k, hk⟩ : ∃ k : ℕ, Int.log 2 ((n : ℚ) / 2 ^ j) - 52 = -(j : ℤ) - (k : ℤ) :=
    ⟨(52 - (j : ℤ) - Int.log 2 ((n : ℚ) / 2 ^ j)).toNat, by omega⟩
  refine roundMagnitude_exact _ ((n : ℤ) * 2 ^ k) ?_ ?_
  · rw [hmax, hk, zpow_sub₀ (by norm_num), zpow_neg, zpow_natCast, zpow_natCast]
    push_cast
    field_simp
    ring
  · have h1 : (n : ℚ) / 2 ^ j ≤ n := div_le_self (le_of_lt npos) (one_le_pow₀ (by norm_num))
    have h2 : (2 : ℚ) ^ 53 ≤ 2 ^ 1024 := pow_le_pow_right₀ (by norm_num) (by norm_num)
    exact lt_of_le_of_lt h1 (lt_of_lt_of_le nlt h2)

/-- The result of an operation whose exact value is a dyadic rational `n / 2 ^ j` with `n`
below `2 ^ 53` is that value. -/
theorem Dbl.round_dyadic (s : Bool) (a : ℚ) (n j : ℕ) (ha : a = (n : ℚ) / 2 ^ j)
    (hn : n < 2 ^ 53) (hj : j ≤ 1022) : Dbl.round s a = Dbl.fin s a := by
  unfold Dbl.round
  rw [ha, roundMagnitude_dyadic n j hn hj]

/-- The value of a match `"d/1 m/1 0/1"` with `m / 60` a dyadic rational. -/
theorem dmsValue_dyadic (d1 m1 : List Char) (n j : ℕ) (hd : digitsValue d1 < 2 ^ 53)
    (hm : digitsValue m1 < 2 ^ 53)
    (hmin : (digitsValue m1 : ℚ) / 60 = (n : ℚ) / 2 ^ j) (hn : n < 2 ^ 53) (hj : j ≤ 1022)
    (k : ℕ) (hsum : (digitsValue d1 : ℚ) + (n : ℚ) / 2 ^ j = (k : ℚ) / 2 ^ j)
    (hk : k < 2 ^ 53) :
    dmsValue ⟨d1, ['1'], m1, ['1'], ['0'], ['1']⟩ =
      some (Dbl.fin false ((digitsValue d1 : ℚ) + (digitsValue m1 : ℚ) / 60)) := by
  have q1 : stodQuotient d1 ['1'] = some (Dbl.fin false (digitsValue d1)) := by
    rw [stodQuotient_of_stod _ _ _ _ (stod_exact d1 hd) stod_one,
      Dbl.div_fin _ 1 one_ne_zero, div_one, Dbl.round_natCast _ _ hd]
  have q2 : stodQuotient m1 ['1'] = some (Dbl.fin false (digitsValue m1)) := by
    rw [stodQuotient_of_stod _ _ _ _ (stod_exact m1 hm) stod_one,
      Dbl.div_fin _ 1 one_ne_zero, div_one, Dbl.round_natCast _ _ hm]
  have q0 : stodQuotient ['0'] ['1'] = some (Dbl.fin false 0) := by
    rw [stodQuotient_of_stod _ _ _ _ stod_zero stod_one, Dbl.div_fin _ 1 one_ne_zero,
      zero_div, Dbl.round_zero]
  rw [dmsValue_of_quotients ⟨d1, ['1'], m1, ['1'], ['0'], ['1']⟩ _ _ _ q1 q2 q0,
    Dbl.div_fin _ 60 (by norm_num), Dbl.div_fin 0 3600 (by norm_num), zero_div,
    Dbl.round_zero, Dbl.round_dyadic false _ n j hmin hn hj, Dbl.add_fin,
    Dbl.round_dyadic false _ k j (by rw [hmin, hsum]) hk hj, Dbl.add_fin, add_zero,
    Dbl.round_dyadic false _ k j (by rw [hmin, hsum]) hk hj]

/-! ## The decoded coordinates -/

theorem digitsValue_one_zeros (k : ℕ) : digitsValue ('1' :: List.replicate k '0') = 10 ^ k := by
  induction k with
  | zero => decide
  | succ k ih =>
    rw [List.replicate_succ', ← List.cons_append, digitsValue_append_singleton, ih, pow_succ]
    have : ('0' : Char).toNat - 48 = 0 := by decide
    omega

theorem isDigits_one_zeros (k : ℕ) : IsDigits ('1' :: List.replicate k '0') := by
  refine ⟨by simp, fun c hc => ?_⟩
  rcases List.mem_cons.1 hc with h | h
  · rw [h]; decide
  · rw [List.eq_of_mem_replicate h]; decide

/-- A one followed by 400 zeros is beyond the range of `double`: `std::stod` throws. -/
theorem stod_one_zeros : stod ('1' :: List.replicate 400 '0') = none := by
  refine stod_overflow _ ?_
  rw [digitsValue_one_zeros]
  calc 2 ^ 1024 ≤ 2 ^ 1200 := Nat.pow_le_pow_right (by decide) (by decide)
    _ = (2 ^ 3) ^ 400 := by rw [← pow_mul]
    _ ≤ 10 ^ 400 := Nat.pow_le_pow_left (by decide) 400

theorem dmsValue_one_zeros (d2 m1 m2 s1 s2 : List Char) :
    dmsValue ⟨'1' :: List.replicate 400 '0', d2, m1, m2, s1, s2⟩ = none :=
  dmsValue_throws _ (Or.inl (stodQuotient_throws _ _ (Or.inl stod_one_zeros)))

/-- C5 counterexample: a latitude of the form `"d1/d2 m1/m2 s1/s2"` with non-zero
denominators whose degrees are a one followed by 400 zeros, with its reference: `std::stod`
throws and `parseGpsInfo` returns nothing. -/
theorem dms_overflow_throws :
    IsDigits ('1' :: List.replicate 400 '0') ∧
    parseGpsInfo [("Exif.GPSInfo.GPSLatitude",
        String.mk (dmsChars ('1' :: List.replicate 400 '0') ['1'] ['0'] ['1'] ['0'] ['1'])),
      ("Exif.GPSInfo.GPSLatitudeRef", "N")] = none :=
  ⟨isDigits_one_zeros 400,
    parseGpsInfo_throws _ (Or.inl (coordinate_of_match_throws _ _ _ _ _ "N" _ rfl rfl
      (regexSearchDms_dmsChars _ _ _ _ _ _ (isDigits_one_zeros 400) (by decide) (by decide)
        (by decide) (by decide) (by decide))
      (dmsValue_one_zeros _ _ _ _ _)))⟩

/-- C5 (amended): for components of at most 300 digits with non-zero denominators there is a
magnitude `mag`, within a relative error of `2 ^ (-50)` of the exact rational
`d1/d2 + (m1/m2)/60 + (s1/s2)/3600`, such that every sub-map holding the value
`"d1/d2 m1/m2 s1/s2"` with a reference, and on which `parseGpsInfo` returns, has the latitude
(longitude) of magnitude `mag`, with the sign bit set exactly when the reference is `S`
(`W`); `parseGpsInfo` returns whenever every value of the sub-map has at most 300
characters. -/
theorem dms_decoded (d1 d2 m1 m2 s1 s2 : List Char) (h1 : IsDigits d1) (h2 : IsDigits d2)
    (h3 : IsDigits m1) (h4 : IsDigits m2) (h5 : IsDigits s1) (h6 : IsDigits s2)
    (l1 : d1.length ≤ 300) (l2 : d2.length ≤ 300) (l3 : m1.length ≤ 300)
    (l4 : m2.length ≤ 300) (l5 : s1.length ≤ 300) (l6 : s2.length ≤ 300)
    (z2 : digitsValue d2 ≠ 0) (z4 : digitsValue m2 ≠ 0) (z6 : digitsValue s2 ≠ 0) :
    ∃ mag : ℚ,
      |mag - dmsRational (digitsValue d1) (digitsValue d2) (digitsValue m1) (digitsValue m2)
          (digitsValue s1) (digitsValue s2)| ≤
        dmsRational (digitsValue d1) (digitsValue d2) (digitsValue m1) (digitsValue m2)
          (digitsValue s1) (digitsValue s2) / 2 ^ 50 ∧
      ∀ (exifData : List (String × String)) (ref : String),
        ((∀ p ∈ exifData, p.2.length ≤ 300) → ∃ g, parseGpsInfo exifData = some g) ∧
        (exifData.lookup "Exif.GPSInfo.GPSLatitude" =
            some (String.mk (dmsChars d1 d2 m1 m2 s1 s2)) →
          exifData.lookup "Exif.GPSInfo.GPSLatitudeRef" = some ref →
          ∀ g, parseGpsInfo exifData = some g →
            g.get "latitude" = some (JValue.number (Dbl.fin (decide (ref = "S")) mag))) ∧
        (exifData.lookup "Exif.GPSInfo.GPSLongitude" =
            some (String.mk (dmsChars d1 d2 m1 m2 s1 s2)) →
          exifData.lookup "Exif.GPSInfo.GPSLongitudeRef" = some ref →
          ∀ g, parseGpsInfo exifData = some g →
            g.get "longitude" = some (JValue.number (Dbl.fin (decide (ref = "W")) mag))) := by
  obtain ⟨v, hv, happ⟩ := dmsValue_approximates ⟨d1, d2, m1, m2, s1, s2⟩
    (digitsValue_lt_of_length _ h1 l1) (digitsValue_lt_of_length _ h2 l2)
    (digitsValue_lt_of_length _ h3 l3) (digitsValue_lt_of_length _ h4 l4)
    (digitsValue_lt_of_length _ h5 l5) (digitsValue_lt_of_length _ h6 l6) z2 z4 z6
  obtain ⟨mag, hmag, hbound⟩ := happ.bound (le_refl 6)
  subst hmag
  have hsearch := regexSearchDms_dmsChars d1 d2 m1 m2 s1 s2 h1 h2 h3 h4 h5 h6
  refine ⟨mag, hbound, fun exifData ref => ⟨parseGpsInfo_short exifData, ?_, ?_⟩⟩
  · intro hlat href g hg
    rw [parseGpsInfo_latitude exifData g _ hg
      (coordinate_of_match _ _ _ _ _ _ _ _ hlat href hsearch hv), Dbl.neg_fin]
    rfl
  · intro hlon href g hg
    rw [parseGpsInfo_longitude exifData g _ hg
      (coordinate_of_match _ _ _ _ _ _ _ _ hlon href hsearch hv), Dbl.neg_fin]
    rfl

/-- C5 witness: the components of `"40/1 26/1 4600/100"`. -/
theorem dms_decoded_witness :
    ∃ mag : ℚ,
      |mag - dmsRational (digitsValue ['4', '0']) (digitsValue ['1']) (digitsValue ['2', '6'])
          (digitsValue ['1']) (digitsValue ['4', '6', '0', '0'])
          (digitsValue ['1', '0', '0'])| ≤
        dmsRational (digitsValue ['4', '0']) (digitsValue ['1']) (digitsValue ['2', '6'])
          (digitsValue ['1']) (digitsValue ['4', '6', '0', '0'])
          (digitsValue ['1', '0', '0']) / 2 ^ 50 ∧
      ∀ (exifData : List (String × String)) (ref : String),
        ((∀ p ∈ exifData, p.2.length ≤ 300) → ∃ g, parseGpsInfo exifData = some g) ∧
        (exifData.lookup "Exif.GPSInfo.GPSLatitude" =
            some (String.mk (dmsChars ['4', '0'] ['1'] ['2', '6'] ['1'] ['4', '6', '0', '0']
              ['1', '0', '0'])) →
          exifData.lookup "Exif.GPSInfo.GPSLatitudeRef" = some ref →
          ∀ g, parseGpsInfo exifData = some g →
            g.get "latitude" = some (JValue.number (Dbl.fin (decide (ref = "S")) mag))) ∧
        (exifData.lookup "Exif.GPSInfo.GPSLongitude" =
            some (String.mk (dmsChars ['4', '0'] ['1'] ['2', '6'] ['1'] ['4', '6', '0', '0']
              ['1', '0', '0'])) →
          exifData.lookup "Exif.GPSInfo.GPSLongitudeRef" = some ref →
          ∀ g, parseGpsInfo exifData = some g →
            g.get "longitude" = some (JValue.number (Dbl.fin (decide (ref = "W")) mag))) :=
  dms_decoded ['4', '0'] ['1'] ['2', '6'] ['1'] ['4', '6', '0', '0'] ['1', '0', '0']
    (by decide) (by decide) (by decide) (by decide) (by decide) (by decide)
    (by decide) (by decide) (by decide) (by decide) (by decide) (by decide)
    (by decide) (by decide) (by decide)

/-- C6 counterexample: the latitude value `"200/1 0/1 0/1"` with the reference `N` is decoded
and stored as 200, outside the range from -90 to 90. -/
theorem latitude_out_of_range :
    (parseGpsInfo [("Exif.GPSInfo.GPSLatitude", "200/1 0/1 0/1"),
      ("Exif.GPSInfo.GPSLatitudeRef", "N")]).bind (fun g => g.get "latitude") =
        some (JValue.number (Dbl.fin false 200)) := by
  obtain ⟨g, hg⟩ := parseGpsInfo_short [("Exif.GPSInfo.GPSLatitude", "200/1 0/1 0/1"),
    ("Exif.GPSInfo.GPSLatitudeRef", "N")] (by decide)
  have hval := dmsValue_whole ['2', '0', '0'] (by decide)
  have hlat := parseGpsInfo_latitude _ g _ hg
    (coordinate_of_match _ _ _ "S" "200/1 0/1 0/1" "N" _ _ rfl rfl
      (show regexSearchDms "200/1 0/1 0/1".data = some _ from by decide) hval)
  rw [hg, Option.some_bind, hlat, Dbl.neg_fin]
  have e : digitsValue ['2', '0', '0'] = 200 := by decide
  rw [e]
  simp

/-- C6 (amended): a latitude (longitude) value `"d/1 0/1 0/1"` with its reference is stored as
`d`, with the sign bit of the reference `S` (`W`), for every whole number `d` below `2 ^ 53`,
whatever the range: no range check is applied in any sub-map on which `parseGpsInfo` returns,
and it returns whenever every value has at most 300 characters. -/
theorem coordinate_unclamped (exifData : List (String × String)) (d : ℕ) (ref : String)
    (hd : d < 2 ^ 53) :
    ((∀ p ∈ exifData, p.2.length ≤ 300) → ∃ g, parseGpsInfo exifData = some g) ∧
    (exifData.lookup "Exif.GPSInfo.GPSLatitude" =
        some (String.mk (dmsChars (toString d).data ['1'] ['0'] ['1'] ['0'] ['1'])) →
      exifData.lookup "Exif.GPSInfo.GPSLatitudeRef" = some ref →
      ∀ g, parseGpsInfo exifData = some g →
        g.get "latitude" = some (JValue.number (Dbl.fin (decide (ref = "S")) d))) ∧
    (exifData.lookup "Exif.GPSInfo.GPSLongitude" =
        some (String.mk (dmsChars (toString d).data ['1'] ['0'] ['1'] ['0'] ['1'])) →
      exifData.lookup "Exif.GPSInfo.GPSLongitudeRef" = some ref →
      ∀ g, parseGpsInfo exifData = some g →
        g.get "longitude" = some (JValue.number (Dbl.fin (decide (ref = "W")) d))) := by
  obtain ⟨hdig, hvalue⟩ := repr_spec d
  have hval := dmsValue_whole (toString d).data (by rw [hvalue]; exact hd)
  rw [hvalue] at hval
  have hsearch := regexSearchDms_dmsChars (toString d).data ['1'] ['0'] ['1'] ['0'] ['1'] hdig
    (by decide) (by decide) (by decide) (by decide) (by decide)
  refine ⟨parseGpsInfo_short exifData, ?_, ?_⟩
  · intro hlat href g hg
    rw [parseGpsInfo_latitude exifData g _ hg
      (coordinate_of_match _ _ _ _ _ _ _ _ hlat href hsearch hval), Dbl.neg_fin]
    rfl
  · intro hlon href g hg
    rw [parseGpsInfo_longitude exifData g _ hg
      (coordinate_of_match _ _ _ _ _ _ _ _ hlon href hsearch hval), Dbl.neg_fin]
    rfl

/-- C6 witness: the longitude value `"200/1 0/1 0/1"` with the reference `W` is stored as
-200. -/
theorem coordinate_unclamped_witness :
    (∃ g, parseGpsInfo [("Exif.GPSInfo.GPSLongitude", "200/1 0/1 0/1"),
        ("Exif.GPSInfo.GPSLongitudeRef", "W")] = some g) ∧
    (∀ g, parseGpsInfo [("Exif.GPSInfo.GPSLongitude", "200/1 0/1 0/1"),
        ("Exif.GPSInfo.GPSLongitudeRef", "W")] = some g →
      g.get "longitude" = some (JValue.number (Dbl.fin true ((200 : ℕ) : ℚ)))) :=
  ⟨(coordinate_unclamped [("Exif.GPSInfo.GPSLongitude", "200/1 0/1 0/1"),
      ("Exif.GPSInfo.GPSLongitudeRef", "W")] 200 "W" (by decide)).1 (by decide),
    (coordinate_unclamped [("Exif.GPSInfo.GPSLongitude", "200/1 0/1 0/1"),
      ("Exif.GPSInfo.GPSLongitudeRef", "W")] 200 "W" (by decide)).2.2 (by decide) (by decide)⟩

/-- C7 counterexample: a signed numerator and surrounding text do not prevent decoding; the
pattern is searched for inside the value. -/
theorem malformed_latitude_decoded :
    (¬ IsDmsString "-12/1 30/1 0/1" ∧
      (parseGpsInfo [("Exif.GPSInfo.GPSLatitude", "-12/1 30/1 0/1"),
        ("Exif.GPSInfo.GPSLatitudeRef", "N")]).bind (fun g => g.get "latitude") =
          some (JValue.number (Dbl.fin false (25 / 2)))) ∧
    (¬ IsDmsString "x 1.5/1 30/1 0/1 y" ∧
      (parseGpsInfo [("Exif.GPSInfo.GPSLatitude", "x 1.5/1 30/1 0/1 y"),
        ("Exif.GPSInfo.GPSLatitudeRef", "N")]).bind (fun g => g.get "latitude") =
          some (JValue.number (Dbl.fin false (11 / 2)))) := by
  have e12 : digitsValue ['1', '2'] = 12 := by decide
  have e5 : digitsValue ['5'] = 5 := by decide
  have e30 : digitsValue ['3', '0'] = 30 := by decide
  have v1 := dmsValue_dyadic ['1', '2'] ['3', '0'] 1 1 (by decide) (by decide)
    (by rw [e30]; norm_num) (by decide) (by decide) 25 (by rw [e12]; norm_num) (by decide)
  have v2 := dmsValue_dyadic ['5'] ['3', '0'] 1 1 (by decide) (by decide)
    (by rw [e30]; norm_num) (by decide) (by decide) 11 (by rw [e5]; norm_num) (by decide)
  rw [e12, e30] at v1
  rw [e5, e30] at v2
  refine ⟨⟨not_isDmsString_of_head _ '-' _ rfl (by decide), ?_⟩,
    ⟨not_isDmsString_of_head _ 'x' _ rfl (by decide), ?_⟩⟩
  · obtain ⟨g, hg⟩ := parseGpsInfo_short [("Exif.GPSInfo.GPSLatitude", "-12/1 30/1 0/1"),
      ("Exif.GPSInfo.GPSLatitudeRef", "N")] (by decide)
    have hlat := parseGpsInfo_latitude _ g _ hg
      (coordinate_of_match _ _ _ "S" "-12/1 30/1 0/1" "N" _ _ rfl rfl
        (show regexSearchDms "-12/1 30/1 0/1".data = some _ from by decide) v1)
    have hNS : decide ("N" = "S") = false := by decide
    rw [hg, Option.some_bind, hlat, Dbl.neg_fin, hNS]
    norm_num
  · obtain ⟨g, hg⟩ := parseGpsInfo_short [("Exif.GPSInfo.GPSLatitude", "x 1.5/1 30/1 0/1 y"),
      ("Exif.GPSInfo.GPSLatitudeRef", "N")] (by decide)
    have hlat := parseGpsInfo_latitude _ g _ hg
      (coordinate_of_match _ _ _ "S" "x 1.5/1 30/1 0/1 y" "N" _ _ rfl rfl
        (show regexSearchDms "x 1.5/1 30/1 0/1 y".data = some _ from by decide) v2)
    have hNS : decide ("N" = "S") = false := by decide
    rw [hg, Option.some_bind, hlat, Dbl.neg_fin, hNS]
    norm_num

/-- C7 (amended): with the value tag and the reference tag present, and `parseGpsInfo`
returning, latitude (longitude) is left unset exactly when the value string contains no
substring of the form `"d1/d2 m1/m2 s1/s2"`, every component a non-empty run of decimal
digits. A value without such a substring makes the block assign nothing and raise nothing;
a match with a component beyond the range of `double` makes `std::stod` throw and
`parseGpsInfo` return nothing, which cannot happen when every value has at most 300
characters. -/
theorem unset_iff_no_pattern (exifData : List (String × String)) (str ref : String) :
    ((∀ p ∈ exifData, p.2.length ≤ 300) → ∃ g, parseGpsInfo exifData = some g) ∧
    (exifData.lookup "Exif.GPSInfo.GPSLatitude" = some str →
      exifData.lookup "Exif.GPSInfo.GPSLatitudeRef" = some ref →
      (¬ ContainsDms str → coordinateValue exifData "Exif.GPSInfo.GPSLatitude"
        "Exif.GPSInfo.GPSLatitudeRef" "S" = some none) ∧
      (∀ g, parseGpsInfo exifData = some g → (g.get "latitude" = none ↔ ¬ ContainsDms str)) ∧
      (∀ m, regexSearchDms str.data = some m → dmsValue m = none →
        parseGpsInfo exifData = none)) ∧
    (exifData.lookup "Exif.GPSInfo.GPSLongitude" = some str →
      exifData.lookup "Exif.GPSInfo.GPSLongitudeRef" = some ref →
      (¬ ContainsDms str → coordinateValue exifData "Exif.GPSInfo.GPSLongitude"
        "Exif.GPSInfo.GPSLongitudeRef" "W" = some none) ∧
      (∀ g, parseGpsInfo exifData = some g → (g.get "longitude" = none ↔ ¬ ContainsDms str)) ∧
      (∀ m, regexSearchDms str.data = some m → dmsValue m = none →
        parseGpsInfo exifData = none)) := by
  have key : ∀ (valueTag refTag negRef : String),
      exifData.lookup valueTag = some str → exifData.lookup refTag = some ref →
      (¬ ContainsDms str → coordinateValue exifData valueTag refTag negRef = some none) ∧
      (∀ o, coordinateValue exifData valueTag refTag negRef = some o →
        (o.map JValue.number = none ↔ ¬ ContainsDms str)) := by
    intro valueTag refTag negRef hv hr
    rw [← regexSearchDms_eq_none_iff]
    cases hm : regexSearchDms str.data with
    | none =>
      have hc := coordinateValue_unmatched exifData valueTag refTag negRef str ref hv hr hm
      refine ⟨fun _ => hc, fun o ho => ?_⟩
      rw [hc] at ho
      simp only [Option.some.injEq] at ho
      rw [← ho]
      simp
    | some m =>
      refine ⟨fun h => absurd h (by simp), fun o ho => ?_⟩
      rw [coordinateValue_matched _ _ _ _ _ _ _ hv hr hm] at ho
      cases hd : dmsValue m with
      | none => rw [hd] at ho; simp at ho
      | some value =>
        rw [hd] at ho
        simp only [Option.map_some', Option.some.injEq] at ho
        rw [← ho]
        simp
  refine ⟨parseGpsInfo_short exifData, ?_, ?_⟩
  · intro hv hr
    obtain ⟨k1, k2⟩ := key "Exif.GPSInfo.GPSLatitude" "Exif.GPSInfo.GPSLatitudeRef" "S" hv hr
    refine ⟨k1, fun g hg => ?_, fun m hm hd => ?_⟩
    · obtain ⟨lat, _, _, hlat, _, _, glat, _⟩ := parseGpsInfo_eq_some exifData g hg
      rw [glat]
      exact k2 lat hlat
    · exact parseGpsInfo_throws _ (Or.inl (coordinate_of_match_throws _ _ _ _ _ _ _ hv hr hm hd))
  · intro hv hr
    obtain ⟨k1, k2⟩ := key "Exif.GPSInfo.GPSLongitude" "Exif.GPSInfo.GPSLongitudeRef" "W" hv hr
    refine ⟨k1, fun g hg => ?_, fun m hm hd => ?_⟩
    · obtain ⟨_, lon, _, _, hlon, _, _, glon, _⟩ := parseGpsInfo_eq_some exifData g hg
      rw [glon]
      exact k2 lon hlon
    · exact parseGpsInfo_throws _
        (Or.inr (Or.inl (coordinate_of_match_throws _ _ _ _ _ _ _ hv hr hm hd)))

/-- C7 witness: a value with a missing denominator holds no match and latitude is unset. -/
theorem unset_iff_no_pattern_witness :
    ¬ ContainsDms "12/1 30 0/1" ∧
    (∃ g, parseGpsInfo [("Exif.GPSInfo.GPSLatitude", "12/1 30 0/1"),
      ("Exif.GPSInfo.GPSLatitudeRef", "N")] = some g) ∧
    (∀ g, parseGpsInfo [("Exif.GPSInfo.GPSLatitude", "12/1 30 0/1"),
      ("Exif.GPSInfo.GPSLatitudeRef", "N")] = some g → g.get "latitude" = none) :=
  ⟨(regexSearchDms_eq_none_iff "12/1 30 0/1").1 (by decide),
    (unset_iff_no_pattern [("Exif.GPSInfo.GPSLatitude", "12/1 30 0/1"),
      ("Exif.GPSInfo.GPSLatitudeRef", "N")] "12/1 30 0/1" "N").1 (by decide),
    fun g hg => (((unset_iff_no_pattern [("Exif.GPSInfo.GPSLatitude", "12/1 30 0/1"),
      ("Exif.GPSInfo.GPSLatitudeRef", "N")] "12/1 30 0/1" "N").2.1 (by decide)
      (by decide)).2.1 g hg).2 ((regexSearchDms_eq_none_iff "12/1 30 0/1").1 (by decide))⟩

/-! ## The round trip through the encoder -/

theorem small_lt (n : ℕ) (h : n ≤ 6000) : n < 10 ^ 300 :=
  lt_of_le_of_lt h (lt_of_lt_of_le (by decide : (6000 : ℕ) < 10 ^ 4)
    (Nat.pow_le_pow_right (by decide) (by decide)))

/-- The components that `encodeDms` writes for a coordinate from 0 to 180 decode to a
magnitude within `2.8e-6` of the coordinate. -/
theorem encodeDms_value (v : ℚ) (hv : 0 ≤ v) (hv180 : v ≤ 180) :
    ∃ dec, dmsValue ⟨(toString ⌊v⌋.toNat).data, ['1'],
        (toString ⌊(v - ⌊v⌋.toNat) * 60⌋.toNat).data, ['1'],
        (toString
          ⌊((v - ⌊v⌋.toNat) * 60 - ⌊(v - ⌊v⌋.toNat) * 60⌋.toNat) * 60 * 100⌋.toNat).data,
        ['1', '0', '0']⟩ = some (Dbl.fin false dec) ∧
      |dec - v| ≤ 28 / 10 ^ 7 := by
  obtain ⟨hd1, hv1⟩ := repr_spec ⌊v⌋.toNat
  obtain ⟨hd2, hv2⟩ := repr_spec ⌊(v - ⌊v⌋.toNat) * 60⌋.toNat
  obtain ⟨hd3, hv3⟩ := repr_spec
    ⌊((v - ⌊v⌋.toNat) * 60 - ⌊(v - ⌊v⌋.toNat) * 60⌋.toNat) * 60 * 100⌋.toNat
  have e1 : digitsValue ['1'] = 1 := by decide
  have e100 : digitsValue ['1', '0', '0'] = 100 := by decide
  have hF : ((⌊v⌋.toNat : ℕ) : ℚ) = (⌊v⌋ : ℚ) := by
    have h := Int.toNat_of_nonneg (Int.floor_nonneg.2 hv)
    exact_mod_cast congrArg (fun z : ℤ => (z : ℚ)) h
  have hfl := Int.floor_le v
  have hfu := Int.lt_floor_add_one v
  have hfrac0 : 0 ≤ (v - ⌊v⌋) * 60 := by nlinarith
  have hM : ((⌊(v - ⌊v⌋) * 60⌋.toNat : ℕ) : ℚ) = (⌊(v - ⌊v⌋) * 60⌋ : ℚ) := by
    have h := Int.toNat_of_nonneg (Int.floor_nonneg.2 hfrac0)
    exact_mod_cast congrArg (fun z : ℤ => (z : ℚ)) h
  have hml := Int.floor_le ((v - ⌊v⌋) * 60)
  have hmu := Int.lt_floor_add_one ((v - ⌊v⌋) * 60)
  have hrem0 : 0 ≤ ((v - ⌊v⌋) * 60 - ⌊(v - ⌊v⌋) * 60⌋) * 60 * 100 := by nlinarith
  have hS : ((⌊((v - ⌊v⌋) * 60 - ⌊(v - ⌊v⌋) * 60⌋) * 60 * 100⌋.toNat : ℕ) : ℚ) =
      (⌊((v - ⌊v⌋) * 60 - ⌊(v - ⌊v⌋) * 60⌋) * 60 * 100⌋ : ℚ) := by
    have h := Int.toNat_of_nonneg (Int.floor_nonneg.2 hrem0)
    exact_mod_cast congrArg (fun z : ℤ => (z : ℚ)) h
  have hsl := Int.floor_le (((v - ⌊v⌋) * 60 - ⌊(v - ⌊v⌋) * 60⌋) * 60 * 100)
  have hsu := Int.lt_floor_add_one (((v - ⌊v⌋) * 60 - ⌊(v - ⌊v⌋) * 60⌋) * 60 * 100)
  have qD : ((⌊v⌋.toNat : ℕ) : ℚ) ≤ 6000 := by rw [hF]; linarith
  have qM : ((⌊(v - ⌊v⌋.toNat) * 60⌋.toNat : ℕ) : ℚ) ≤ 6000 := by
    rw [hF, hM]; nlinarith
  have qS : ((⌊((v - ⌊v⌋.toNat) * 60 -
      ⌊(v - ⌊v⌋.toNat) * 60⌋.toNat) * 60 * 100⌋.toNat : ℕ) : ℚ) ≤ 6000 := by
    rw [hF, hM, hS]; nlinarith
  have bD : ⌊v⌋.toNat < 10 ^ 300 := small_lt _ (by exact_mod_cast qD)
  have bM : ⌊(v - ⌊v⌋.toNat) * 60⌋.toNat < 10 ^ 300 := small_lt _ (by exact_mod_cast qM)
  have bS : ⌊((v - ⌊v⌋.toNat) * 60 - ⌊(v - ⌊v⌋.toNat) * 60⌋.toNat) * 60 * 100⌋.toNat <
      10 ^ 300 := small_lt _ (by exact_mod_cast qS)
  have b1 : digitsValue ['1'] < 10 ^ 300 := small_lt _ (by decide)
  have b100 : digitsValue ['1', '0', '0'] < 10 ^ 300 := small_lt _ (by decide)
  obtain ⟨val, hval, happ⟩ := dmsValue_approximates
    ⟨(toString ⌊v⌋.toNat).data, ['1'], (toString ⌊(v - ⌊v⌋.toNat) * 60⌋.toNat).data, ['1'],
      (toString
        ⌊((v - ⌊v⌋.toNat) * 60 - ⌊(v - ⌊v⌋.toNat) * 60⌋.toNat) * 60 * 100⌋.toNat).data,
      ['1', '0', '0']⟩
    (by rw [hv1]; exact bD) b1 (by rw [hv2]; exact bM) b1 (by rw [hv3]; exact bS) b100
    (by rw [e1]; decide) (by rw [e1]; decide) (by rw [e100]; decide)
  obtain ⟨dec, hdec, hbound⟩ := happ.bound (le_refl 6)
  subst hdec
  refine ⟨dec, hval, ?_⟩
  simp only [hv1, hv2, hv3, e1, e100, dmsRational, Nat.cast_one, Nat.cast_ofNat, div_one]
    at hbound
  rw [hF, hM, hS] at hbound
  rw [abs_le] at hbound ⊢
  obtain ⟨hb1, hb2⟩ := hbound
  have hE0 : (0 : ℚ) ≤ (⌊v⌋ : ℚ) + (⌊(v - ⌊v⌋) * 60⌋ : ℚ) / 60 +
      (⌊((v - ⌊v⌋) * 60 - ⌊(v - ⌊v⌋) * 60⌋) * 60 * 100⌋ : ℚ) / 100 / 3600 := by
    have a1 : (0 : ℚ) ≤ (⌊v⌋ : ℚ) := by exact_mod_cast Int.floor_nonneg.2 hv
    have a2 : (0 : ℚ) ≤ (⌊(v - ⌊v⌋) * 60⌋ : ℚ) := by
      exact_mod_cast Int.floor_nonneg.2 hfrac0
    have a3 : (0 : ℚ) ≤ (⌊((v - ⌊v⌋) * 60 - ⌊(v - ⌊v⌋) * 60⌋) * 60 * 100⌋ : ℚ) := by
      exact_mod_cast Int.floor_nonneg.2 hrem0
    positivity
  have hEv : (⌊v⌋ : ℚ) + (⌊(v - ⌊v⌋) * 60⌋ : ℚ) / 60 +
      (⌊((v - ⌊v⌋) * 60 - ⌊(v - ⌊v⌋) * 60⌋) * 60 * 100⌋ : ℚ) / 100 / 3600 ≤ v := by
    linarith
  have hvE : v - ((⌊v⌋ : ℚ) + (⌊(v - ⌊v⌋) * 60⌋ : ℚ) / 60 +
      (⌊((v - ⌊v⌋) * 60 - ⌊(v - ⌊v⌋) * 60⌋) * 60 * 100⌋ : ℚ) / 100 / 3600) < 1 / 360000 := by
    linarith
  have hsmall : ((⌊v⌋ : ℚ) + (⌊(v - ⌊v⌋) * 60⌋ : ℚ) / 60 +
      (⌊((v - ⌊v⌋) * 60 - ⌊(v - ⌊v⌋) * 60⌋) * 60 * 100⌋ : ℚ) / 100 / 3600) / 2 ^ 50 ≤
      180 / 2 ^ 50 := div_le_div_of_nonneg_right (le_trans hEv hv180) (by positivity)
  have c : (180 : ℚ) / 2 ^ 50 + 1 / 360000 ≤ 28 / 10 ^ 7 := by norm_num
  constructor <;> linarith

/-- The round trip of a coordinate block. -/
theorem encodeDms_decoded (exifData : List (String × String))
    (valueTag refTag negRef ref : String) (v : ℚ) (hv : 0 ≤ v) (hv180 : v ≤ 180)
    (hval : exifData.lookup valueTag = some (encodeDms v))
    (href : exifData.lookup refTag = some ref) :
    ∃ dec, coordinateValue exifData valueTag refTag negRef =
        some (some (Dbl.fin (decide (ref = negRef)) dec)) ∧ |dec - v| ≤ 28 / 10 ^ 7 := by
  obtain ⟨hd1, _⟩ := repr_spec ⌊v⌋.toNat
  obtain ⟨hd2, _⟩ := repr_spec ⌊(v - ⌊v⌋.toNat) * 60⌋.toNat
  obtain ⟨hd3, _⟩ := repr_spec
    ⌊((v - ⌊v⌋.toNat) * 60 - ⌊(v - ⌊v⌋.toNat) * 60⌋.toNat) * 60 * 100⌋.toNat
  have hsearch := regexSearchDms_dmsChars _ _ _ _ _ _ hd1 (by decide : IsDigits ['1']) hd2
    (by decide : IsDigits ['1']) hd3 (by decide : IsDigits ['1', '0', '0'])
  rw [← encodeDms_data v] at hsearch
  obtain ⟨dec, hdec, hbound⟩ := encodeDms_value v hv hv180
  refine ⟨dec, ?_, hbound⟩
  rw [coordinate_of_match _ _ _ _ _ _ _ _ hval href hsearch hdec, Dbl.neg_fin]

/-- C8 counterexample: the coordinate 0.000004 is encoded as `"0/1 0/1 1/100"`, which decodes
to a value that differs from it by more than 1e-6. -/
theorem round_trip_exceeds_tolerance :
    encodeDms (1 / 250000) = "0/1 0/1 1/100" ∧
    ∃ dec, (parseGpsInfo [("Exif.GPSInfo.GPSLatitude", encodeDms (1 / 250000)),
        ("Exif.GPSInfo.GPSLatitudeRef", "N")]).bind (fun g => g.get "latitude") =
          some (JValue.number (Dbl.fin false dec)) ∧
      1 / 1000000 < |dec - 1 / 250000| := by
  refine ⟨encodeDms_example, ?_⟩
  rw [encodeDms_example]
  obtain ⟨g, hg⟩ := parseGpsInfo_short [("Exif.GPSInfo.GPSLatitude", "0/1 0/1 1/100"),
    ("Exif.GPSInfo.GPSLatitudeRef", "N")] (by decide)
  have b : ∀ n : ℕ, n ≤ 6000 → n < 10 ^ 300 := small_lt
  obtain ⟨val, hval, happ⟩ := dmsValue_approximates
    ⟨['0'], ['1'], ['0'], ['1'], ['1'], ['1', '0', '0']⟩
    (b _ (by decide)) (b _ (by decide)) (b _ (by decide)) (b _ (by decide)) (b _ (by decide))
    (b _ (by decide)) (by decide) (by decide) (by decide)
  obtain ⟨dec, hdec, hbound⟩ := happ.bound (le_refl 6)
  subst hdec
  have e0 : digitsValue ['0'] = 0 := by decide
  have e1 : digitsValue ['1'] = 1 := by decide
  have e100 : digitsValue ['1', '0', '0'] = 100 := by decide
  simp only [e0, e1, e100, dmsRational, Nat.cast_one, Nat.cast_ofNat, Nat.cast_zero, div_one,
    zero_div, zero_add] at hbound
  have hlat := parseGpsInfo_latitude _ g _ hg
    (coordinate_of_match _ _ _ "S" "0/1 0/1 1/100" "N" _ _ rfl rfl
      (show regexSearchDms "0/1 0/1 1/100".data = some _ from by decide) hval)
  have hNS : decide ("N" = "S") = false := by decide
  refine ⟨dec, ?_, ?_⟩
  · rw [hg, Option.some_bind, hlat, Dbl.neg_fin, hNS]
    rfl
  · rw [abs_le] at hbound
    obtain ⟨hb1, hb2⟩ := hbound
    have hneg : dec - 1 / 250000 < 0 := by
      have c : (1 : ℚ) / 100 / 3600 + 1 / 100 / 3600 / 2 ^ 50 < 1 / 250000 := by norm_num
      linarith
    rw [abs_of_neg hneg]
    have c : (1 : ℚ) / 1000000 + (1 / 100 / 3600 + 1 / 100 / 3600 / 2 ^ 50) < 1 / 250000 := by
      norm_num
    linarith

/-- C8 (amended): a coordinate `v` from 0 to 90 (latitude) or from 0 to 180 (longitude),
encoded as `"d/1 m/1 s/100"` and decoded by `parseGpsInfo`, gives a value of magnitude within
`2.8e-6` of `v`, the resolution of the encoding being one hundredth of a second of arc; the
sign bit is set exactly when the reference is `S` (`W`). -/
theorem round_trip_resolution (exifData : List (String × String)) (ref : String) (v : ℚ)
    (hv : 0 ≤ v) :
    ((∀ p ∈ exifData, p.2.length ≤ 300) → ∃ g, parseGpsInfo exifData = some g) ∧
    (v ≤ 90 → exifData.lookup "Exif.GPSInfo.GPSLatitude" = some (encodeDms v) →
      exifData.lookup "Exif.GPSInfo.GPSLatitudeRef" = some ref →
      ∀ g, parseGpsInfo exifData = some g →
        ∃ dec, g.get "latitude" = some (JValue.number (Dbl.fin (decide (ref = "S")) dec)) ∧
          |dec - v| ≤ 28 / 10 ^ 7) ∧
    (v ≤ 180 → exifData.lookup "Exif.GPSInfo.GPSLongitude" = some (encodeDms v) →
      exifData.lookup "Exif.GPSInfo.GPSLongitudeRef" = some ref →
      ∀ g, parseGpsInfo exifData = some g →
        ∃ dec, g.get "longitude" = some (JValue.number (Dbl.fin (decide (ref = "W")) dec)) ∧
          |dec - v| ≤ 28 / 10 ^ 7) := by
  refine ⟨parseGpsInfo_short exifData, ?_, ?_⟩
  · intro hv90 hval href g hg
    obtain ⟨dec, hdec, hbound⟩ := encodeDms_decoded exifData _ _ "S" ref v hv
      (le_trans hv90 (by norm_num)) hval href
    exact ⟨dec, by rw [parseGpsInfo_latitude exifData g _ hg hdec]; rfl, hbound⟩
  · intro hv180 hval href g hg
    obtain ⟨dec, hdec, hbound⟩ := encodeDms_decoded exifData _ _ "W" ref v hv hv180 hval href
    exact ⟨dec, by rw [parseGpsInfo_longitude exifData g _ hg hdec]; rfl, hbound⟩

/-- C8 witness: the coordinate 40.446111 north. -/
theorem round_trip_resolution_witness :
    (0 : ℚ) ≤ 40446111 / 1000000 ∧ (40446111 / 1000000 : ℚ) ≤ 90 ∧
    (∀ g, parseGpsInfo [("Exif.GPSInfo.GPSLatitude", encodeDms (40446111 / 1000000)),
        ("Exif.GPSInfo.GPSLatitudeRef", "N")] = some g →
      ∃ dec, g.get "latitude" = some (JValue.number (Dbl.fin (decide ("N" = "S")) dec)) ∧
        |dec - 40446111 / 1000000| ≤ 28 / 10 ^ 7) :=
  ⟨by norm_num, by norm_num,
    (round_trip_resolution [("Exif.GPSInfo.GPSLatitude", encodeDms (40446111 / 1000000)),
      ("Exif.GPSInfo.GPSLatitudeRef", "N")] "N" (40446111 / 1000000) (by norm_num)).2.1
      (by norm_num) (by simp [List.lookup]) (by simp [List.lookup])⟩

/-! ## Altitude, zero denominators and the reference tags -/

theorem Dbl.neg_fin_of (c : Prop) [Decidable c] (mag : ℚ) :
    (if c then Dbl.neg (Dbl.fin false mag) else Dbl.fin false mag) =
      Dbl.fin (decide c) mag := by
  by_cases h : c
  · rw [if_pos h]
    simp [Dbl.neg, h]
  · rw [if_neg h]
    simp [h]

theorem altitude_of_match (exifData : List (String × String)) (n d : List Char)
    (altitude : Dbl) (hn : IsDigits n) (hd : IsDigits d)
    (hv : exifData.lookup "Exif.GPSInfo.GPSAltitude" = some (String.mk (n ++ '/' :: d)))
    (hq : stodQuotient n d = some altitude) :
    altitudeValue exifData =
      some (some (if exifData.lookup "Exif.GPSInfo.GPSAltitudeRef" = some "1" then
        Dbl.neg altitude else altitude)) := by
  rw [altitudeValue_matched exifData _ n d hv (regexSearchFraction_exact n d hn hd), hq]
  rfl

theorem altitude_of_match_throws (exifData : List (String × String)) (n d : List Char)
    (hn : IsDigits n) (hd : IsDigits d)
    (hv : exifData.lookup "Exif.GPSInfo.GPSAltitude" = some (String.mk (n ++ '/' :: d)))
    (hq : stodQuotient n d = none) : altitudeValue exifData = none := by
  rw [altitudeValue_matched exifData _ n d hv (regexSearchFraction_exact n d hn hd), hq]
  rfl

/-- C20 counterexample: an altitude `"n/1"` whose numerator is a one followed by 400 zeros,
with the reference `1`: `std::stod` throws and `parseGpsInfo` returns nothing. -/
theorem altitude_overflow_throws :
    IsDigits ('1' :: List.replicate 400 '0') ∧
    parseGpsInfo [("Exif.GPSInfo.GPSAltitude",
        String.mk (('1' :: List.replicate 400 '0') ++ '/' :: ['1'])),
      ("Exif.GPSInfo.GPSAltitudeRef", "1")] = none :=
  ⟨isDigits_one_zeros 400,
    parseGpsInfo_throws _ (Or.inr (Or.inr (altitude_of_match_throws _ _ ['1']
      (isDigits_one_zeros 400) (by decide) rfl
      (stodQuotient_throws _ _ (Or.inl stod_one_zeros)))))⟩

/-- C20 (amended): for a numerator and a non-zero denominator of at most 300 digits there is
a magnitude `mag`, within a relative error of `2 ^ (-50)` of the exact rational `n/d`, such
that every sub-map holding the altitude `"n/d"`, and on which `parseGpsInfo` returns, has the
altitude of magnitude `mag`, with the sign bit set exactly when the altitude reference is
present and equals `1`; `parseGpsInfo` returns whenever every value of the sub-map has at
most 300 characters. -/
theorem altitude_decoded (n d : List Char) (hn : IsDigits n) (hd : IsDigits d)
    (ln : n.length ≤ 300) (ld : d.length ≤ 300) (hd0 : digitsValue d ≠ 0) :
    ∃ mag : ℚ,
      |mag - (digitsValue n : ℚ) / (digitsValue d : ℚ)| ≤
        (digitsValue n : ℚ) / (digitsValue d : ℚ) / 2 ^ 50 ∧
      ∀ exifData : List (String × String),
        ((∀ p ∈ exifData, p.2.length ≤ 300) → ∃ g, parseGpsInfo exifData = some g) ∧
        (exifData.lookup "Exif.GPSInfo.GPSAltitude" = some (String.mk (n ++ '/' :: d)) →
          ∀ g, parseGpsInfo exifData = some g →
            g.get "altitude" = some (JValue.number (Dbl.fin
              (decide (exifData.lookup "Exif.GPSInfo.GPSAltitudeRef" = some "1")) mag))) := by
  obtain ⟨q, hq, happ⟩ := stodQuotient_approximates n d (digitsValue_lt_of_length n hn ln)
    (digitsValue_lt_of_length d hd ld) hd0
  obtain ⟨mag, hmag, hbound⟩ := happ.bound (by norm_num)
  subst hmag
  refine ⟨mag, hbound, fun exifData => ⟨parseGpsInfo_short exifData, fun hv g hg => ?_⟩⟩
  rw [parseGpsInfo_altitude exifData g _ hg (altitude_of_match exifData n d _ hn hd hv hq),
    Dbl.neg_fin_of]
  rfl

/-- C20 witness: the altitude `"1234/10"` below sea level. -/
theorem altitude_decoded_witness :
    ∃ mag : ℚ,
      |mag - (digitsValue ['1', '2', '3', '4'] : ℚ) / (digitsValue ['1', '0'] : ℚ)| ≤
        (digitsValue ['1', '2', '3', '4'] : ℚ) / (digitsValue ['1', '0'] : ℚ) / 2 ^ 50 ∧
      ∀ exifData : List (String × String),
        ((∀ p ∈ exifData, p.2.length ≤ 300) → ∃ g, parseGpsInfo exifData = some g) ∧
        (exifData.lookup "Exif.GPSInfo.GPSAltitude" =
            some (String.mk (['1', '2', '3', '4'] ++ '/' :: ['1', '0'])) →
          ∀ g, parseGpsInfo exifData = some g →
            g.get "altitude" = some (JValue.number (Dbl.fin
              (decide (exifData.lookup "Exif.GPSInfo.GPSAltitudeRef" = some "1")) mag))) :=
  altitude_decoded ['1', '2', '3', '4'] ['1', '0'] (by decide) (by decide) (by decide)
    (by decide) (by decide)

theorem stodQuotient_zero_zero : stodQuotient ['0'] ['0'] = some (Dbl.nan true) := by
  rw [stodQuotient_of_stod _ _ _ _ stod_zero stod_zero]
  simp [Dbl.div]

/-- C28 counterexample: the latitude `"0/0 0/0 0/0"` is stored as NaN and the altitude `"5/0"`
as infinity; the divisions by zero are carried out. -/
theorem zero_denominator_stored :
    (parseGpsInfo [("Exif.GPSInfo.GPSLatitude", "0/0 0/0 0/0"),
      ("Exif.GPSInfo.GPSLatitudeRef", "N")]).bind (fun g => g.get "latitude") =
        some (JValue.number (Dbl.nan true)) ∧
    (parseGpsInfo [("Exif.GPSInfo.GPSAltitude", "5/0")]).bind (fun g => g.get "altitude") =
      some (JValue.number (Dbl.inf false)) := by
  constructor
  · obtain ⟨g, hg⟩ := parseGpsInfo_short [("Exif.GPSInfo.GPSLatitude", "0/0 0/0 0/0"),
      ("Exif.GPSInfo.GPSLatitudeRef", "N")] (by decide)
    have hval : dmsValue ⟨['0'], ['0'], ['0'], ['0'], ['0'], ['0']⟩ = some (Dbl.nan true) := by
      rw [dmsValue_of_quotients ⟨['0'], ['0'], ['0'], ['0'], ['0'], ['0']⟩ _ _ _
        stodQuotient_zero_zero stodQuotient_zero_zero stodQuotient_zero_zero]
      simp [Dbl.div, Dbl.add]
    have hlat := parseGpsInfo_latitude _ g _ hg
      (coordinate_of_match _ _ _ "S" "0/0 0/0 0/0" "N" _ _ rfl rfl
        (show regexSearchDms "0/0 0/0 0/0".data = some _ from by decide) hval)
    rw [hg, Option.some_bind, hlat, if_neg (by decide)]
    rfl
  · obtain ⟨g, hg⟩ := parseGpsInfo_short [("Exif.GPSInfo.GPSAltitude", "5/0")] (by decide)
    have h5 : stod ['5'] = some (Dbl.fin false 5) := by
      have h := stod_exact ['5'] (by decide)
      have e : digitsValue ['5'] = 5 := by decide
      rw [e] at h
      simpa using h
    have hq : stodQuotient ['5'] ['0'] = some (Dbl.inf false) := by
      rw [stodQuotient_of_stod _ _ _ _ h5 stod_zero]
      simp [Dbl.div]
    have halt := parseGpsInfo_altitude _ g _ hg
      (altitude_of_match [("Exif.GPSInfo.GPSAltitude", "5/0")] ['5'] ['0'] _ (by decide)
        (by decide) rfl hq)
    rw [hg, Option.some_bind, halt, if_neg (by decide)]
    rfl

/-- C28 (amended): `parseGpsInfo` does not test a denominator: when it returns, a latitude or
longitude value `"d1/d2 m1/m2 s1/s2"` with a zero denominator, its reference tag present, and
an altitude value `"n/d"` with `d` zero have been divided in floating point and the field is
set to the result, an infinity or NaN, never a finite number; it returns whenever every value
has at most 300 characters. -/
theorem zero_denominator_not_finite (exifData : List (String × String))
    (d1 d2 m1 m2 s1 s2 n d : List Char) (ref : String) (h1 : IsDigits d1) (h2 : IsDigits d2)
    (h3 : IsDigits m1) (h4 : IsDigits m2) (h5 : IsDigits s1) (h6 : IsDigits s2)
    (hn : IsDigits n) (hd : IsDigits d)
    (hzero : digitsValue d2 = 0 ∨ digitsValue m2 = 0 ∨ digitsValue s2 = 0)
    (hdzero : digitsValue d = 0) :
    ((∀ p ∈ exifData, p.2.length ≤ 300) → ∃ g, parseGpsInfo exifData = some g) ∧
    (exifData.lookup "Exif.GPSInfo.GPSLatitude" = some (String.mk (dmsChars d1 d2 m1 m2 s1 s2)) →
      exifData.lookup "Exif.GPSInfo.GPSLatitudeRef" = some ref →
      ∀ g, parseGpsInfo exifData = some g →
        ∃ v, g.get "latitude" = some (JValue.number v) ∧ ∀ s q, v ≠ Dbl.fin s q) ∧
    (exifData.lookup "Exif.GPSInfo.GPSLongitude" = some (String.mk (dmsChars d1 d2 m1 m2 s1 s2)) →
      exifData.lookup "Exif.GPSInfo.GPSLongitudeRef" = some ref →
      ∀ g, parseGpsInfo exifData = some g →
        ∃ v, g.get "longitude" = some (JValue.number v) ∧ ∀ s q, v ≠ Dbl.fin s q) ∧
    (exifData.lookup "Exif.GPSInfo.GPSAltitude" = some (String.mk (n ++ '/' :: d)) →
      ∀ g, parseGpsInfo exifData = some g →
        ∃ v, g.get "altitude" = some (JValue.number v) ∧ ∀ s q, v ≠ Dbl.fin s q) := by
  have hsearch := regexSearchDms_dmsChars d1 d2 m1 m2 s1 s2 h1 h2 h3 h4 h5 h6
  have key : ∀ (valueTag refTag negRef : String) (o : Option Dbl),
      exifData.lookup valueTag = some (String.mk (dmsChars d1 d2 m1 m2 s1 s2)) →
      exifData.lookup refTag = some ref →
      coordinateValue exifData valueTag refTag negRef = some o →
      ∃ v, o = some v ∧ ∀ s q, v ≠ Dbl.fin s q := by
    intro valueTag refTag negRef o hv hr ho
    rw [coordinateValue_matched _ _ _ _ _ _ _ hv hr hsearch] at ho
    cases hval : dmsValue ⟨d1, d2, m1, m2, s1, s2⟩ with
    | none => rw [hval] at ho; simp at ho
    | some value =>
      rw [hval] at ho
      simp only [Option.map_some', Option.some.injEq] at ho
      have hnf := dmsValue_not_finite _ value hval hzero
      refine ⟨_, ho.symm, ?_⟩
      split_ifs
      · exact Dbl.neg_not_fin value hnf
      · exact hnf
  refine ⟨parseGpsInfo_short exifData, ?_, ?_, ?_⟩
  · intro hv hr g hg
    obtain ⟨lat, _, _, hlat, _, _, glat, _⟩ := parseGpsInfo_eq_some exifData g hg
    obtain ⟨v, hv2, hnf⟩ := key _ _ _ lat hv hr hlat
    exact ⟨v, by rw [glat, hv2]; rfl, hnf⟩
  · intro hv hr g hg
    obtain ⟨_, lon, _, _, hlon, _, _, glon, _⟩ := parseGpsInfo_eq_some exifData g hg
    obtain ⟨v, hv2, hnf⟩ := key _ _ _ lon hv hr hlon
    exact ⟨v, by rw [glon, hv2]; rfl, hnf⟩
  · intro hv g hg
    obtain ⟨_, _, alt, _, _, halt, _, _, galt, _⟩ := parseGpsInfo_eq_some exifData g hg
    rw [altitudeValue_matched exifData _ n d hv (regexSearchFraction_exact n d hn hd)] at halt
    cases hq : stodQuotient n d with
    | none => rw [hq] at halt; simp at halt
    | some altitude =>
      rw [hq] at halt
      simp only [Option.map_some', Option.some.injEq] at halt
      have hnf := stodQuotient_zero_not_fin n d altitude hq hdzero
      refine ⟨_, by rw [galt, ← halt]; rfl, ?_⟩
      split_ifs
      · exact Dbl.neg_not_fin altitude hnf
      · exact hnf

/-- C28 witness: the longitude `"10/1 0/0 0/1"` under the reference `W`. -/
theorem zero_denominator_not_finite_witness :
    (∃ g, parseGpsInfo [("Exif.GPSInfo.GPSLongitude", "10/1 0/0 0/1"),
        ("Exif.GPSInfo.GPSLongitudeRef", "W")] = some g) ∧
    (∀ g, parseGpsInfo [("Exif.GPSInfo.GPSLongitude", "10/1 0/0 0/1"),
        ("Exif.GPSInfo.GPSLongitudeRef", "W")] = some g →
      ∃ v, g.get "longitude" = some (JValue.number v) ∧ ∀ s q, v ≠ Dbl.fin s q) :=
  ⟨(zero_denominator_not_finite [("Exif.GPSInfo.GPSLongitude", "10/1 0/0 0/1"),
      ("Exif.GPSInfo.GPSLongitudeRef", "W")] ['1', '0'] ['1'] ['0'] ['0'] ['0'] ['1'] ['5'] ['0']
    "W" (by decide) (by decide) (by decide) (by decide) (by decide) (by decide) (by decide)
    (by decide) (by decide) (by decide)).1 (by decide),
   (zero_denominator_not_finite [("Exif.GPSInfo.GPSLongitude", "10/1 0/0 0/1"),
      ("Exif.GPSInfo.GPSLongitudeRef", "W")] ['1', '0'] ['1'] ['0'] ['0'] ['0'] ['1'] ['5'] ['0']
    "W" (by decide) (by decide) (by decide) (by decide) (by decide) (by decide) (by decide)
    (by decide) (by decide) (by decide)).2.2.1 (by decide) (by decide)⟩

/-- C30 counterexample: an altitude `"n/1"` whose numerator is a one followed by 400 zeros,
without an altitude reference, is not decoded: `std::stod` throws and `parseGpsInfo` returns
nothing. -/
theorem altitude_without_reference_throws :
    IsDigits ('1' :: List.replicate 400 '0') ∧
    List.lookup "Exif.GPSInfo.GPSAltitudeRef" [("Exif.GPSInfo.GPSAltitude",
        String.mk (('1' :: List.replicate 400 '0') ++ '/' :: ['1']))] = none ∧
    parseGpsInfo [("Exif.GPSInfo.GPSAltitude",
        String.mk (('1' :: List.replicate 400 '0') ++ '/' :: ['1']))] = none :=
  ⟨isDigits_one_zeros 400, rfl,
    parseGpsInfo_throws _ (Or.inr (Or.inr (altitude_of_match_throws _ _ ['1']
      (isDigits_one_zeros 400) (by decide) rfl
      (stodQuotient_throws _ _ (Or.inl stod_one_zeros)))))⟩

/-- C30 (amended): in the object that `parseGpsInfo` returns, latitude (longitude) is set only
when the value tag and the reference tag are both present, so a value without its reference
is not decoded, while an altitude value `"n/d"` is decoded when the altitude reference is
absent; `parseGpsInfo` returns whenever every value has at most 300 characters. -/
theorem reference_required (exifData : List (String × String)) :
    ((∀ p ∈ exifData, p.2.length ≤ 300) → ∃ g, parseGpsInfo exifData = some g) ∧
    (∀ g, parseGpsInfo exifData = some g →
      (g.get "latitude" ≠ none →
        exifData.lookup "Exif.GPSInfo.GPSLatitude" ≠ none ∧
        exifData.lookup "Exif.GPSInfo.GPSLatitudeRef" ≠ none) ∧
      (g.get "longitude" ≠ none →
        exifData.lookup "Exif.GPSInfo.GPSLongitude" ≠ none ∧
        exifData.lookup "Exif.GPSInfo.GPSLongitudeRef" ≠ none) ∧
      (∀ n d : List Char, IsDigits n → IsDigits d →
        exifData.lookup "Exif.GPSInfo.GPSAltitude" = some (String.mk (n ++ '/' :: d)) →
        exifData.lookup "Exif.GPSInfo.GPSAltitudeRef" = none →
        ∃ altitude, stodQuotient n d = some altitude ∧
          g.get "altitude" = some (JValue.number altitude))) := by
  have key : ∀ (valueTag refTag negRef : String) (o : Option Dbl),
      coordinateValue exifData valueTag refTag negRef = some o → o.map JValue.number ≠ none →
      exifData.lookup valueTag ≠ none ∧ exifData.lookup refTag ≠ none := by
    intro valueTag refTag negRef o ho hne
    cases o with
    | none => exact absurd rfl hne
    | some v =>
      obtain ⟨str, ref, _, _, hv, hr, _⟩ := coordinateValue_set _ _ _ _ v ho
      rw [hv, hr]
      exact ⟨by simp, by simp⟩
  refine ⟨parseGpsInfo_short exifData, fun g hg => ?_⟩
  obtain ⟨lat, lon, alt, hlat, hlon, halt, glat, glon, galt, _⟩ :=
    parseGpsInfo_eq_some exifData g hg
  refine ⟨?_, ?_, ?_⟩
  · intro h
    rw [glat] at h
    exact key _ _ _ lat hlat h
  · intro h
    rw [glon] at h
    exact key _ _ _ lon hlon h
  · intro n d hn hd hv hr
    rw [altitudeValue_matched exifData _ n d hv (regexSearchFraction_exact n d hn hd)] at halt
    cases hq : stodQuotient n d with
    | none => rw [hq] at halt; simp at halt
    | some altitude =>
      rw [hq, hr] at halt
      simp only [Option.map_some', Option.some.injEq] at halt
      refine ⟨altitude, rfl, ?_⟩
      rw [galt, ← halt]
      simp

/-- C30 witness: a well-formed latitude without its reference and an altitude without its
reference. -/
theorem reference_required_witness :
    (∃ g, parseGpsInfo [("Exif.GPSInfo.GPSLatitude", "40/1 26/1 46/1"),
      ("Exif.GPSInfo.GPSAltitude", "120/1")] = some g) ∧
    (∀ g, parseGpsInfo [("Exif.GPSInfo.GPSLatitude", "40/1 26/1 46/1"),
      ("Exif.GPSInfo.GPSAltitude", "120/1")] = some g →
        g.get "latitude" = none ∧
        ∃ altitude, stodQuotient ['1', '2', '0'] ['1'] = some altitude ∧
          g.get "altitude" = some (JValue.number altitude)) := by
  have h := reference_required [("Exif.GPSInfo.GPSLatitude", "40/1 26/1 46/1"),
      ("Exif.GPSInfo.GPSAltitude", "120/1")]
  refine ⟨h.1 (by decide), fun g hg => ⟨?_, ?_⟩⟩
  · by_contra hne
    exact ((h.2 g hg).1 hne).2 (by decide)
  · exact (h.2 g hg).2.2 ['1', '2', '0'] ['1'] (by decide) (by decide) (by decide) (by decide)

/-! ## The GPS member of the record and the basic fields -/

/-- The value of `parseGpsInfo` is null exactly when none of the four decoded fields is set. -/
theorem parseGpsInfo_null_iff (exifData : List (String × String)) (g : Json)
    (h : parseGpsInfo exifData = some g) :
    g = Json.null ↔
      g.get "latitude" = none ∧ g.get "longitude" = none ∧ g.get "altitude" = none ∧
      g.get "timestamp" = none := by
  constructor
  · intro hnull
    subst hnull
    exact ⟨rfl, rfl, rfl, rfl⟩
  · rintro ⟨n1, n2, n3, n4⟩
    obtain ⟨lat, lon, alt, hlat, hlon, halt, glat, glon, galt, gts⟩ :=
      parseGpsInfo_eq_some exifData g h
    rw [glat] at n1
    rw [glon] at n2
    rw [galt] at n3
    rw [gts] at n4
    have l1 : lat = none := by cases lat <;> simp_all
    have l2 : lon = none := by cases lon <;> simp_all
    have l3 : alt = none := by cases alt <;> simp_all
    subst l1 l2 l3
    unfold parseGpsInfo parseCoordinate parseAltitude at h
    rw [hlat] at h
    simp only [] at h
    rw [hlon] at h
    simp only [] at h
    rw [halt] at h
    simp only [Option.some.injEq] at h
    rw [parseTimestamp_unset exifData Json.null n4] at h
    rw [← h]
    rfl

theorem gpsMember_of_nonempty (exifData : List Exifdatum) (h : gpsSubMap exifData ≠ []) :
    gpsMember exifData = (parseGpsInfo (gpsSubMap exifData)).map some := by
  unfold gpsMember
  cases hm : gpsSubMap exifData with
  | nil => exact absurd hm h
  | cons p ps => rfl

theorem gpsMember_of_empty (exifData : List Exifdatum) (h : gpsSubMap exifData = []) :
    gpsMember exifData = some none := by
  unfold gpsMember
  rw [h]
  rfl

theorem extractMetadata_eq_some (fs : FileSystem) (parser : Parser) (imagePath : String)
    (md : Metadata) (h : extractMetadata fs parser imagePath = some md) :
    ∃ image filesize gps, parser imagePath = some image ∧
      (fs imagePath).bind (fun st => st.size) = some filesize ∧
      gpsMember image.exifData = some gps ∧
      md.exif = some (interpretExif image.exifData gps) := by
  unfold extractMetadata at h
  cases hp : parser imagePath with
  | none => rw [hp] at h; simp at h
  | some image =>
    rw [hp] at h
    simp only [] at h
    cases hs : (fs imagePath).bind (fun st => st.size) with
    | none => rw [hs] at h; simp at h
    | some filesize =>
      rw [hs] at h
      simp only [] at h
      cases hgm : gpsMember image.exifData with
      | none => rw [hgm] at h; simp at h
      | some gps =>
        rw [hgm] at h
        simp only [Option.some.injEq] at h
        exact ⟨image, filesize, gps, rfl, rfl, hgm, by rw [← h]⟩

theorem extractMetadata_returns (fs : FileSystem) (parser : Parser) (imagePath : String)
    (image : ParsedImage) (filesize : Nat) (gps : Option Json)
    (hparse : parser imagePath = some image)
    (hsize : (fs imagePath).bind (fun st => st.size) = some filesize)
    (hgps : gpsMember image.exifData = some gps) :
    ∃ md, extractMetadata fs parser imagePath = some md ∧
      md.exif = some (interpretExif image.exifData gps) := by
  unfold extractMetadata
  rw [hparse]
  simp only []
  rw [hsize]
  simp only []
  rw [hgps]
  exact ⟨_, rfl, rfl⟩

theorem extractMetadata_gps_throws (fs : FileSystem) (parser : Parser) (imagePath : String)
    (image : ParsedImage) (hparse : parser imagePath = some image)
    (hgps : gpsMember image.exifData = none) : extractMetadata fs parser imagePath = none := by
  cases h : extractMetadata fs parser imagePath with
  | none => rfl
  | some md =>
    obtain ⟨image2, _, gps, hp, _, hg, _⟩ := extractMetadata_eq_some fs parser imagePath md h
    rw [hparse] at hp
    simp only [Option.some.injEq] at hp
    subst hp
    rw [hgps] at hg
    simp at hg

/-- C21 counterexample: a sub-map holding only a tag the decoder does not read, and one
holding only a malformed latitude, give a `gps` member whose value is null. -/
theorem gps_null_for_nonempty_map :
    (gpsSubMap [⟨"Exif.GPSInfo.GPSVersionID", "2 2 0 0", 2⟩] ≠ [] ∧
      gpsMember [⟨"Exif.GPSInfo.GPSVersionID", "2 2 0 0", 2⟩] = some (some Json.null)) ∧
    (gpsSubMap [⟨"Exif.GPSInfo.GPSLatitude", "north", 0⟩,
        ⟨"Exif.GPSInfo.GPSLatitudeRef", "N", 0⟩] ≠ [] ∧
      gpsMember [⟨"Exif.GPSInfo.GPSLatitude", "north", 0⟩,
        ⟨"Exif.GPSInfo.GPSLatitudeRef", "N", 0⟩] = some (some Json.null)) := by
  decide

/-- C21 (amended): in the record that `extractMetadata` returns, the `gps` member is absent
exactly when the GPS sub-map is empty; for a non-empty sub-map it is the value that
`parseGpsInfo` returns, an object when at least one of latitude, longitude, altitude and
timestamp is decoded and null when none is. When `parseGpsInfo` throws, which it cannot when
every value of the sub-map has at most 300 characters, `extractMetadata` returns no record. -/
theorem gps_member_presence (exifData : List Exifdatum) :
    (gpsMember exifData = some none ↔ gpsSubMap exifData = []) ∧
    (gpsSubMap exifData ≠ [] →
      gpsMember exifData = (parseGpsInfo (gpsSubMap exifData)).map some) ∧
    (∀ g, parseGpsInfo (gpsSubMap exifData) = some g →
      (g = Json.null ↔
        g.get "latitude" = none ∧ g.get "longitude" = none ∧ g.get "altitude" = none ∧
        g.get "timestamp" = none)) ∧
    ((∀ p ∈ gpsSubMap exifData, p.2.length ≤ 300) → ∃ gps, gpsMember exifData = some gps) ∧
    (∀ (fs : FileSystem) (parser : Parser) (imagePath : String) (iptc xmp : List (String × String)),
      parser imagePath = some ⟨exifData, iptc, xmp⟩ →
      (gpsMember exifData = none → extractMetadata fs parser imagePath = none) ∧
      (∀ md e, extractMetadata fs parser imagePath = some md → md.exif = some e →
        gpsMember exifData = some e.gps)) := by
  refine ⟨?_, gpsMember_of_nonempty exifData, fun g hg => parseGpsInfo_null_iff _ g hg, ?_, ?_⟩
  · constructor
    · intro h
      by_contra hne
      rw [gpsMember_of_nonempty exifData hne] at h
      cases hp : parseGpsInfo (gpsSubMap exifData) with
      | none => rw [hp] at h; simp at h
      | some g => rw [hp] at h; simp at h
    · exact gpsMember_of_empty exifData
  · intro hshort
    by_cases hempty : gpsSubMap exifData = []
    · exact ⟨none, gpsMember_of_empty exifData hempty⟩
    · obtain ⟨g, hg⟩ := parseGpsInfo_short _ hshort
      exact ⟨some g, by rw [gpsMember_of_nonempty exifData hempty, hg]; rfl⟩
  · intro fs parser imagePath iptc xmp hparse
    refine ⟨fun hnone => extractMetadata_gps_throws fs parser imagePath _ hparse hnone, ?_⟩
    intro md e hmd he
    obtain ⟨image, _, gps, hp, _, hg, hexif⟩ := extractMetadata_eq_some fs parser imagePath md hmd
    rw [hparse] at hp
    simp only [Option.some.injEq] at hp
    subst hp
    rw [hexif] at he
    simp only [Option.some.injEq] at he
    rw [← he]
    exact hg

/-- C21 witness: a sub-map with a timestamp pair gives an object. -/
theorem gps_member_presence_witness :
    gpsMember [⟨"Exif.GPSInfo.GPSTimeStamp", "10/1 20/1 30/1", 10⟩,
      ⟨"Exif.GPSInfo.GPSDateStamp", "2024:01:02", 0⟩] =
      (parseGpsInfo (gpsSubMap [⟨"Exif.GPSInfo.GPSTimeStamp", "10/1 20/1 30/1", 10⟩,
        ⟨"Exif.GPSInfo.GPSDateStamp", "2024:01:02", 0⟩])).map some :=
  (gps_member_presence [⟨"Exif.GPSInfo.GPSTimeStamp", "10/1 20/1 30/1", 10⟩,
      ⟨"Exif.GPSInfo.GPSDateStamp", "2024:01:02", 0⟩]).2.1 (by decide)

/-- The data whose key contains `Exif.GPSInfo` do not hold one of the five basic tags. -/
theorem gpsSubMap_filter (exifData : List Exifdatum) (tag : String)
    (htag : tag ∈ ["Exif.Image.Make", "Exif.Image.Model", "Exif.Photo.DateTimeOriginal",
      "Exif.Image.DateTime", "Exif.Image.Software"]) :
    gpsSubMap (exifData.filter (fun item => item.key != tag)) = gpsSubMap exifData := by
  have hnot : containsSubstring "Exif.GPSInfo".data tag.data = false := by
    simp only [List.mem_cons, List.mem_singleton, List.not_mem_nil, or_false] at htag
    rcases htag with h | h | h | h | h <;> subst h <;> decide
  unfold gpsSubMap
  rw [List.filter_filter]
  congr 2
  apply List.filter_congr
  intro item _
  by_cases hk : item.key = tag
  · rw [hk, hnot]
    simp
  · have : (item.key != tag) = true := by simpa using hk
    rw [this, Bool.and_true]

theorem gpsMember_filter (exifData : List Exifdatum) (tag : String)
    (htag : tag ∈ ["Exif.Image.Make", "Exif.Image.Model", "Exif.Photo.DateTimeOriginal",
      "Exif.Image.DateTime", "Exif.Image.Software"]) :
    gpsMember (exifData.filter (fun item => item.key != tag)) = gpsMember exifData := by
  unfold gpsMember
  rw [gpsSubMap_filter exifData tag htag]

theorem gpsMember_isSome (exifData : List Exifdatum) :
    (gpsMember exifData).isSome = true ↔
      (gpsSubMap exifData = [] ∨ (parseGpsInfo (gpsSubMap exifData)).isSome = true) := by
  by_cases hempty : gpsSubMap exifData = []
  · rw [gpsMember_of_empty exifData hempty]
    simp [hempty]
  · rw [gpsMember_of_nonempty exifData hempty]
    cases parseGpsInfo (gpsSubMap exifData) <;> simp [hempty]

/-- The record is returned exactly when the file size is read and the GPS step returns. -/
theorem extractMetadata_isSome (fs : FileSystem) (parser : Parser) (imagePath : String)
    (image : ParsedImage) (hparse : parser imagePath = some image) :
    (extractMetadata fs parser imagePath).isSome = true ↔
      ((fs imagePath).bind (fun st => st.size)).isSome = true ∧
      (gpsMember image.exifData).isSome = true := by
  constructor
  · intro h
    cases hmd : extractMetadata fs parser imagePath with
    | none => rw [hmd] at h; simp at h
    | some md =>
      obtain ⟨image2, filesize, member, hp, hs, hg, _⟩ :=
        extractMetadata_eq_some fs parser imagePath md hmd
      rw [hparse] at hp
      simp only [Option.some.injEq] at hp
      subst hp
      exact ⟨by rw [hs]; rfl, by rw [hg]; rfl⟩
  · rintro ⟨hs, hg⟩
    cases hsz : (fs imagePath).bind (fun st => st.size) with
    | none => rw [hsz] at hs; simp at hs
    | some filesize =>
      cases hgm : gpsMember image.exifData with
      | none => rw [hgm] at hg; simp at hg
      | some member =>
        obtain ⟨md, hmd, _⟩ := extractMetadata_returns fs parser imagePath _ filesize member
          hparse hsz hgm
        rw [hmd]
        rfl

/-- C23: each of the fields make, model, datetime_original, datetime_modified and software
of the record is set exactly when the Exif data hold a datum under the tag of the field, and
is then the text of the first such datum. An absent tag causes no error: `extractMetadata`
returns the record exactly when the file size is read and the GPS step returns, the record
then holding these fields, and removing the data of one of the five tags does not change
whether it returns. -/
theorem basic_fields_copied (exifData : List Exifdatum) (gps : Option Json) :
    (∀ p ∈ [((interpretExif exifData gps).make, "Exif.Image.Make"),
        ((interpretExif exifData gps).model, "Exif.Image.Model"),
        ((interpretExif exifData gps).datetime_original, "Exif.Photo.DateTimeOriginal"),
        ((interpretExif exifData gps).datetime_modified, "Exif.Image.DateTime"),
        ((interpretExif exifData gps).software, "Exif.Image.Software")],
      (p.1.isSome = true ↔ ∃ item ∈ exifData, item.key = p.2) ∧
      (∀ item, findKey exifData p.2 = some item → p.1 = some item.text)) ∧
    (∀ (fs : FileSystem) (parser : Parser) (imagePath : String)
        (iptc xmp : List (String × String)),
      parser imagePath = some ⟨exifData, iptc, xmp⟩ →
      ((extractMetadata fs parser imagePath).isSome = true ↔
        ((fs imagePath).bind (fun st => st.size)).isSome = true ∧
        (gpsSubMap exifData = [] ∨ (parseGpsInfo (gpsSubMap exifData)).isSome = true)) ∧
      (∀ md, extractMetadata fs parser imagePath = some md →
        ∃ member, gpsMember exifData = some member ∧
          md.exif = some (interpretExif exifData member)) ∧
      (∀ (parser2 : Parser) (tag : String),
        tag ∈ ["Exif.Image.Make", "Exif.Image.Model", "Exif.Photo.DateTimeOriginal",
          "Exif.Image.DateTime", "Exif.Image.Software"] →
        parser2 imagePath = some ⟨exifData.filter (fun item => item.key != tag), iptc, xmp⟩ →
        (extractMetadata fs parser2 imagePath).isSome =
          (extractMetadata fs parser imagePath).isSome)) := by
  have key : ∀ tag : String,
      (((findKey exifData tag).map (fun d => d.text)).isSome = true ↔
        ∃ item ∈ exifData, item.key = tag) ∧
      (∀ item, findKey exifData tag = some item →
        (findKey exifData tag).map (fun d => d.text) = some item.text) := by
    intro tag
    refine ⟨?_, ?_⟩
    · rw [← findKey_isSome]
      cases findKey exifData tag <;> simp
    · intro item h
      rw [h]
      rfl
  refine ⟨?_, ?_⟩
  · intro p hp
    simp only [List.mem_cons, List.mem_singleton, List.not_mem_nil, or_false] at hp
    rcases hp with h | h | h | h | h <;> subst h <;> exact key _
  · intro fs parser imagePath iptc xmp hparse
    refine ⟨?_, ?_, ?_⟩
    · rw [extractMetadata_isSome fs parser imagePath _ hparse]
      exact and_congr_right (fun _ => gpsMember_isSome exifData)
    · intro md hmd
      obtain ⟨image, _, member, hp, _, hg, hexif⟩ :=
        extractMetadata_eq_some fs parser imagePath md hmd
      rw [hparse] at hp
      simp only [Option.some.injEq] at hp
      subst hp
      exact ⟨member, hg, hexif⟩
    · intro parser2 tag htag hparse2
      rw [Bool.eq_iff_iff, extractMetadata_isSome fs parser imagePath _ hparse,
        extractMetadata_isSome fs parser2 imagePath _ hparse2]
      show _ ∧ (gpsMember (exifData.filter (fun item => item.key != tag))).isSome = true ↔ _
      rw [gpsMember_filter exifData tag htag]

/-- C23 witness: Exif data with a make, no model and two software data. -/
theorem basic_fields_copied_witness :
    (interpretExif [⟨"Exif.Image.Make", "Canon", 0⟩, ⟨"Exif.Image.Software", "GIMP 2.10", 0⟩,
      ⟨"Exif.Image.Software", "digiKam", 0⟩] none).make = some "Canon" ∧
    (interpretExif [⟨"Exif.Image.Make", "Canon", 0⟩, ⟨"Exif.Image.Software", "GIMP 2.10", 0⟩,
      ⟨"Exif.Image.Software", "digiKam", 0⟩] none).software = some "GIMP 2.10" ∧
    ((interpretExif [⟨"Exif.Image.Make", "Canon", 0⟩, ⟨"Exif.Image.Software", "GIMP 2.10", 0⟩,
      ⟨"Exif.Image.Software", "digiKam", 0⟩] none).model.isSome = true ↔
      ∃ item ∈ [(⟨"Exif.Image.Make", "Canon", 0⟩ : Exifdatum),
        ⟨"Exif.Image.Software", "GIMP 2.10", 0⟩, ⟨"Exif.Image.Software", "digiKam", 0⟩],
        item.key = "Exif.Image.Model") ∧
    (extractMetadata (fun _ => some ⟨some 10, some []⟩)
        (fun _ => some ⟨[⟨"Exif.Image.Make", "Canon", 0⟩,
          ⟨"Exif.Image.Software", "GIMP 2.10", 0⟩, ⟨"Exif.Image.Software", "digiKam", 0⟩],
          [], []⟩) "a.jpg").isSome = true :=
  have h := basic_fields_copied [⟨"Exif.Image.Make", "Canon", 0⟩,
    ⟨"Exif.Image.Software", "GIMP 2.10", 0⟩, ⟨"Exif.Image.Software", "digiKam", 0⟩] none
  ⟨(h.1 (_, "Exif.Image.Make") (by simp)).2 ⟨"Exif.Image.Make", "Canon", 0⟩ (by decide),
    (h.1 (_, "Exif.Image.Software") (by simp)).2 ⟨"Exif.Image.Software", "GIMP 2.10", 0⟩
      (by decide),
    (h.1 (_, "Exif.Image.Model") (by simp)).1,
    ((h.2 (fun _ => some ⟨some 10, some []⟩) _ "a.jpg" [] [] rfl).1).2
      ⟨rfl, Or.inl (by decide)⟩⟩

/-! ## The age test in real time -/

/-- The age in whole seconds exceeds a non-negative TTL exactly from one full second past the
TTL on, and a negative TTL exactly when the elapsed time exceeds it. -/
theorem ageSeconds_gt_iff (now timestamp maxAge : Int) :
    maxAge < ageSeconds now timestamp ↔
      if 0 ≤ maxAge then (maxAge + 1) * ticksPerSecond ≤ now - timestamp
      else maxAge * ticksPerSecond < now - timestamp := by
  rw [ageSeconds_eq]
  unfold ticksPerSecond
  split_ifs <;> omega

theorem ageSeconds_mono (now now2 timestamp : Int) (h : now ≤ now2) :
    ageSeconds now timestamp ≤ ageSeconds now2 timestamp := by
  rw [ageSeconds_eq, ageSeconds_eq]
  split_ifs <;> omega

/-- C12 counterexample: with a TTL of 86400 s, a record written at time 0 is looked up half a
second after the TTL has elapsed, strictly later than `t + TTL`, and is still returned. -/
theorem stale_entry_returned :
    (0 : Int) + 86400 * ticksPerSecond < 86400500000000 ∧
    (((⟨100, 86400, [], []⟩ : FileCache Nat).cacheMetadata 0 "k" 7).getCachedMetadata
      86400500000000 "k").1 = some 7 := by
  decide

/-- C12 (amended): after `cacheMetadata(k, r)` at time `t` and calls that do not write `k`, a
`getCachedMetadata(k)` at time `t2` whose age `t2 - t`, truncated to whole seconds, exceeds
the TTL returns no value and leaves `k` in neither map, so that every later lookup of `k` is
a miss as long as `k` is not written again; when the truncated age does not exceed the TTL
and the calls in between were made no later than `t2`, the record is returned. For a TTL
that is not negative the truncated age exceeds it exactly when `t2 - t` is at least the TTL
plus one second; for a negative TTL exactly when `t2 - t` exceeds the TTL. -/
theorem get_after_expiry {ρ : Type} (c : FileCache ρ) (ops later : List (CacheOp ρ))
    (k : String) (r : ρ) (t t2 t3 : Int)
    (hops : ∀ op ∈ ops, op.writes k = false)
    (hlater : ∀ op ∈ later, op.writes k = false) :
    (c.maxCacheAge < ageSeconds t2 t →
      (((c.cacheMetadata t k r).run ops).getCachedMetadata t2 k).1 = none ∧
      (((c.cacheMetadata t k r).run ops).getCachedMetadata t2 k).2.metadataCache.lookup k
        = none ∧
      (((c.cacheMetadata t k r).run ops).getCachedMetadata t2 k).2.cacheTimestamps.lookup k
        = none ∧
      ((((c.cacheMetadata t k r).run ops).getCachedMetadata t2 k).2.run later).getCachedMetadata
        t3 k =
        (none, (((c.cacheMetadata t k r).run ops).getCachedMetadata t2 k).2.run later)) ∧
    (ageSeconds t2 t ≤ c.maxCacheAge → (∀ op ∈ ops, op.time ≤ t2) →
      (((c.cacheMetadata t k r).run ops).getCachedMetadata t2 k).1 = some r) ∧
    (0 ≤ c.maxCacheAge →
      (c.maxCacheAge < ageSeconds t2 t ↔ (c.maxCacheAge + 1) * ticksPerSecond ≤ t2 - t)) ∧
    (c.maxCacheAge < 0 →
      (c.maxCacheAge < ageSeconds t2 t ↔ c.maxCacheAge * ticksPerSecond < t2 - t)) := by
  have hput : (c.cacheMetadata t k r).maxCacheAge = c.maxCacheAge := rfl
  refine ⟨?_, ?_, ?_, ?_⟩
  · intro hexpired
    obtain ⟨hinv, hage⟩ := run_entry_or_absent ops k r t hops (c.cacheMetadata t k r)
      (Or.inr ⟨lookup_mapAssign_self _ _ _, lookup_mapAssign_self _ _ _⟩)
    have hget : (((c.cacheMetadata t k r).run ops).getCachedMetadata t2 k).1 = none ∧
        (((c.cacheMetadata t k r).run ops).getCachedMetadata t2 k).2.metadataCache.lookup k
          = none ∧
        (((c.cacheMetadata t k r).run ops).getCachedMetadata t2 k).2.cacheTimestamps.lookup k
          = none := by
      rcases hinv with ⟨h1, h2⟩ | ⟨h1, h2⟩
      · rw [getCachedMetadata_miss _ t2 k h1]
        exact ⟨rfl, h1, h2⟩
      · rw [getCachedMetadata_hit _ t2 t k r h1 h2, hage, hput, if_pos hexpired]
        exact ⟨rfl, lookup_mapErase_self _ _, lookup_mapErase_self _ _⟩
    refine ⟨hget.1, hget.2.1, hget.2.2, ?_⟩
    obtain ⟨a1, _⟩ := run_stays_absent later k hlater _ hget.2.1 hget.2.2
    exact getCachedMetadata_miss _ t3 k a1
  · intro hfresh htimes
    obtain ⟨h1, h2, h3⟩ := run_keeps_entry ops k r t (c.cacheMetadata t k r)
      (lookup_mapAssign_self _ _ _) (lookup_mapAssign_self _ _ _)
      (by
        intro p hp hpk
        rcases List.mem_cons.1 hp with h | h
        · rw [h]
        · exact absurd hpk ((mem_mapErase _ _ _).1 h).2)
      (by
        intro op hop
        refine ⟨hops op hop, ?_⟩
        rw [hput]
        exact le_trans (ageSeconds_mono _ _ _ (htimes op hop)) hfresh)
    rw [getCachedMetadata_hit _ t2 t k r h1 h2, h3, hput, if_neg (not_lt.2 hfresh)]
  · intro hnonneg
    rw [ageSeconds_gt_iff, if_pos hnonneg]
  · intro hneg
    rw [ageSeconds_gt_iff, if_neg (not_le.2 hneg)]

/-- C12 witness: a TTL of 60 s and a record written at 5 s; looked up at 66 s it is gone,
also after a later sweep, and looked up at 65.9 s it is returned. -/
theorem get_after_expiry_witness :
    ((((⟨100, 60, [], []⟩ : FileCache Nat).cacheMetadata 5000000000 "k" 2).run
      [CacheOp.put 6000000000 "other" 3]).getCachedMetadata 66000000000 "k").1 = none ∧
    ((((⟨100, 60, [], []⟩ : FileCache Nat).cacheMetadata 5000000000 "k" 2).run
      [CacheOp.put 6000000000 "other" 3]).getCachedMetadata 65900000000 "k").1 = some 2 :=
  ⟨((get_after_expiry ⟨100, 60, [], []⟩ [CacheOp.put 6000000000 "other" 3]
    [CacheOp.cleanup 68000000000] "k" 2 5000000000 66000000000 70000000000
    (by decide) (by decide)).1 (by decide)).1,
   (get_after_expiry ⟨100, 60, [], []⟩ [CacheOp.put 6000000000 "other" 3]
    [CacheOp.cleanup 68000000000] "k" 2 5000000000 65900000000 70000000000
    (by decide) (by decide)).2.1 (by decide) (by decide)⟩

/-- C25 counterexample: with a TTL of 86400 s, an entry written at time 0 is 86400.5 s old at
the sweep, older than the TTL, and stays in both maps. -/
theorem sweep_keeps_stale_entry :
    (86400500000000 : Int) - 0 > 86400 * ticksPerSecond ∧
    (((⟨0, 86400, [("k", 7)], [("k", 0)]⟩ : FileCache Nat).cleanupCache id 86400500000000
      []).1.metadataCache.lookup "k" = some 7) ∧
    (((⟨0, 86400, [("k", 7)], [("k", 0)]⟩ : FileCache Nat).cleanupCache id 86400500000000
      []).1.cacheTimestamps.lookup "k" = some 0) := by
  refine ⟨by decide, ?_, ?_⟩
  · have h := (cleanupMemory_lookup (⟨0, 86400, [("k", 7)], [("k", 0)]⟩ : FileCache Nat)
      86400500000000 "k").1
    simp only [FileCache.cleanupCache]
    rw [h]
    decide
  · have h := (cleanupMemory_lookup (⟨0, 86400, [("k", 7)], [("k", 0)]⟩ : FileCache Nat)
      86400500000000 "k").2.1
    simp only [FileCache.cleanupCache]
    rw [h]
    decide

/-- C25 (amended): in a cache state that holds each key once, `cleanupCache` removes from both
maps every key whose age at `now`, truncated to whole seconds, exceeds the TTL, and leaves
every other key with its record and its insertion time unchanged. For a TTL that is not
negative the removed keys are those at least the TTL plus one second old, and a key less
than that old is kept; for a negative TTL the removed keys are those older than the TTL. -/
theorem sweep_removes_expired {ρ : Type} (sort : List DirEntry → List DirEntry)
    (c : FileCache ρ) (now : Int) (dir : List DirEntry) (k : String)
    (hnodup : (c.cacheTimestamps.map Prod.fst).Nodup) :
    (∀ t, c.cacheTimestamps.lookup k = some t → ageSeconds now t > c.maxCacheAge →
      (c.cleanupCache sort now dir).1.metadataCache.lookup k = none ∧
      (c.cleanupCache sort now dir).1.cacheTimestamps.lookup k = none) ∧
    (∀ t, c.cacheTimestamps.lookup k = some t → ageSeconds now t ≤ c.maxCacheAge →
      (c.cleanupCache sort now dir).1.metadataCache.lookup k = c.metadataCache.lookup k ∧
      (c.cleanupCache sort now dir).1.cacheTimestamps.lookup k = some t) ∧
    (c.cacheTimestamps.lookup k = none →
      (c.cleanupCache sort now dir).1.metadataCache.lookup k = c.metadataCache.lookup k ∧
      (c.cleanupCache sort now dir).1.cacheTimestamps.lookup k = none) ∧
    (∀ t, c.cacheTimestamps.lookup k = some t → 0 ≤ c.maxCacheAge →
      ((c.maxCacheAge + 1) * ticksPerSecond ≤ now - t →
        (c.cleanupCache sort now dir).1.metadataCache.lookup k = none ∧
        (c.cleanupCache sort now dir).1.cacheTimestamps.lookup k = none) ∧
      (now - t < (c.maxCacheAge + 1) * ticksPerSecond →
        (c.cleanupCache sort now dir).1.metadataCache.lookup k = c.metadataCache.lookup k ∧
        (c.cleanupCache sort now dir).1.cacheTimestamps.lookup k = some t)) ∧
    (∀ t, c.cacheTimestamps.lookup k = some t → c.maxCacheAge < 0 →
      (c.maxCacheAge * ticksPerSecond < now - t →
        (c.cleanupCache sort now dir).1.metadataCache.lookup k = none ∧
        (c.cleanupCache sort now dir).1.cacheTimestamps.lookup k = none) ∧
      (now - t ≤ c.maxCacheAge * ticksPerSecond →
        (c.cleanupCache sort now dir).1.metadataCache.lookup k = c.metadataCache.lookup k ∧
        (c.cleanupCache sort now dir).1.cacheTimestamps.lookup k = some t)) := by
  obtain ⟨h1, h2, _⟩ := cleanupMemory_lookup c now k
  have hmem := mem_keysToRemove c now k hnodup
  simp only [FileCache.cleanupCache]
  have hremoved : ∀ t, c.cacheTimestamps.lookup k = some t → ageSeconds now t > c.maxCacheAge →
      (c.cleanupMemory now).metadataCache.lookup k = none ∧
      (c.cleanupMemory now).cacheTimestamps.lookup k = none := by
    intro t ht hage
    have hin := hmem.2 ⟨t, ht, hage⟩
    rw [h1, h2, if_pos hin, if_pos hin]
    exact ⟨rfl, rfl⟩
  have hkept : ∀ t, c.cacheTimestamps.lookup k = some t → ageSeconds now t ≤ c.maxCacheAge →
      (c.cleanupMemory now).metadataCache.lookup k = c.metadataCache.lookup k ∧
      (c.cleanupMemory now).cacheTimestamps.lookup k = some t := by
    intro t ht hage
    have hout : ¬ k ∈ (c.cacheTimestamps.filter
        (fun p => ageSeconds now p.2 > c.maxCacheAge)).map Prod.fst := by
      intro hin
      obtain ⟨t2, ht2, hage2⟩ := hmem.1 hin
      rw [ht] at ht2
      simp only [Option.some.injEq] at ht2
      subst ht2
      omega
    rw [h1, h2, if_neg hout, if_neg hout]
    exact ⟨rfl, ht⟩
  refine ⟨hremoved, hkept, ?_, ?_, ?_⟩
  · intro ht
    have hout : ¬ k ∈ (c.cacheTimestamps.filter
        (fun p => ageSeconds now p.2 > c.maxCacheAge)).map Prod.fst := by
      intro hin
      obtain ⟨t2, ht2, _⟩ := hmem.1 hin
      rw [ht] at ht2
      simp at ht2
    rw [h1, h2, if_neg hout, if_neg hout]
    exact ⟨rfl, ht⟩
  · intro t ht hnonneg
    have hiff := ageSeconds_gt_iff now t c.maxCacheAge
    rw [if_pos hnonneg] at hiff
    exact ⟨fun h => hremoved t ht (hiff.2 h),
      fun h => hkept t ht (not_lt.1 (fun hgt => absurd (hiff.1 hgt) (not_le.2 h)))⟩
  · intro t ht hneg
    have hiff := ageSeconds_gt_iff now t c.maxCacheAge
    rw [if_neg (not_le.2 hneg)] at hiff
    exact ⟨fun h => hremoved t ht (hiff.2 h),
      fun h => hkept t ht (not_lt.1 (fun hgt => absurd (hiff.1 hgt) (not_lt.2 h)))⟩

/-- C25 witness: with a TTL of 10 s, the sweep at 30 s removes the entry written at 0 s and
keeps the entry written at 19.5 s, which is 10.5 s old. -/
theorem sweep_removes_expired_witness :
    (((⟨0, 10, [("new", 2), ("old", 1)], [("new", 19500000000), ("old", 0)]⟩ :
      FileCache Nat).cleanupCache id 30000000000 []).1.metadataCache.lookup "old" = none ∧
     ((⟨0, 10, [("new", 2), ("old", 1)], [("new", 19500000000), ("old", 0)]⟩ :
      FileCache Nat).cleanupCache id 30000000000 []).1.cacheTimestamps.lookup "old" = none) ∧
    (((⟨0, 10, [("new", 2), ("old", 1)], [("new", 19500000000), ("old", 0)]⟩ :
      FileCache Nat).cleanupCache id 30000000000 []).1.metadataCache.lookup "new" =
        (⟨0, 10, [("new", 2), ("old", 1)], [("new", 19500000000), ("old", 0)]⟩ :
          FileCache Nat).metadataCache.lookup "new" ∧
     ((⟨0, 10, [("new", 2), ("old", 1)], [("new", 19500000000), ("old", 0)]⟩ :
      FileCache Nat).cleanupCache id 30000000000 []).1.cacheTimestamps.lookup "new" =
        some 19500000000) :=
  ⟨((sweep_removes_expired id (⟨0, 10, [("new", 2), ("old", 1)],
      [("new", 19500000000), ("old", 0)]⟩ : FileCache Nat) 30000000000 [] "old"
      (by decide)).2.2.2.1 0 (by decide) (by decide)).1 (by decide),
    ((sweep_removes_expired id (⟨0, 10, [("new", 2), ("old", 1)],
      [("new", 19500000000), ("old", 0)]⟩ : FileCache Nat) 30000000000 [] "new"
      (by decide)).2.2.2.1 19500000000 (by decide) (by decide)).2 (by decide)⟩

end ImageForensics
